import Mathlib

/-!
Verification development for the per-tab job scheduler in `background.js` of the
tool_scan_camp browser extension.  The file shallowly embeds the orchestration
core of the service worker:

* the promise machinery of `enqueueTabJob` / `enqueueCaptureJob` and the two
  trigger paths (`startAutoSend` message handler and the `chrome.alarms.onAlarm`
  listener) as a small-step transition system over a world of promises,
  reactions and running job bodies;
* the readiness waiter `waitForTabComplete` as an event-driven state machine;
* the retry loop of `runJobForTab` as a pure function producing a trace of
  observable effects;
* the delivery retry loop `sendToTelegram`;
* the capture post-processing (`captureTab` region lookup plus `cropImage`).

All definitions are translated from the source; theorems at the end of the file
settle the specification claims against these definitions.
-/

namespace Camp

/-! ## Constants from background.js -/

def DEFAULT_RETRY : Nat := 2
def FOCUS_SWITCH_DELAY : Nat := 700
def AFTER_CAPTURE_DELAY : Nat := 400
def DEFAULT_PAGE_LOAD_TIMEOUT : Nat := 3000

/-! ## Promise machine

`enqueueTabJob` chains a job onto the per-tab promise chain stored in the
`tabQueues` map; `enqueueCaptureJob` chains a capture function onto the single
global `captureQueue` promise.  We model the service worker's promise graph
explicitly: a promise is a natural-number id with an optional settlement
(`none` = pending).  A `Reaction` is a continuation registered on a source
promise which, when the source settles, either settles its target promise or
spawns a job/capture body whose own settlement later settles the target.
-/

/-- JavaScript values that flow through the chains: `undefined` (produced by the
swallowing `.catch` handler of `enqueueTabJob`) or an opaque value. -/
inductive JSVal where
  | undef
  | num (n : Nat)
deriving DecidableEq, Repr

/-- Settlement of a promise: fulfilled with a value or rejected with an error. -/
inductive Outcome where
  | ok (v : JSVal)
  | err (e : JSVal)
deriving DecidableEq, Repr

/-- The reaction kinds occurring in background.js.
`thenJob` is `prev.then(() => jobFn())` of `enqueueTabJob`;
`catchLog` is its `.catch(err => console.error(...))` (returns `undefined`);
`thenCapture` is `prev.then(async () => ... captureFn() ...)` of
`enqueueCaptureJob`; `catchRethrow` is its `.catch(err => { ...; throw err })`;
`finallyClean` is `next.finally(() => { if (tabQueues.get(tabId) === next)
tabQueues.delete(tabId) })`. -/
inductive RKind where
  | thenJob (tab spec : Nat)
  | catchLog
  | thenCapture (tab spec : Nat)
  | catchRethrow
  | finallyClean (tab : Nat)
deriving DecidableEq, Repr

/-- A registered promise reaction: fires once `src` settles, settling `tgt`
(or spawning a body that will settle `tgt`).  For `finallyClean` the target is
unused and set to the source. -/
structure Reaction where
  src : Nat
  tgt : Nat
  kind : RKind
deriving DecidableEq, Repr

/-- An in-flight invocation of `runJobForTab` for `tab`, spawned by a fired
`thenJob` reaction; when it settles it settles promise `tgt`. -/
structure RunJob where
  tgt : Nat
  tab : Nat
  spec : Nat
deriving DecidableEq, Repr

/-- An in-flight capture function submitted through `enqueueCaptureJob`. -/
structure RunCapture where
  tgt : Nat
  tab : Nat
  spec : Nat
deriving DecidableEq, Repr

/-- State of the service worker's promise graph: allocation counter, promise
settlements, registered reactions, running job/capture bodies, the `tabQueues`
map and the global `captureQueue` tail. -/
structure World where
  nprom : Nat
  st : Nat → Option Outcome
  reacts : List Reaction
  runs : List RunJob
  cruns : List RunCapture
  tq : Nat → Option Nat
  cq : Nat

/-- Pointwise update of a promise-state map. -/
def upd (f : Nat → Option Outcome) (k : Nat) (v : Option Outcome) : Nat → Option Outcome :=
  fun x => if x = k then v else f x

/-- Pointwise update of the `tabQueues` map. -/
def updQ (f : Nat → Option Nat) (k : Nat) (v : Option Nat) : Nat → Option Nat :=
  fun x => if x = k then v else f x

/-- `enqueueTabJob(tabId, jobFn)` from background.js:
`prev = tabQueues.get(tabId) || Promise.resolve()` (a fresh fulfilled promise
when the map has no entry); `next = prev.then(() => jobFn()).catch(log)`;
`tabQueues.set(tabId, next)`; `next.finally(cleanup)`; returns `next`.
`spec` identifies the job closure. -/
def enqueueTabJob (tabId spec : Nat) (w : World) : World × Nat :=
  match w.tq tabId with
  | some prev =>
    let p1 := w.nprom
    let nxt := w.nprom + 1
    ({ w with
        nprom := w.nprom + 2,
        reacts := Reaction.mk prev p1 (RKind.thenJob tabId spec) ::
                  Reaction.mk p1 nxt RKind.catchLog ::
                  Reaction.mk nxt nxt (RKind.finallyClean tabId) :: w.reacts,
        tq := updQ w.tq tabId (some nxt) }, nxt)
  | none =>
    let pr := w.nprom
    let p1 := w.nprom + 1
    let nxt := w.nprom + 2
    ({ w with
        nprom := w.nprom + 3,
        st := upd w.st pr (some (Outcome.ok JSVal.undef)),
        reacts := Reaction.mk pr p1 (RKind.thenJob tabId spec) ::
                  Reaction.mk p1 nxt RKind.catchLog ::
                  Reaction.mk nxt nxt (RKind.finallyClean tabId) :: w.reacts,
        tq := updQ w.tq tabId (some nxt) }, nxt)

/-- `enqueueCaptureJob(tabId, captureFn)` from background.js:
`prev = captureQueue`; `next = prev.then(async () => captureFn()).catch(err =>
{ console.error(...); throw err })`; `captureQueue = next`; returns `next`.
There is no cleanup: the global tail is never reset. -/
def enqueueCaptureJob (tabId spec : Nat) (w : World) : World × Nat :=
  let p1 := w.nprom
  let nxt := w.nprom + 1
  ({ w with
      nprom := w.nprom + 2,
      reacts := Reaction.mk w.cq p1 (RKind.thenCapture tabId spec) ::
                Reaction.mk p1 nxt RKind.catchRethrow :: w.reacts,
      cq := nxt }, nxt)

/-- The `startAutoSend` branch of the message listener: it enqueues an
immediate job through `enqueueTabJob` (the alarm registration only influences
when future alarm events occur, which the step relation over-approximates). -/
def handleStartAutoSend (tabId spec : Nat) (w : World) : World :=
  (enqueueTabJob tabId spec w).1

/-- JavaScript `parseInt` restricted to the non-negative decimal strings that
occur in alarm names: parse the leading digits, `none` for NaN. -/
def jsParseInt (s : String) : Option Nat :=
  let ds := s.takeWhile Char.isDigit
  if ds.isEmpty then none else ds.toNat?

/-- The tab id encoded in an alarm name, as recovered by the alarm listener:
`if (!alarm.name.startsWith('autoSend_')) return;`
`const tabId = parseInt(alarm.name.split('_')[1])`. -/
def alarmTabId (name : String) : Option Nat :=
  if name.startsWith "autoSend_" then
    match (name.splitOn "_").get? 1 with
    | some part => jsParseInt part
    | none => none
  else none

/-- The `chrome.alarms.onAlarm` listener: parses the tab id from the alarm name
and hands off to `enqueueTabJob` (never runs the job directly). -/
def handleAlarm (name : String) (spec : Nat) (w : World) : World :=
  match alarmTabId name with
  | some t => (enqueueTabJob t spec w).1
  | none => w

/-- Effect of firing reaction `r` (whose source has settled with `o`) in world
`w` whose reaction list splits as `l1 ++ r :: l2`.  `then`-reactions on a
fulfilled source invoke their callback, spawning a running body; on a rejected
source the rejection passes through to the target.  `catchLog` fulfills the
target with the value, or with `undefined` after logging a rejection;
`catchRethrow` re-settles the target with the same outcome; `finallyClean`
deletes the tab's queue entry if it is still the registered tail. -/
def fireWorld (w : World) (l1 l2 : List Reaction) (r : Reaction) (o : Outcome) : World :=
  let base : World := { w with reacts := l1 ++ l2 }
  match r.kind with
  | RKind.thenJob tab spec =>
    match o with
    | Outcome.ok _ => { base with runs := RunJob.mk r.tgt tab spec :: base.runs }
    | Outcome.err e => { base with st := upd base.st r.tgt (some (Outcome.err e)) }
  | RKind.catchLog =>
    match o with
    | Outcome.ok v => { base with st := upd base.st r.tgt (some (Outcome.ok v)) }
    | Outcome.err _ => { base with st := upd base.st r.tgt (some (Outcome.ok JSVal.undef)) }
  | RKind.thenCapture tab spec =>
    match o with
    | Outcome.ok _ => { base with cruns := RunCapture.mk r.tgt tab spec :: base.cruns }
    | Outcome.err e => { base with st := upd base.st r.tgt (some (Outcome.err e)) }
  | RKind.catchRethrow => { base with st := upd base.st r.tgt (some o) }
  | RKind.finallyClean tab =>
    if w.tq tab = some r.src then { base with tq := updQ base.tq tab none } else base

/-- A running job body settles: it is removed and its target promise settles
with the job's own outcome. -/
def settleRunWorld (w : World) (l1 l2 : List RunJob) (R : RunJob) (o : Outcome) : World :=
  { w with runs := l1 ++ l2, st := upd w.st R.tgt (some o) }

/-- A running capture body settles likewise. -/
def settleCaptureWorld (w : World) (l1 l2 : List RunCapture) (C : RunCapture) (o : Outcome) :
    World :=
  { w with cruns := l1 ++ l2, st := upd w.st C.tgt (some o) }

/-- One event-loop step of the service worker: a `startAutoSend` message, an
alarm firing, a capture submission from inside a job body, a ripe reaction
firing on the microtask queue, or a running job/capture body settling with an
environment-chosen outcome. -/
inductive Step : World → World → Prop where
  | startMsg (tabId spec : Nat) (w : World) : Step w (handleStartAutoSend tabId spec w)
  | alarmFire (name : String) (spec : Nat) (w : World) : Step w (handleAlarm name spec w)
  | captureReq (tabId spec : Nat) (w : World) : Step w (enqueueCaptureJob tabId spec w).1
  | fire (w : World) (l1 l2 : List Reaction) (r : Reaction) (o : Outcome)
      (hsplit : w.reacts = l1 ++ r :: l2) (hsrc : w.st r.src = some o) :
      Step w (fireWorld w l1 l2 r o)
  | settleRun (w : World) (l1 l2 : List RunJob) (R : RunJob) (o : Outcome)
      (hsplit : w.runs = l1 ++ R :: l2) :
      Step w (settleRunWorld w l1 l2 R o)
  | settleCapture (w : World) (l1 l2 : List RunCapture) (C : RunCapture) (o : Outcome)
      (hsplit : w.cruns = l1 ++ C :: l2) :
      Step w (settleCaptureWorld w l1 l2 C o)

/-- Initial world: empty maps, no reactions or bodies, and `captureQueue`
pointing at a fulfilled promise (`Promise.resolve()` at module load). -/
def initWorld : World :=
  { nprom := 1
    st := fun p => if p = 0 then some (Outcome.ok JSVal.undef) else none
    reacts := []
    runs := []
    cruns := []
    tq := fun _ => none
    cq := 0 }

/-- Worlds reachable from service-worker start-up. -/
def Reachable (w : World) : Prop := Relation.ReflTransGen Step initWorld w

/-! ### Invariants of the promise machine -/

/-- Reaction kinds that settle their target (all but `finallyClean`, whose
result promise is discarded by the source). -/
def settling : RKind → Bool
  | RKind.finallyClean _ => false
  | _ => true

/-- Number of entities responsible for eventually settling promise `p`:
settling reactions targeting it plus running bodies targeting it. -/
def ownerCount (w : World) (p : Nat) : Nat :=
  w.reacts.countP (fun r => r.tgt == p && settling r.kind) +
    w.runs.countP (fun R => R.tgt == p) +
    w.cruns.countP (fun C => C.tgt == p)

/-- All ids mentioned by the world are allocated, and unallocated promises are
pending. -/
def IdsOk (w : World) : Prop :=
  (∀ r ∈ w.reacts, r.src < w.nprom ∧ r.tgt < w.nprom) ∧
  (∀ R ∈ w.runs, R.tgt < w.nprom) ∧
  (∀ C ∈ w.cruns, C.tgt < w.nprom) ∧
  (∀ t p, w.tq t = some p → p < w.nprom) ∧
  w.cq < w.nprom ∧
  (∀ p, w.nprom ≤ p → w.st p = none)

/-- Every allocated pending promise has exactly one owner; settled promises
have none. -/
def Owners (w : World) : Prop :=
  ∀ p, p < w.nprom → ownerCount w p = (if (w.st p).isSome then 0 else 1)

/-- The chain of queued jobs for tab `t` hanging upstream of promise `p`
(which is the stored tail, or an intermediate `next` promise), listing the job
promises (`.then` targets) newest first.  Each node is the pair of a `catchLog`
reaction into `p` and the state of the job promise `p1` feeding it: the job may
be finished (`flush`), queued as an unfired `thenJob` reaction (`react`,
recursing on the previous chain segment), or running (`run`, in which case
everything further upstream has already settled and vanished). -/
inductive JobChain (w : World) (t : Nat) : Nat → List Nat → Prop where
  | done (p : Nat) (o : Outcome) (hp : w.st p = some o) : JobChain w t p []
  | flush (p p1 : Nat) (o : Outcome)
      (hp : w.st p = none) (hc : Reaction.mk p1 p RKind.catchLog ∈ w.reacts)
      (hlt : p1 < p) (h1 : w.st p1 = some o) : JobChain w t p []
  | react (p p1 src spec : Nat) (l : List Nat)
      (hp : w.st p = none) (hc : Reaction.mk p1 p RKind.catchLog ∈ w.reacts)
      (hlt : p1 < p) (h1 : w.st p1 = none)
      (hj : Reaction.mk src p1 (RKind.thenJob t spec) ∈ w.reacts)
      (hlt2 : src < p1) (hrec : JobChain w t src l) : JobChain w t p (p1 :: l)
  | run (p p1 spec : Nat)
      (hp : w.st p = none) (hc : Reaction.mk p1 p RKind.catchLog ∈ w.reacts)
      (hlt : p1 < p) (h1 : w.st p1 = none)
      (hR : RunJob.mk p1 t spec ∈ w.runs) : JobChain w t p [p1]

/-- The analogous chain structure of the single global capture queue, with
`catchRethrow` nodes and `thenCapture` / `RunCapture` elements (any tab). -/
inductive CapChain (w : World) : Nat → List Nat → Prop where
  | done (p : Nat) (o : Outcome) (hp : w.st p = some o) : CapChain w p []
  | flush (p p1 : Nat) (o : Outcome)
      (hp : w.st p = none) (hc : Reaction.mk p1 p RKind.catchRethrow ∈ w.reacts)
      (hlt : p1 < p) (h1 : w.st p1 = some o) : CapChain w p []
  | react (p p1 src tab spec : Nat) (l : List Nat)
      (hp : w.st p = none) (hc : Reaction.mk p1 p RKind.catchRethrow ∈ w.reacts)
      (hlt : p1 < p) (h1 : w.st p1 = none)
      (hj : Reaction.mk src p1 (RKind.thenCapture tab spec) ∈ w.reacts)
      (hlt2 : src < p1) (hrec : CapChain w src l) : CapChain w p (p1 :: l)
  | run (p p1 tab spec : Nat)
      (hp : w.st p = none) (hc : Reaction.mk p1 p RKind.catchRethrow ∈ w.reacts)
      (hlt : p1 < p) (h1 : w.st p1 = none)
      (hR : RunCapture.mk p1 tab spec ∈ w.cruns) : CapChain w p [p1]

/-- Per-tab invariant: when the `tabQueues` map holds a tail for `t`, the
stored tail anchors a job chain covering every `thenJob` reaction and every
running job body of this tab; when the map has no entry, no such reaction or
body exists. -/
def TabInv (w : World) (t : Nat) : Prop :=
  (∀ tail, w.tq t = some tail → ∃ l, JobChain w t tail l ∧
      (∀ src p1 spec, Reaction.mk src p1 (RKind.thenJob t spec) ∈ w.reacts → p1 ∈ l) ∧
      (∀ R ∈ w.runs, R.tab = t → R.tgt ∈ l)) ∧
  (w.tq t = none →
      (∀ src p1 spec, Reaction.mk src p1 (RKind.thenJob t spec) ∉ w.reacts) ∧
      (∀ R ∈ w.runs, R.tab ≠ t))

/-- Global capture-queue invariant: `captureQueue` anchors a capture chain
covering every `thenCapture` reaction and every running capture. -/
def CapInv (w : World) : Prop :=
  ∃ l, CapChain w w.cq l ∧
    (∀ src p1 tab spec, Reaction.mk src p1 (RKind.thenCapture tab spec) ∈ w.reacts → p1 ∈ l) ∧
    (∀ C ∈ w.cruns, C.tgt ∈ l)

/-- A stored per-tab tail is never left rejected (the final `.catch` of each
link fulfills with `undefined` on failure). -/
def TailOk (w : World) : Prop :=
  ∀ t p e, w.tq t = some p → w.st p ≠ some (Outcome.err e)

/-- The full machine invariant. -/
def Inv (w : World) : Prop :=
  IdsOk w ∧ Owners w ∧ (∀ t, TabInv w t) ∧ CapInv w ∧ TailOk w

/-- State used to settle the poisoning claim about `enqueueCaptureJob`: after
an enqueue performed while the stored `captureQueue` (`cqold`) is rejected with
`e`, the new job promise `p1` and returned tail `ret` can only ever settle with
the same rejection, and no capture body targeting `p1` ever starts. -/
def Poison (cqold p1 ret : Nat) (e : JSVal) (w : World) : Prop :=
  w.st cqold = some (Outcome.err e) ∧
  ((w.st p1 = none ∧
      ∃ tab spec, Reaction.mk cqold p1 (RKind.thenCapture tab spec) ∈ w.reacts) ∨
    w.st p1 = some (Outcome.err e)) ∧
  ((w.st ret = none ∧ Reaction.mk p1 ret RKind.catchRethrow ∈ w.reacts) ∨
    w.st ret = some (Outcome.err e)) ∧
  (∀ C ∈ w.cruns, C.tgt ≠ p1) ∧
  p1 < w.nprom ∧ ret < w.nprom ∧ cqold < w.nprom ∧
  p1 ≠ ret ∧ cqold ≠ p1 ∧ cqold ≠ ret

/-! ## Readiness waiter: `waitForTabComplete`

The waiter is a promise whose executor registers a timeout timer and a
`chrome.tabs.onUpdated` listener and issues an immediate `chrome.tabs.get`.
We model it as a state machine driven by environment events; the shared
`resolved` flag, the listener/timer registrations and the scheduled
`setTimeout(resolve, ...)` callbacks are explicit state.  Settlement follows
promise semantics: the first `resolve`/`reject` call wins.  Scheduled resolves
(`setTimeout(() => resolve(true), 600)` after completion, `800` grace after a
loading timeout) only settle when their timer later fires (`schedFire`). -/

/-- Events delivered to the waiter by the browser.  `initReply` is the callback
of the immediate `chrome.tabs.get` (error message on `lastError`, otherwise the
tab's status); `updated` is a `tabs.onUpdated` notification; `timerFire` is the
timeout timer; `toutReply` is the callback of the `chrome.tabs.get` issued by
the timeout handler; `schedFire` runs one scheduled resolve callback. -/
inductive WEvent where
  | initReply (res : Except String (Option String))
  | updated (id : Nat) (status : Option String) (url : Option String)
  | timerFire
  | toutReply (res : Except String (Option String))
  | schedFire
deriving Repr

/-- Settlement of the waiter promise. -/
inductive WResult where
  | resolved
  | rejected (msg : String)
deriving DecidableEq, Repr

/-- Waiter state: the `resolved` cleanup flag, whether the listener and timer
are still registered, the two outstanding `chrome.tabs.get` requests, the
delays of scheduled resolve callbacks, and the promise settlement. -/
structure WaitSt where
  resolvedFlag : Bool
  listenerOn : Bool
  timerOn : Bool
  initPending : Bool
  toutPending : Bool
  schedResolves : List Nat
  outcome : Option WResult
deriving DecidableEq, Repr

/-- State right after `waitForTabComplete` is called. -/
def waitInit : WaitSt :=
  { resolvedFlag := false, listenerOn := true, timerOn := true,
    initPending := true, toutPending := false, schedResolves := [], outcome := none }

/-- The `cleanup(timer, listener)` helper: on first call it sets the flag,
clears the timer and removes the listener. -/
def wCleanup (s : WaitSt) : WaitSt :=
  if s.resolvedFlag then s
  else { s with resolvedFlag := true, timerOn := false, listenerOn := false }

/-- A `resolve`/`reject` call: settles the promise only if still pending. -/
def wSettle (s : WaitSt) (r : WResult) : WaitSt :=
  match s.outcome with
  | some _ => s
  | none => { s with outcome := some r }

/-- Message of the rejection raised when `chrome.tabs.get` reports
`lastError`. -/
def notFoundMsg (tabId : Nat) (em : String) : String :=
  "Tab " ++ toString tabId ++ " not found: " ++ em

/-- Message of the rejection raised by the timeout path when the tab is in
neither a loading nor a complete state; mirrors
`tab?.status || 'unknown'`. -/
def timeoutMsg (timeout : Nat) (status : Option String) : String :=
  "waitForTabComplete timeout after " ++ toString timeout ++ "ms, tab status: " ++
    (match status with
     | some s => if s = "" then "unknown" else s
     | none => "unknown")

/-- One event-loop step of the waiter, mirroring the three callbacks of
`waitForTabComplete` plus timer deliveries. -/
def wStep (tabId timeout : Nat) (s : WaitSt) (e : WEvent) : WaitSt :=
  match e with
  | WEvent.initReply res =>
    if s.initPending then
      let s1 := { s with initPending := false }
      match res with
      | Except.error em => wSettle (wCleanup s1) (WResult.rejected (notFoundMsg tabId em))
      | Except.ok stt =>
        if stt = some "complete" then
          let s2 := wCleanup s1
          { s2 with schedResolves := s2.schedResolves ++ [600] }
        else s1
    else s
  | WEvent.updated id status _url =>
    if s.listenerOn && (id == tabId) then
      if status = some "complete" then
        let s2 := wCleanup s
        { s2 with schedResolves := s2.schedResolves ++ [600] }
      else s
    else s
  | WEvent.timerFire =>
    if s.timerOn then
      let s2 := wCleanup s
      { s2 with toutPending := true }
    else s
  | WEvent.toutReply res =>
    if s.toutPending then
      let s1 := { s with toutPending := false }
      match res with
      | Except.error em => wSettle s1 (WResult.rejected (notFoundMsg tabId em))
      | Except.ok stt =>
        if stt = some "complete" ∨ stt = some "loading" then
          { s1 with schedResolves := s1.schedResolves ++ [800] }
        else wSettle s1 (WResult.rejected (timeoutMsg timeout stt))
    else s
  | WEvent.schedFire =>
    match s.schedResolves with
    | [] => s
    | _ :: rest => wSettle { s with schedResolves := rest } WResult.resolved

/-- Run the waiter over a sequence of environment events. -/
def runWaiter (tabId timeout : Nat) (evs : List WEvent) : WaitSt :=
  evs.foldl (wStep tabId timeout) waitInit

/-- Recognizer of the timeout-timer event. -/
def isTimerFire : WEvent → Bool
  | WEvent.timerFire => true
  | _ => false

/-- Recognizer of a timeout-handler lookup reply. -/
def isToutReply : WEvent → Bool
  | WEvent.toutReply _ => true
  | _ => false

/-- Evidence that event `e` can produce rejection message `m`: a failed tab
lookup (at call time or from the timeout handler), or the timeout handler
finding a status that is neither loading nor complete. -/
def rejEvidence (tabId timeout : Nat) (e : WEvent) (m : String) : Prop :=
  (∃ em, (e = WEvent.initReply (Except.error em) ∨ e = WEvent.toutReply (Except.error em)) ∧
      m = notFoundMsg tabId em) ∨
  (∃ stt, e = WEvent.toutReply (Except.ok stt) ∧
      ¬(stt = some "complete" ∨ stt = some "loading") ∧ m = timeoutMsg timeout stt)

/-! ## The retry loop of `runJobForTab`

The job body is a pure function from the stored configuration and an
environment oracle (one record per attempt describing how each awaited browser
operation turns out) to a trace of observable effects plus a success flag.
Steps whose failures the code catches (readiness wait, ping, injected scripts)
cannot fail the attempt; a reload, capture or delivery error throws into the
attempt's `catch`. -/

/-- Observable effects of `runJobForTab`. -/
inductive Eff where
  | logAttempt (attempt : Nat)
  | reload (bypassCache : Bool)
  | waitLoad (timeoutMs : Nat)
  | sleepE (ms : Nat)
  | ping
  | applyDates (s e : String)
  | downloadSheet (name : String)
  | captureE
  | sendE (caption : Option String)
  | badge (text : String)
  | badgeColor (color : String)
  | badgeClearAfter (ms : Nat)
  | restoreTab (id : Nat)
deriving DecidableEq, Repr

/-- JavaScript truthiness of an optional string setting. -/
def truthy : Option String → Bool
  | none => false
  | some s => !(s == "")

/-- The `globalSettings` record (only the bot token is read by the job). -/
structure GlobalSettings where
  botToken : Option String

/-- The per-tab settings record read by `runJobForTab`. -/
structure TabSettings where
  chatId : Option String
  pageLoadTimeout : Option Nat
  startDate : Option String
  endDate : Option String
  fileName : Option String

/-- Result of the `chrome.tabs.get` in the retry-reload check. -/
structure TabStatusInfo where
  status : String
  url : Option String

/-- Environment oracle for one attempt of the retry loop. -/
structure AttemptEnv where
  tabCheck : Except String TabStatusInfo
  reloadRes : Except String Unit
  waitRes : Except String Unit
  pingRes : Except String Unit
  dateRes : Except String Unit
  sheetRes : Except String Unit
  captureRes : Except String String
  sendRes : Except String Unit
  nowStamp : String

/-- Whether a url qualifies to skip the reload on a retry:
`tab.url && !tab.url.startsWith('chrome://')`. -/
def urlOkForSkip : Option String → Bool
  | none => false
  | some u => !(u == "") && !(u.startsWith "chrome://")

/-- The reload decision: always reload on the first attempt; on a retry skip
the reload when the tab is already completely loaded on a regular url (a
failing status check leaves the reload enabled). -/
def shouldReload (attempt : Nat) (env : AttemptEnv) : Bool :=
  if attempt == 0 then true
  else
    match env.tabCheck with
    | Except.ok info => !(info.status == "complete" && urlOkForSkip info.url)
    | Except.error _ => true

/-- Whether the awaited `chrome.tabs.reload` throws in this attempt. -/
def reloadThrew (attempt : Nat) (env : AttemptEnv) : Bool :=
  shouldReload attempt env &&
    (match env.reloadRes with | Except.error _ => true | Except.ok _ => false)

/-- The reload effect segment. -/
def segReload (attempt : Nat) (env : AttemptEnv) : List Eff :=
  if shouldReload attempt env then [Eff.reload (attempt == 0)] else []

/-- The readiness-wait segment: the waiter is called with the progressive
timeout `6000 + attempt * 3000`; a waiter error is caught and replaced by an
extra sleep of `2000 + attempt * 1000`. -/
def segWait (attempt : Nat) (env : AttemptEnv) : List Eff :=
  Eff.waitLoad (6000 + attempt * 3000) ::
    (match env.waitRes with
     | Except.ok _ => []
     | Except.error _ => [Eff.sleepE (2000 + attempt * 1000)])

/-- The date-filter segment (only when both dates are configured truthy). -/
def segDates (tabConf : TabSettings) : List Eff :=
  if truthy tabConf.startDate && truthy tabConf.endDate then
    [Eff.applyDates (tabConf.startDate.getD "") (tabConf.endDate.getD "")]
  else []

/-- The formatted file name `fileName_DD-MM-YYYY_HH-mm`, which doubles as the
Telegram caption; `none` when no file name is configured. -/
def captionOf (tabConf : TabSettings) (env : AttemptEnv) : Option String :=
  if truthy tabConf.fileName then some (tabConf.fileName.getD "" ++ "_" ++ env.nowStamp)
  else none

/-- The sheet-download segment: inject the download script, then (only when
the injection succeeded) sleep 2000 ms for the download to start; injection
failures are caught. -/
def segSheet (tabConf : TabSettings) (env : AttemptEnv) : List Eff :=
  match captionOf tabConf env with
  | some fname =>
    Eff.downloadSheet fname ::
      (match env.sheetRes with
       | Except.ok _ => [Eff.sleepE 2000]
       | Except.error _ => [])
  | none => []

/-- One iteration of the retry loop body (the `try` block): effect trace plus
`some errorMessage` when the attempt throws. -/
def attemptBody (attempt : Nat) (tabConf : TabSettings) (env : AttemptEnv) :
    List Eff × Option String :=
  let pre := Eff.logAttempt attempt :: segReload attempt env
  if reloadThrew attempt env then
    (pre, match env.reloadRes with | Except.error e => some e | Except.ok _ => none)
  else
    let acc := pre ++ segWait attempt env ++ [Eff.ping] ++ segDates tabConf ++
      segSheet tabConf env ++ [Eff.captureE]
    match env.captureRes with
    | Except.error e => (acc, some e)
    | Except.ok _ =>
      let acc2 := acc ++ [Eff.sendE (captionOf tabConf env)]
      match env.sendRes with
      | Except.error e => (acc2, some e)
      | Except.ok _ =>
        (acc2 ++ [Eff.badge "✓", Eff.badgeColor "#4CAF50", Eff.badgeClearAfter 3000], none)

/-- The retry loop (`for attempt = 0; attempt <= DEFAULT_RETRY; attempt++`):
on a caught failure the error badge is set (with no clear timer); on the final
attempt the originally focused tab is restored when known and distinct;
otherwise the loop sleeps `800 + attempt * 400` and retries. -/
def runJobGo (tabConf : TabSettings) (originalTab : Option Nat) (tabId : Nat)
    (envs : Nat → AttemptEnv) : Nat → Nat → List Eff × Bool
  | 0, _ => ([], true)
  | fuel + 1, attempt =>
    let body := attemptBody attempt tabConf (envs attempt)
    match body.2 with
    | none => (body.1, true)
    | some _ =>
      let errEffs := [Eff.badge "✗", Eff.badgeColor "#F44336"]
      if attempt == DEFAULT_RETRY then
        let rest :=
          match originalTab with
          | some o => if o ≠ tabId then [Eff.restoreTab o] else []
          | none => []
        (body.1 ++ errEffs ++ rest, false)
      else
        let nxt := runJobGo tabConf originalTab tabId envs fuel (attempt + 1)
        (body.1 ++ errEffs ++ [Eff.sleepE (800 + attempt * 400)] ++ nxt.1, nxt.2)

/-- `runJobForTab` as a trace function: when the bot token or the chat id is
missing the job returns at once with no effects; otherwise the retry loop runs
with `DEFAULT_RETRY + 1` iterations available.  The boolean records whether
some attempt delivered successfully (the returned promise fulfills either
way). -/
def runJobForTab (tabId : Nat) (global : GlobalSettings) (tabConf : TabSettings)
    (originalTab : Option Nat) (envs : Nat → AttemptEnv) : List Eff × Bool :=
  if truthy global.botToken && truthy tabConf.chatId then
    runJobGo tabConf originalTab tabId envs (DEFAULT_RETRY + 1) 0
  else ([], true)

/-- The focus-restoration step of the final failed attempt: restore the
originally focused tab when it is known and distinct from the job's tab. -/
def restOf (originalTab : Option Nat) (tabId : Nat) : List Eff :=
  match originalTab with
  | some o => if o ≠ tabId then [Eff.restoreTab o] else []
  | none => []

/-- The readiness timeouts requested in a trace, in order. -/
def waitsOf (tr : List Eff) : List Nat :=
  tr.filterMap (fun e => match e with | Eff.waitLoad t => some t | _ => none)

/-- Recognizer of the attempt-start log effect. -/
def isLogAttempt : Eff → Bool
  | Eff.logAttempt _ => true
  | _ => false

/-- Recognizer of a scheduled badge clear. -/
def isBadgeClear : Eff → Bool
  | Eff.badgeClearAfter _ => true
  | _ => false

/-! ## Delivery client: `sendToTelegram` -/

/-- Observable effects of the delivery loop. -/
inductive SEff where
  | postPhoto (attempt : Nat)
  | sleepMs (ms : Nat)
deriving DecidableEq, Repr

/-- The error message thrown once every delivery attempt has failed; it embeds
the last attempt's error message. -/
def telegramFailMsg (retries : Nat) (lastErr : String) : String :=
  "Gửi Telegram thất bại sau " ++ toString retries ++ " lần thử: " ++ lastErr

/-- The loop of `sendToTelegram`: attempts run from 1 to `retries`; a success
returns immediately; a failure on the last attempt throws
`telegramFailMsg retries lastError`; otherwise the loop sleeps
`2000 * attempt` and retries. -/
def sendGo (post : Nat → Except String Unit) (retries : Nat) :
    Nat → Nat → List SEff × Except String Unit
  | 0, _ => ([], Except.ok ())
  | fuel + 1, attempt =>
    match post attempt with
    | Except.ok _ => ([SEff.postPhoto attempt], Except.ok ())
    | Except.error e =>
      if attempt = retries then
        ([SEff.postPhoto attempt], Except.error (telegramFailMsg retries e))
      else
        let rest := sendGo post retries fuel (attempt + 1)
        (SEff.postPhoto attempt :: SEff.sleepMs (2000 * attempt) :: rest.1, rest.2)

/-- `sendToTelegram` with its default retry bound of 3. -/
def sendToTelegram (post : Nat → Except String Unit) : List SEff × Except String Unit :=
  sendGo post 3 3 1

/-! ## Capture post-processing: region lookup and `cropImage` -/

/-- A captured image: dimensions plus a pixel function over coordinates. -/
structure JSImage where
  width : ℚ
  height : ℚ
  pix : ℚ → ℚ → ℚ

/-- A stored capture region in CSS pixels. -/
structure CaptureRegion where
  x : ℚ
  y : ℚ
  width : ℚ
  height : ℚ
deriving DecidableEq, Repr

/-- JavaScript `d || 1` for the stored device pixel ratio. -/
def jsOr1 (d : ℚ) : ℚ := if d = 0 then 1 else d

/-- `cropImage(imageDataUrl, region, dpr)`: draw the source rectangle at
`(region.x * dpr, region.y * dpr)` of size
`(region.width * dpr) × (region.height * dpr)` onto a canvas of that size at
the origin. -/
def cropImage (img : JSImage) (region : CaptureRegion) (dpr : ℚ) : JSImage :=
  let clipX := region.x * dpr
  let clipY := region.y * dpr
  let clipW := region.width * dpr
  let clipH := region.height * dpr
  { width := clipW, height := clipH,
    pix := fun i j => img.pix (clipX + i) (clipY + j) }

/-- Region resolution of `captureTab`: the in-memory `CAPTURE_REGIONS` cache is
consulted first, then the persisted `tabSettings[tabId].captureRegion`. -/
def lookupRegion (mem storage : Nat → Option (CaptureRegion × ℚ)) (tabId : Nat) :
    Option (CaptureRegion × ℚ) :=
  match mem tabId with
  | some c => some c
  | none => storage tabId

/-- The post-capture processing of `captureTab`: crop only when a region is
registered with positive width and height (the stored dpr defaults to 1 when
falsy); otherwise return the raw image unmodified. -/
def captureProcess (entry : Option (CaptureRegion × ℚ)) (raw : JSImage) : JSImage :=
  match entry with
  | some (region, dpr0) =>
    let dpr := jsOr1 dpr0
    if 0 < region.width ∧ 0 < region.height then cropImage raw region dpr else raw
  | none => raw

/-- Full post-processing pipeline for a tab's raw capture. -/
def captureTabPost (mem storage : Nat → Option (CaptureRegion × ℚ)) (tabId : Nat)
    (raw : JSImage) : JSImage :=
  captureProcess (lookupRegion mem storage tabId) raw

/-! ## Concrete executions used by witnesses and counterexamples -/

/-- A `startAutoSend` message for tab 5 arriving in the initial world. -/
def exW1 : World := handleStartAutoSend 5 0 initWorld

/-- The queued job of `exW1` starts running (its `thenJob` reaction fires on
the fulfilled fresh `Promise.resolve()`). -/
def exW2 : World :=
  fireWorld exW1 [] [Reaction.mk 2 3 RKind.catchLog, Reaction.mk 3 3 (RKind.finallyClean 5)]
    (Reaction.mk 1 2 (RKind.thenJob 5 0)) (Outcome.ok JSVal.undef)

/-- A capture submission for tab 7 in the initial world. -/
def exC1 : World := (enqueueCaptureJob 7 0 initWorld).1

/-- The submitted capture of `exC1` starts running. -/
def exC2 : World :=
  fireWorld exC1 [] [Reaction.mk 1 2 RKind.catchRethrow]
    (Reaction.mk 0 1 (RKind.thenCapture 7 0)) (Outcome.ok JSVal.undef)

/-- A `startAutoSend` message for tab 9 in the initial world; the enqueued
job's returned promise is promise 3. -/
def exB1 : World := handleStartAutoSend 9 0 initWorld

/-- The job of `exB1` starts running. -/
def exB2 : World :=
  fireWorld exB1 [] [Reaction.mk 2 3 RKind.catchLog, Reaction.mk 3 3 (RKind.finallyClean 9)]
    (Reaction.mk 1 2 (RKind.thenJob 9 0)) (Outcome.ok JSVal.undef)

/-- The running job of `exB2` rejects with error value 5. -/
def exB3 : World :=
  settleRunWorld exB2 [] [] (RunJob.mk 2 9 0) (Outcome.err (JSVal.num 5))

/-- The `.catch` link of the chain fires on the rejected job promise: it logs
and returns `undefined`, fulfilling the returned promise 3. -/
def exB4 : World :=
  fireWorld exB3 [] [Reaction.mk 3 3 (RKind.finallyClean 9)]
    (Reaction.mk 2 3 RKind.catchLog) (Outcome.err (JSVal.num 5))

/-- A capture submission for tab 4 in the initial world. -/
def exP1 : World := (enqueueCaptureJob 4 0 initWorld).1

/-- The submitted capture of `exP1` starts running. -/
def exP2 : World :=
  fireWorld exP1 [] [Reaction.mk 1 2 RKind.catchRethrow]
    (Reaction.mk 0 1 (RKind.thenCapture 4 0)) (Outcome.ok JSVal.undef)

/-- The capture body rejects with error value 3. -/
def exP3 : World :=
  settleCaptureWorld exP2 [] [] (RunCapture.mk 1 4 0) (Outcome.err (JSVal.num 3))

/-- The rethrowing `.catch` fires: the stored `captureQueue` tail (promise 2)
is now rejected with the same error. -/
def exP4 : World :=
  fireWorld exP3 [] [] (Reaction.mk 1 2 RKind.catchRethrow) (Outcome.err (JSVal.num 3))

/-- Environment for the all-attempts-fail run used against C4 and C7: every
capture fails, everything before it succeeds. -/
def envAllFail : Nat → AttemptEnv := fun _ =>
  { tabCheck := Except.error "tab gone"
    reloadRes := Except.ok ()
    waitRes := Except.ok ()
    pingRes := Except.ok ()
    dateRes := Except.ok ()
    sheetRes := Except.ok ()
    captureRes := Except.error "capture failed"
    sendRes := Except.ok ()
    nowStamp := "01-01-2026_12-00" }

/-- Environment where every awaited operation succeeds. -/
def envAllOk : Nat → AttemptEnv := fun _ =>
  { tabCheck := Except.ok { status := "complete", url := some "https://ads.example" }
    reloadRes := Except.ok ()
    waitRes := Except.ok ()
    pingRes := Except.ok ()
    dateRes := Except.ok ()
    sheetRes := Except.ok ()
    captureRes := Except.ok "data:image/png;base64"
    sendRes := Except.ok ()
    nowStamp := "01-01-2026_12-00" }

/-- A tab configuration with a chat id and no optional steps. -/
def tcBasic : TabSettings :=
  { chatId := some "chat-1", pageLoadTimeout := none,
    startDate := none, endDate := none, fileName := none }

/-- Global settings with a bot token present. -/
def gsBasic : GlobalSettings := { botToken := some "token-1" }

/-- A concrete capture region used to exercise the crop pipeline. -/
def regA : CaptureRegion := { x := 10, y := 20, width := 30, height := 40 }

/-- A concrete raw capture. -/
def rawImg : JSImage := { width := 1000, height := 800, pix := fun i j => i + 2 * j }

/-- In-memory region cache holding a region (dpr 2) for tab 5 only. -/
def memA : Nat → Option (CaptureRegion × ℚ) := fun t => if t = 5 then some (regA, 2) else none

/-- Persistent region storage with no entries. -/
def stoA : Nat → Option (CaptureRegion × ℚ) := fun _ => none

/-! ## Basic lemmas about maps and lists -/

theorem upd_self (f : Nat → Option Outcome) (k : Nat) (v : Option Outcome) : upd f k v k = v := by
  simp [upd]

theorem upd_ne (f : Nat → Option Outcome) (k : Nat) (v : Option Outcome) (x : Nat)
    (h : x ≠ k) : upd f k v x = f x := by
  simp [upd, h]

theorem updQ_self (f : Nat → Option Nat) (k : Nat) (v : Option Nat) : updQ f k v k = v := by
  simp [updQ]

theorem updQ_ne (f : Nat → Option Nat) (k : Nat) (v : Option Nat) (x : Nat)
    (h : x ≠ k) : updQ f k v x = f x := by
  simp [updQ, h]

theorem mem_remove_of_ne {α : Type} {l1 l2 : List α} {a b : α} (h : a ∈ l1 ++ b :: l2)
    (hne : a ≠ b) : a ∈ l1 ++ l2 := by
  rcases List.mem_append.mp h with h1 | h2
  · exact List.mem_append.mpr (Or.inl h1)
  · rcases List.mem_cons.mp h2 with h3 | h4
    · exact absurd h3 hne
    · exact List.mem_append.mpr (Or.inr h4)

theorem mem_insert_mid {α : Type} {l1 l2 : List α} {a : α} (h : a ∈ l1 ++ l2) (b : α) :
    a ∈ l1 ++ b :: l2 := by
  rcases List.mem_append.mp h with h1 | h2
  · exact List.mem_append.mpr (Or.inl h1)
  · exact List.mem_append.mpr (Or.inr (List.mem_cons_of_mem _ h2))

theorem countP_two_of_mem {α : Type} {l : List α} {a b : α} {p : α → Bool}
    (ha : a ∈ l) (hb : b ∈ l) (hab : a ≠ b) (hpa : p a = true) (hpb : p b = true) :
    2 ≤ l.countP p := by
  obtain ⟨s, t, rfl⟩ := List.append_of_mem ha
  rcases List.mem_append.mp hb with hbs | hbt
  · obtain ⟨s1, s2, rfl⟩ := List.append_of_mem hbs
    simp [List.countP_append, List.countP_cons, hpa, hpb]
    omega
  · rcases List.mem_cons.mp hbt with h | hbt2
    · exact absurd h.symm hab
    · obtain ⟨t1, t2, rfl⟩ := List.append_of_mem hbt2
      simp [List.countP_append, List.countP_cons, hpa, hpb]
      omega

theorem countP_two_split {α : Type} (l1 l2 l3 : List α) (a b : α) (p : α → Bool)
    (hpa : p a = true) (hpb : p b = true) :
    2 ≤ (l1 ++ a :: (l2 ++ b :: l3)).countP p := by
  simp [List.countP_append, List.countP_cons, hpa, hpb]
  omega

theorem exists_two_of_countP {α : Type} {l : List α} {p : α → Bool} (h : 2 ≤ l.countP p) :
    ∃ l1 a l2 b l3, l = l1 ++ a :: (l2 ++ b :: l3) ∧ p a = true ∧ p b = true := by
  induction l with
  | nil =>
    rw [List.countP_nil] at h
    exact absurd h (by omega)
  | cons x xs ih =>
    by_cases hx : p x = true
    · have h1 : 0 < xs.countP p := by
        rw [List.countP_cons, hx, if_pos rfl] at h
        omega
      obtain ⟨a, ha, hpa⟩ := List.countP_pos_iff.mp h1
      obtain ⟨s, t, rfl⟩ := List.append_of_mem ha
      exact ⟨[], x, s, a, t, by simp, hx, hpa⟩
    · have hx2 : p x = false := by
        cases hpx : p x with
        | false => rfl
        | true => exact absurd hpx hx
      have h2 : 2 ≤ xs.countP p := by
        rw [List.countP_cons, hx2, if_neg (by simp)] at h
        omega
      obtain ⟨l1, a, l2, b, l3, rfl, hpa, hpb⟩ := ih h2
      exact ⟨x :: l1, a, l2, b, l3, by simp, hpa, hpb⟩

/-! ## Ownership lemmas -/

theorem ownerCount_ge1_react {w : World} {r : Reaction} (hr : r ∈ w.reacts)
    (hs : settling r.kind = true) : 1 ≤ ownerCount w r.tgt := by
  have hpos : 0 < w.reacts.countP (fun x => x.tgt == r.tgt && settling x.kind) :=
    List.countP_pos_iff.mpr ⟨r, hr, by simp [hs]⟩
  unfold ownerCount
  omega

theorem ownerCount_ge1_run {w : World} {R : RunJob} (hR : R ∈ w.runs) :
    1 ≤ ownerCount w R.tgt := by
  have hpos : 0 < w.runs.countP (fun x => x.tgt == R.tgt) :=
    List.countP_pos_iff.mpr ⟨R, hR, by simp⟩
  unfold ownerCount
  omega

theorem ownerCount_ge1_crun {w : World} {C : RunCapture} (hC : C ∈ w.cruns) :
    1 ≤ ownerCount w C.tgt := by
  have hpos : 0 < w.cruns.countP (fun x => x.tgt == C.tgt) :=
    List.countP_pos_iff.mpr ⟨C, hC, by simp⟩
  unfold ownerCount
  omega

theorem st_none_of_owned {w : World} (hown : Owners w) {p : Nat}
    (hp : p < w.nprom) (hc : 1 ≤ ownerCount w p) : w.st p = none := by
  have h := hown p hp
  cases hst : w.st p with
  | none => rfl
  | some o =>
    rw [hst] at h
    simp at h
    omega

theorem st_none_of_react {w : World} (hids : IdsOk w) (hown : Owners w) {r : Reaction}
    (hr : r ∈ w.reacts) (hs : settling r.kind = true) : w.st r.tgt = none :=
  st_none_of_owned hown (hids.1 r hr).2 (ownerCount_ge1_react hr hs)

theorem st_none_of_run {w : World} (hids : IdsOk w) (hown : Owners w) {R : RunJob}
    (hR : R ∈ w.runs) : w.st R.tgt = none :=
  st_none_of_owned hown (hids.2.1 R hR) (ownerCount_ge1_run hR)

theorem st_none_of_crun {w : World} (hids : IdsOk w) (hown : Owners w) {C : RunCapture}
    (hC : C ∈ w.cruns) : w.st C.tgt = none :=
  st_none_of_owned hown (hids.2.2.1 C hC) (ownerCount_ge1_crun hC)

theorem ownerCount_le1 {w : World} (hown : Owners w) {p : Nat} (hp : p < w.nprom) :
    ownerCount w p ≤ 1 := by
  have h := hown p hp
  cases hst : (w.st p).isSome with
  | false => rw [hst] at h; simp at h; omega
  | true => rw [hst] at h; simp at h; omega

theorem owner_unique_react_react {w : World} (hids : IdsOk w) (hown : Owners w)
    {r1 r2 : Reaction} (h1 : r1 ∈ w.reacts) (h2 : r2 ∈ w.reacts)
    (hs1 : settling r1.kind = true) (hs2 : settling r2.kind = true)
    (ht : r1.tgt = r2.tgt) : r1 = r2 := by
  by_contra hne
  have hcnt : 2 ≤ w.reacts.countP (fun x => x.tgt == r1.tgt && settling x.kind) :=
    countP_two_of_mem h1 h2 hne (by simp [hs1]) (by simp [ht.symm, hs2])
  have hle := ownerCount_le1 hown (hids.1 r1 h1).2
  unfold ownerCount at hle
  omega

theorem owner_distinct_react_run {w : World} (hids : IdsOk w) (hown : Owners w)
    {r : Reaction} {R : RunJob} (hr : r ∈ w.reacts) (hs : settling r.kind = true)
    (hR : R ∈ w.runs) : r.tgt ≠ R.tgt := by
  intro he
  have c1 : 0 < w.reacts.countP (fun x => x.tgt == r.tgt && settling x.kind) :=
    List.countP_pos_iff.mpr ⟨r, hr, by simp [hs]⟩
  have c2 : 0 < w.runs.countP (fun x => x.tgt == r.tgt) :=
    List.countP_pos_iff.mpr ⟨R, hR, by simp [he.symm]⟩
  have hle := ownerCount_le1 hown (hids.1 r hr).2
  unfold ownerCount at hle
  omega

theorem owner_distinct_react_crun {w : World} (hids : IdsOk w) (hown : Owners w)
    {r : Reaction} {C : RunCapture} (hr : r ∈ w.reacts) (hs : settling r.kind = true)
    (hC : C ∈ w.cruns) : r.tgt ≠ C.tgt := by
  intro he
  have c1 : 0 < w.reacts.countP (fun x => x.tgt == r.tgt && settling x.kind) :=
    List.countP_pos_iff.mpr ⟨r, hr, by simp [hs]⟩
  have c2 : 0 < w.cruns.countP (fun x => x.tgt == r.tgt) :=
    List.countP_pos_iff.mpr ⟨C, hC, by simp [he.symm]⟩
  have hle := ownerCount_le1 hown (hids.1 r hr).2
  unfold ownerCount at hle
  omega

theorem owner_distinct_run_crun {w : World} (hids : IdsOk w) (hown : Owners w)
    {R : RunJob} {C : RunCapture} (hR : R ∈ w.runs) (hC : C ∈ w.cruns) :
    R.tgt ≠ C.tgt := by
  intro he
  have c1 : 0 < w.runs.countP (fun x => x.tgt == R.tgt) :=
    List.countP_pos_iff.mpr ⟨R, hR, by simp⟩
  have c2 : 0 < w.cruns.countP (fun x => x.tgt == R.tgt) :=
    List.countP_pos_iff.mpr ⟨C, hC, by simp [he.symm]⟩
  have hle := ownerCount_le1 hown (hids.2.1 R hR)
  unfold ownerCount at hle
  omega

theorem owner_unique_run_run {w : World} (hids : IdsOk w) (hown : Owners w)
    {R1 R2 : RunJob} (h1 : R1 ∈ w.runs) (h2 : R2 ∈ w.runs)
    (ht : R1.tgt = R2.tgt) : R1 = R2 := by
  by_contra hne
  have hcnt : 2 ≤ w.runs.countP (fun x => x.tgt == R1.tgt) :=
    countP_two_of_mem h1 h2 hne (by simp) (by simp [ht.symm])
  have hle := ownerCount_le1 hown (hids.2.1 R1 h1)
  unfold ownerCount at hle
  omega

theorem owner_unique_crun_crun {w : World} (hids : IdsOk w) (hown : Owners w)
    {C1 C2 : RunCapture} (h1 : C1 ∈ w.cruns) (h2 : C2 ∈ w.cruns)
    (ht : C1.tgt = C2.tgt) : C1 = C2 := by
  by_contra hne
  have hcnt : 2 ≤ w.cruns.countP (fun x => x.tgt == C1.tgt) :=
    countP_two_of_mem h1 h2 hne (by simp) (by simp [ht.symm])
  have hle := ownerCount_le1 hown (hids.2.2.1 C1 h1)
  unfold ownerCount at hle
  omega

/-! ## Chain stability under non-interfering world changes -/

theorem jobChain_stable {w w' : World} {t p : Nat} {l : List Nat} (h : JobChain w t p l)
    (hre : ∀ r : Reaction, r ∈ w.reacts →
        (r.kind = RKind.catchLog ∨ ∃ spec, r.kind = RKind.thenJob t spec) → r ∈ w'.reacts)
    (hru : ∀ R : RunJob, R ∈ w.runs → R.tab = t → R ∈ w'.runs)
    (hpc : ∀ q p1, w.st q = none → Reaction.mk p1 q RKind.catchLog ∈ w.reacts →
        w'.st q = none)
    (hpj : ∀ q src spec, w.st q = none →
        Reaction.mk src q (RKind.thenJob t spec) ∈ w.reacts → w'.st q = none)
    (hpr : ∀ q spec, w.st q = none → RunJob.mk q t spec ∈ w.runs → w'.st q = none)
    (hset : ∀ q o, w.st q = some o → w'.st q = some o) :
    JobChain w' t p l := by
  induction h with
  | done p o hp => exact JobChain.done p o (hset _ _ hp)
  | flush p p1 o hp hc hlt h1 =>
    exact JobChain.flush p p1 o (hpc _ _ hp hc) (hre _ hc (Or.inl rfl)) hlt (hset _ _ h1)
  | react p p1 src spec l hp hc hlt h1 hj hlt2 hrec ih =>
    exact JobChain.react p p1 src spec l (hpc _ _ hp hc) (hre _ hc (Or.inl rfl)) hlt
      (hpj _ _ _ h1 hj) (hre _ hj (Or.inr ⟨spec, rfl⟩)) hlt2 ih
  | run p p1 spec hp hc hlt h1 hR =>
    exact JobChain.run p p1 spec (hpc _ _ hp hc) (hre _ hc (Or.inl rfl)) hlt
      (hpr _ _ h1 hR) (hru _ hR rfl)

theorem settling_thenJob (t s : Nat) : settling (RKind.thenJob t s) = true := rfl

theorem settling_catchLog : settling RKind.catchLog = true := rfl

theorem settling_thenCapture (t s : Nat) : settling (RKind.thenCapture t s) = true := rfl

theorem settling_catchRethrow : settling RKind.catchRethrow = true := rfl

theorem mem_split {α : Type} {l l1 l2 : List α} {a : α} (h : l = l1 ++ a :: l2) : a ∈ l := by
  rw [h]
  exact List.mem_append.mpr (Or.inr (List.mem_cons_self _ _))

theorem capChain_stable {w w' : World} {p : Nat} {l : List Nat} (h : CapChain w p l)
    (hre : ∀ r : Reaction, r ∈ w.reacts →
        (r.kind = RKind.catchRethrow ∨ ∃ tab spec, r.kind = RKind.thenCapture tab spec) →
        r ∈ w'.reacts)
    (hcu : ∀ C : RunCapture, C ∈ w.cruns → C ∈ w'.cruns)
    (hpc : ∀ q p1, w.st q = none → Reaction.mk p1 q RKind.catchRethrow ∈ w.reacts →
        w'.st q = none)
    (hpj : ∀ q src tab spec, w.st q = none →
        Reaction.mk src q (RKind.thenCapture tab spec) ∈ w.reacts → w'.st q = none)
    (hpr : ∀ q tab spec, w.st q = none → RunCapture.mk q tab spec ∈ w.cruns →
        w'.st q = none)
    (hset : ∀ q o, w.st q = some o → w'.st q = some o) :
    CapChain w' p l := by
  induction h with
  | done p o hp => exact CapChain.done p o (hset _ _ hp)
  | flush p p1 o hp hc hlt h1 =>
    exact CapChain.flush p p1 o (hpc _ _ hp hc) (hre _ hc (Or.inl rfl)) hlt (hset _ _ h1)
  | react p p1 src tab spec l hp hc hlt h1 hj hlt2 hrec ih =>
    exact CapChain.react p p1 src tab spec l (hpc _ _ hp hc) (hre _ hc (Or.inl rfl)) hlt
      (hpj _ _ _ _ h1 hj) (hre _ hj (Or.inr ⟨tab, spec, rfl⟩)) hlt2 ih
  | run p p1 tab spec hp hc hlt h1 hR =>
    exact CapChain.run p p1 tab spec (hpc _ _ hp hc) (hre _ hc (Or.inl rfl)) hlt
      (hpr _ _ _ h1 hR) (hcu _ hR)

theorem owner_once_react {w : World} (hids : IdsOk w) (hown : Owners w)
    {l1 l2 : List Reaction} {r : Reaction}
    (hsplit : w.reacts = l1 ++ r :: l2) (hs : settling r.kind = true) : r ∉ l1 ++ l2 := by
  intro hmem
  obtain ⟨a, b, hab⟩ := List.append_of_mem hmem
  have hcnt : 2 ≤ w.reacts.countP (fun x => x.tgt == r.tgt && settling x.kind) := by
    have e1 : (l1 ++ l2).countP (fun x => x.tgt == r.tgt && settling x.kind) =
        (a ++ r :: b).countP (fun x => x.tgt == r.tgt && settling x.kind) := by rw [hab]
    rw [hsplit, List.countP_append, List.countP_cons]
    rw [List.countP_append] at e1
    rw [List.countP_append, List.countP_cons] at e1
    simp [hs] at e1 ⊢
    omega
  have hle := ownerCount_le1 hown (hids.1 r (mem_split hsplit)).2
  unfold ownerCount at hle
  omega

theorem owner_once_run {w : World} (hids : IdsOk w) (hown : Owners w)
    {l1 l2 : List RunJob} {R : RunJob}
    (hsplit : w.runs = l1 ++ R :: l2) : R ∉ l1 ++ l2 := by
  intro hmem
  obtain ⟨a, b, hab⟩ := List.append_of_mem hmem
  have hcnt : 2 ≤ w.runs.countP (fun x => x.tgt == R.tgt) := by
    have e1 : (l1 ++ l2).countP (fun x => x.tgt == R.tgt) =
        (a ++ R :: b).countP (fun x => x.tgt == R.tgt) := by rw [hab]
    rw [hsplit, List.countP_append, List.countP_cons]
    rw [List.countP_append] at e1
    rw [List.countP_append, List.countP_cons] at e1
    simp at e1 ⊢
    omega
  have hle := ownerCount_le1 hown (hids.2.1 R (mem_split hsplit))
  unfold ownerCount at hle
  omega

theorem owner_once_crun {w : World} (hids : IdsOk w) (hown : Owners w)
    {l1 l2 : List RunCapture} {C : RunCapture}
    (hsplit : w.cruns = l1 ++ C :: l2) : C ∉ l1 ++ l2 := by
  intro hmem
  obtain ⟨a, b, hab⟩ := List.append_of_mem hmem
  have hcnt : 2 ≤ w.cruns.countP (fun x => x.tgt == C.tgt) := by
    have e1 : (l1 ++ l2).countP (fun x => x.tgt == C.tgt) =
        (a ++ C :: b).countP (fun x => x.tgt == C.tgt) := by rw [hab]
    rw [hsplit, List.countP_append, List.countP_cons]
    rw [List.countP_append] at e1
    rw [List.countP_append, List.countP_cons] at e1
    simp at e1 ⊢
    omega
  have hle := ownerCount_le1 hown (hids.2.2.1 C (mem_split hsplit))
  unfold ownerCount at hle
  omega

/-- The anchor stored in `tabQueues` is either settled or owned by a `catchLog`
reaction. -/
theorem tail_owner {w : World} (htab : ∀ t, TabInv w t) {t tail : Nat}
    (htq : w.tq t = some tail) :
    (∃ o, w.st tail = some o) ∨ ∃ p1, Reaction.mk p1 tail RKind.catchLog ∈ w.reacts := by
  obtain ⟨l, hch, hc1, hc2⟩ := (htab t).1 tail htq
  cases hch with
  | done p o hp => exact Or.inl ⟨o, hp⟩
  | flush p p1 o hp hc hlt h1 => exact Or.inr ⟨p1, hc⟩
  | react p p1 src spec l hp hc hlt h1 hj hlt2 hrec => exact Or.inr ⟨p1, hc⟩
  | run p p1 spec hp hc hlt h1 hR => exact Or.inr ⟨p1, hc⟩

theorem countP_reacts_high {w : World} (hids : IdsOk w) {q : Nat} (hq : w.nprom ≤ q) :
    w.reacts.countP (fun x => x.tgt == q && settling x.kind) = 0 := by
  rw [List.countP_eq_zero]
  intro a ha hpa
  rw [Bool.and_eq_true, beq_iff_eq] at hpa
  have := (hids.1 a ha).2
  omega

theorem countP_runs_high {w : World} (hids : IdsOk w) {q : Nat} (hq : w.nprom ≤ q) :
    w.runs.countP (fun x => x.tgt == q) = 0 := by
  rw [List.countP_eq_zero]
  intro a ha hpa
  rw [beq_iff_eq] at hpa
  have := hids.2.1 a ha
  omega

theorem countP_cruns_high {w : World} (hids : IdsOk w) {q : Nat} (hq : w.nprom ≤ q) :
    w.cruns.countP (fun x => x.tgt == q) = 0 := by
  rw [List.countP_eq_zero]
  intro a ha hpa
  rw [beq_iff_eq] at hpa
  have := hids.2.2.1 a ha
  omega

/-! ## Unfolding lemmas for `fireWorld` -/

theorem fireWorld_thenJob_ok (w : World) (l1 l2 : List Reaction) (src tgt tab spec : Nat)
    (v : JSVal) :
    fireWorld w l1 l2 (Reaction.mk src tgt (RKind.thenJob tab spec)) (Outcome.ok v) =
      { w with reacts := l1 ++ l2, runs := RunJob.mk tgt tab spec :: w.runs } := rfl

theorem fireWorld_thenJob_err (w : World) (l1 l2 : List Reaction) (src tgt tab spec : Nat)
    (e : JSVal) :
    fireWorld w l1 l2 (Reaction.mk src tgt (RKind.thenJob tab spec)) (Outcome.err e) =
      { w with reacts := l1 ++ l2, st := upd w.st tgt (some (Outcome.err e)) } := rfl

theorem fireWorld_catchLog_ok (w : World) (l1 l2 : List Reaction) (src tgt : Nat) (v : JSVal) :
    fireWorld w l1 l2 (Reaction.mk src tgt RKind.catchLog) (Outcome.ok v) =
      { w with reacts := l1 ++ l2, st := upd w.st tgt (some (Outcome.ok v)) } := rfl

theorem fireWorld_catchLog_err (w : World) (l1 l2 : List Reaction) (src tgt : Nat) (e : JSVal) :
    fireWorld w l1 l2 (Reaction.mk src tgt RKind.catchLog) (Outcome.err e) =
      { w with reacts := l1 ++ l2, st := upd w.st tgt (some (Outcome.ok JSVal.undef)) } := rfl

theorem fireWorld_thenCapture_ok (w : World) (l1 l2 : List Reaction) (src tgt tab spec : Nat)
    (v : JSVal) :
    fireWorld w l1 l2 (Reaction.mk src tgt (RKind.thenCapture tab spec)) (Outcome.ok v) =
      { w with reacts := l1 ++ l2, cruns := RunCapture.mk tgt tab spec :: w.cruns } := rfl

theorem fireWorld_thenCapture_err (w : World) (l1 l2 : List Reaction) (src tgt tab spec : Nat)
    (e : JSVal) :
    fireWorld w l1 l2 (Reaction.mk src tgt (RKind.thenCapture tab spec)) (Outcome.err e) =
      { w with reacts := l1 ++ l2, st := upd w.st tgt (some (Outcome.err e)) } := rfl

theorem fireWorld_catchRethrow (w : World) (l1 l2 : List Reaction) (src tgt : Nat)
    (o : Outcome) :
    fireWorld w l1 l2 (Reaction.mk src tgt RKind.catchRethrow) o =
      { w with reacts := l1 ++ l2, st := upd w.st tgt (some o) } := rfl

theorem fireWorld_finallyClean (w : World) (l1 l2 : List Reaction) (src tgt tab : Nat)
    (o : Outcome) :
    fireWorld w l1 l2 (Reaction.mk src tgt (RKind.finallyClean tab)) o =
      (if w.tq tab = some src then
        { w with reacts := l1 ++ l2, tq := updQ w.tq tab none }
      else { w with reacts := l1 ++ l2 }) := by
  unfold fireWorld
  by_cases h : w.tq tab = some src
  · simp [h]
  · simp [h]

/-! ## Chain transformations for each interfering step -/

theorem jobchain_start_run {w : World} (w' : World) {t : Nat}
    (hids : IdsOk w) (hown : Owners w)
    {l1 l2 : List Reaction} {src0 p10 spec0 : Nat}
    (hsplit : w.reacts = l1 ++ Reaction.mk src0 p10 (RKind.thenJob t spec0) :: l2)
    (hsrc : (w.st src0).isSome = true)
    (hre : w'.reacts = l1 ++ l2)
    (hrun : w'.runs = RunJob.mk p10 t spec0 :: w.runs)
    (hst : w'.st = w.st)
    {p : Nat} {l : List Nat} (h : JobChain w t p l) :
    JobChain w' t p l := by
  have hrmem : Reaction.mk src0 p10 (RKind.thenJob t spec0) ∈ w.reacts := mem_split hsplit
  induction h with
  | done p o hp => exact JobChain.done p o (by rw [hst]; exact hp)
  | flush p p1 o hp hc hlt h1 =>
    refine JobChain.flush p p1 o (by rw [hst]; exact hp) ?_ hlt (by rw [hst]; exact h1)
    rw [hre]
    exact mem_remove_of_ne (hsplit ▸ hc) (by simp)
  | react p p1 srcx specx lx hp hc hlt h1 hj hlt2 hrec ih =>
    by_cases hpe : p1 = p10
    · subst hpe
      have heq : Reaction.mk srcx p1 (RKind.thenJob t specx) =
          Reaction.mk src0 p1 (RKind.thenJob t spec0) :=
        owner_unique_react_react hids hown hj hrmem rfl rfl rfl
      have hsrceq : srcx = src0 := by injection heq
      have hspeceq : specx = spec0 := by
        have hk : RKind.thenJob t specx = RKind.thenJob t spec0 := by injection heq
        injection hk
      cases hrec with
      | done q o hq =>
        refine JobChain.run p p1 spec0 (by rw [hst]; exact hp) ?_ hlt (by rw [hst]; exact h1) ?_
        · rw [hre]
          exact mem_remove_of_ne (hsplit ▸ hc) (by simp)
        · rw [hrun]
          exact List.mem_cons_self _ _
      | flush q q1 o hq hcq hltq h1q =>
        rw [hsrceq] at hq
        rw [hq] at hsrc
        simp at hsrc
      | react q q1 srcq specq lq hq hcq hltq h1q hjq hlt2q hrecq =>
        rw [hsrceq] at hq
        rw [hq] at hsrc
        simp at hsrc
      | run q q1 specq hq hcq hltq h1q hRq =>
        rw [hsrceq] at hq
        rw [hq] at hsrc
        simp at hsrc
    · refine JobChain.react p p1 srcx specx lx (by rw [hst]; exact hp) ?_ hlt
        (by rw [hst]; exact h1) ?_ hlt2 ih
      · rw [hre]
        exact mem_remove_of_ne (hsplit ▸ hc) (by simp)
      · rw [hre]
        refine mem_remove_of_ne (hsplit ▸ hj) ?_
        intro he
        have : p1 = p10 := by injection he
        exact hpe this
  | run p p1 specx hp hc hlt h1 hR =>
    refine JobChain.run p p1 specx (by rw [hst]; exact hp) ?_ hlt (by rw [hst]; exact h1) ?_
    · rw [hre]
      exact mem_remove_of_ne (hsplit ▸ hc) (by simp)
    · rw [hrun]
      exact List.mem_cons_of_mem _ hR

theorem jobchain_kill_react {w : World} (w' : World) {t : Nat}
    (hids : IdsOk w) (hown : Owners w)
    {l1 l2 : List Reaction} {src0 p10 spec0 : Nat}
    (hsplit : w.reacts = l1 ++ Reaction.mk src0 p10 (RKind.thenJob t spec0) :: l2)
    (hsrc : (w.st src0).isSome = true)
    {o0 : Outcome}
    (hre : w'.reacts = l1 ++ l2)
    (hrun : w'.runs = w.runs)
    (hst : w'.st = upd w.st p10 (some o0))
    {p : Nat} {l : List Nat} (h : JobChain w t p l) :
    ∃ lres, JobChain w' t p lres ∧ ∀ q ∈ l, q ≠ p10 → q ∈ lres := by
  have hrmem : Reaction.mk src0 p10 (RKind.thenJob t spec0) ∈ w.reacts := mem_split hsplit
  have hp10 : w.st p10 = none := st_none_of_react hids hown hrmem rfl
  induction h with
  | done p o hp =>
    have hne : p ≠ p10 := by
      intro he
      rw [he, hp10] at hp
      cases hp
    refine ⟨[], JobChain.done p o ?_, by simp⟩
    rw [hst, upd_ne _ _ _ _ hne]
    exact hp
  | flush p p1 o hp hc hlt h1 =>
    have hne : p ≠ p10 := by
      intro he
      have heq : Reaction.mk p1 p RKind.catchLog =
          Reaction.mk src0 p10 (RKind.thenJob t spec0) :=
        owner_unique_react_react hids hown hc hrmem rfl rfl he
      simp at heq
    have hne1 : p1 ≠ p10 := by
      intro he
      rw [he, hp10] at h1
      cases h1
    refine ⟨[], JobChain.flush p p1 o ?_ ?_ hlt ?_, by simp⟩
    · rw [hst, upd_ne _ _ _ _ hne]
      exact hp
    · rw [hre]
      exact mem_remove_of_ne (hsplit ▸ hc) (by simp)
    · rw [hst, upd_ne _ _ _ _ hne1]
      exact h1
  | react p p1 srcx specx lx hp hc hlt h1 hj hlt2 hrec ih =>
    have hne : p ≠ p10 := by
      intro he
      have heq : Reaction.mk p1 p RKind.catchLog =
          Reaction.mk src0 p10 (RKind.thenJob t spec0) :=
        owner_unique_react_react hids hown hc hrmem rfl rfl he
      simp at heq
    by_cases hpe : p1 = p10
    · subst hpe
      have heq : Reaction.mk srcx p1 (RKind.thenJob t specx) =
          Reaction.mk src0 p1 (RKind.thenJob t spec0) :=
        owner_unique_react_react hids hown hj hrmem rfl rfl rfl
      have hsrceq : srcx = src0 := by injection heq
      cases hrec with
      | done q o hq =>
        refine ⟨[], JobChain.flush p p1 o0 ?_ ?_ hlt ?_, ?_⟩
        · rw [hst, upd_ne _ _ _ _ hne]
          exact hp
        · rw [hre]
          exact mem_remove_of_ne (hsplit ▸ hc) (by simp)
        · rw [hst, upd_self]
        · intro q hq2 hq3
          simp at hq2
          exact absurd hq2 hq3
      | flush q q1 o hq hcq hltq h1q =>
        rw [hsrceq] at hq
        rw [hq] at hsrc
        simp at hsrc
      | react q q1 srcq specq lq hq hcq hltq h1q hjq hlt2q hrecq =>
        rw [hsrceq] at hq
        rw [hq] at hsrc
        simp at hsrc
      | run q q1 specq hq hcq hltq h1q hRq =>
        rw [hsrceq] at hq
        rw [hq] at hsrc
        simp at hsrc
    · obtain ⟨lres, hch, hsub⟩ := ih
      refine ⟨p1 :: lres, JobChain.react p p1 srcx specx lres ?_ ?_ hlt ?_ ?_ hlt2 hch, ?_⟩
      · rw [hst, upd_ne _ _ _ _ hne]
        exact hp
      · rw [hre]
        exact mem_remove_of_ne (hsplit ▸ hc) (by simp)
      · rw [hst, upd_ne _ _ _ _ hpe]
        exact h1
      · rw [hre]
        refine mem_remove_of_ne (hsplit ▸ hj) ?_
        intro he
        have : p1 = p10 := by injection he
        exact hpe this
      · intro q hq2 hq3
        rcases List.mem_cons.mp hq2 with he | hin
        · exact he ▸ List.mem_cons_self _ _
        · exact List.mem_cons_of_mem _ (hsub q hin hq3)
  | run p p1 specx hp hc hlt h1 hR =>
    have hne : p ≠ p10 := by
      intro he
      have heq : Reaction.mk p1 p RKind.catchLog =
          Reaction.mk src0 p10 (RKind.thenJob t spec0) :=
        owner_unique_react_react hids hown hc hrmem rfl rfl he
      simp at heq
    have hne1 : p1 ≠ p10 := by
      intro he
      exact owner_distinct_react_run hids hown hrmem rfl hR he.symm
    refine ⟨[p1], JobChain.run p p1 specx ?_ ?_ hlt ?_ ?_, ?_⟩
    · rw [hst, upd_ne _ _ _ _ hne]
      exact hp
    · rw [hre]
      exact mem_remove_of_ne (hsplit ▸ hc) (by simp)
    · rw [hst, upd_ne _ _ _ _ hne1]
      exact h1
    · rw [hrun]
      exact hR
    · intro q hq2 hq3
      exact hq2

theorem jobchain_kill_run {w : World} (w' : World) {t : Nat}
    (hids : IdsOk w) (hown : Owners w)
    {l1 l2 : List RunJob} {p10 spec0 : Nat}
    (hsplit : w.runs = l1 ++ RunJob.mk p10 t spec0 :: l2)
    {o0 : Outcome}
    (hre : w'.reacts = w.reacts)
    (hrun : w'.runs = l1 ++ l2)
    (hst : w'.st = upd w.st p10 (some o0))
    {p : Nat} {l : List Nat} (h : JobChain w t p l) :
    ∃ lres, JobChain w' t p lres ∧ ∀ q ∈ l, q ≠ p10 → q ∈ lres := by
  have hrmem : RunJob.mk p10 t spec0 ∈ w.runs := mem_split hsplit
  have hp10 : w.st p10 = none := st_none_of_run hids hown hrmem
  induction h with
  | done p o hp =>
    have hne : p ≠ p10 := by
      intro he
      rw [he, hp10] at hp
      cases hp
    refine ⟨[], JobChain.done p o ?_, by simp⟩
    rw [hst, upd_ne _ _ _ _ hne]
    exact hp
  | flush p p1 o hp hc hlt h1 =>
    have hne : p ≠ p10 := fun he =>
      owner_distinct_react_run hids hown hc rfl hrmem (by rw [he])
    have hne1 : p1 ≠ p10 := by
      intro he
      rw [he, hp10] at h1
      cases h1
    refine ⟨[], JobChain.flush p p1 o ?_ ?_ hlt ?_, by simp⟩
    · rw [hst, upd_ne _ _ _ _ hne]
      exact hp
    · rw [hre]
      exact hc
    · rw [hst, upd_ne _ _ _ _ hne1]
      exact h1
  | react p p1 srcx specx lx hp hc hlt h1 hj hlt2 hrec ih =>
    have hne : p ≠ p10 := fun he =>
      owner_distinct_react_run hids hown hc rfl hrmem (by rw [he])
    have hne1 : p1 ≠ p10 := fun he =>
      owner_distinct_react_run hids hown hj rfl hrmem (by rw [he])
    obtain ⟨lres, hch, hsub⟩ := ih
    refine ⟨p1 :: lres, JobChain.react p p1 srcx specx lres ?_ ?_ hlt ?_ ?_ hlt2 hch, ?_⟩
    · rw [hst, upd_ne _ _ _ _ hne]
      exact hp
    · rw [hre]
      exact hc
    · rw [hst, upd_ne _ _ _ _ hne1]
      exact h1
    · rw [hre]
      exact hj
    · intro q hq2 hq3
      rcases List.mem_cons.mp hq2 with he | hin
      · exact he ▸ List.mem_cons_self _ _
      · exact List.mem_cons_of_mem _ (hsub q hin hq3)
  | run p p1 specx hp hc hlt h1 hR =>
    have hne : p ≠ p10 := fun he =>
      owner_distinct_react_run hids hown hc rfl hrmem (by rw [he])
    by_cases hpe : p1 = p10
    · subst hpe
      refine ⟨[], JobChain.flush p p1 o0 ?_ ?_ hlt ?_, ?_⟩
      · rw [hst, upd_ne _ _ _ _ hne]
        exact hp
      · rw [hre]
        exact hc
      · rw [hst, upd_self]
      · intro q hq2 hq3
        simp at hq2
        exact absurd hq2 hq3
    · have hRne : RunJob.mk p1 t specx ≠ RunJob.mk p10 t spec0 := by
        intro he
        have : p1 = p10 := by injection he
        exact hpe this
      refine ⟨[p1], JobChain.run p p1 specx ?_ ?_ hlt ?_ ?_, ?_⟩
      · rw [hst, upd_ne _ _ _ _ hne]
        exact hp
      · rw [hre]
        exact hc
      · rw [hst, upd_ne _ _ _ _ hpe]
        exact h1
      · rw [hrun]
        exact mem_remove_of_ne (hsplit ▸ hR) hRne
      · intro q hq2 hq3
        exact hq2

theorem jobchain_catchfire {w : World} (w' : World) {t : Nat}
    (hids : IdsOk w) (hown : Owners w)
    {l1 l2 : List Reaction} {p1c pc : Nat}
    (hsplit : w.reacts = l1 ++ Reaction.mk p1c pc RKind.catchLog :: l2)
    (hsc : (w.st p1c).isSome = true)
    {o0 : Outcome}
    (hre : w'.reacts = l1 ++ l2)
    (hrun : w'.runs = w.runs)
    (hst : w'.st = upd w.st pc (some o0))
    {p : Nat} {l : List Nat} (h : JobChain w t p l) :
    JobChain w' t p l := by
  have hrmem : Reaction.mk p1c pc RKind.catchLog ∈ w.reacts := mem_split hsplit
  have hpc : w.st pc = none := st_none_of_react hids hown hrmem rfl
  induction h with
  | done p o hp =>
    have hne : p ≠ pc := by
      intro he
      rw [he, hpc] at hp
      cases hp
    refine JobChain.done p o ?_
    rw [hst, upd_ne _ _ _ _ hne]
    exact hp
  | flush p p1 o hp hc hlt h1 =>
    by_cases hpe : p = pc
    · subst hpe
      exact JobChain.done p o0 (by rw [hst, upd_self])
    · have hne1 : p1 ≠ pc := by
        intro he
        rw [he, hpc] at h1
        cases h1
      refine JobChain.flush p p1 o ?_ ?_ hlt ?_
      · rw [hst, upd_ne _ _ _ _ hpe]
        exact hp
      · rw [hre]
        refine mem_remove_of_ne (hsplit ▸ hc) ?_
        intro he
        have : p = pc := by injection he
        exact hpe this
      · rw [hst, upd_ne _ _ _ _ hne1]
        exact h1
  | react p p1 srcx specx lx hp hc hlt h1 hj hlt2 hrec ih =>
    have hpe : p ≠ pc := by
      intro he
      have heq : Reaction.mk p1 p RKind.catchLog = Reaction.mk p1c pc RKind.catchLog :=
        owner_unique_react_react hids hown hc hrmem rfl rfl he
      have hp1e : p1 = p1c := by injection heq
      rw [hp1e] at h1
      rw [h1] at hsc
      simp at hsc
    have hne1 : p1 ≠ pc := by
      intro he
      have heq : Reaction.mk srcx p1 (RKind.thenJob t specx) =
          Reaction.mk p1c pc RKind.catchLog :=
        owner_unique_react_react hids hown hj hrmem rfl rfl he
      simp at heq
    refine JobChain.react p p1 srcx specx lx ?_ ?_ hlt ?_ ?_ hlt2 ih
    · rw [hst, upd_ne _ _ _ _ hpe]
      exact hp
    · rw [hre]
      refine mem_remove_of_ne (hsplit ▸ hc) ?_
      intro he
      have : p = pc := by injection he
      exact hpe this
    · rw [hst, upd_ne _ _ _ _ hne1]
      exact h1
    · rw [hre]
      exact mem_remove_of_ne (hsplit ▸ hj) (by simp)
  | run p p1 specx hp hc hlt h1 hR =>
    have hpe : p ≠ pc := by
      intro he
      have heq : Reaction.mk p1 p RKind.catchLog = Reaction.mk p1c pc RKind.catchLog :=
        owner_unique_react_react hids hown hc hrmem rfl rfl he
      have hp1e : p1 = p1c := by injection heq
      rw [hp1e] at h1
      rw [h1] at hsc
      simp at hsc
    have hne1 : p1 ≠ pc := fun he =>
      owner_distinct_react_run hids hown hrmem rfl hR (by rw [he])
    refine JobChain.run p p1 specx ?_ ?_ hlt ?_ ?_
    · rw [hst, upd_ne _ _ _ _ hpe]
      exact hp
    · rw [hre]
      refine mem_remove_of_ne (hsplit ▸ hc) ?_
      intro he
      have : p = pc := by injection he
      exact hpe this
    · rw [hst, upd_ne _ _ _ _ hne1]
      exact h1
    · rw [hrun]
      exact hR

theorem enqueueTabJob_some (tabId spec : Nat) (w : World) {prev : Nat}
    (h : w.tq tabId = some prev) :
    (enqueueTabJob tabId spec w).1 = { w with
      nprom := w.nprom + 2,
      reacts := Reaction.mk prev w.nprom (RKind.thenJob tabId spec) ::
                Reaction.mk w.nprom (w.nprom + 1) RKind.catchLog ::
                Reaction.mk (w.nprom + 1) (w.nprom + 1) (RKind.finallyClean tabId) :: w.reacts,
      tq := updQ w.tq tabId (some (w.nprom + 1)) } := by
  unfold enqueueTabJob
  rw [h]

theorem enqueueTabJob_none (tabId spec : Nat) (w : World)
    (h : w.tq tabId = none) :
    (enqueueTabJob tabId spec w).1 = { w with
      nprom := w.nprom + 3,
      st := upd w.st w.nprom (some (Outcome.ok JSVal.undef)),
      reacts := Reaction.mk w.nprom (w.nprom + 1) (RKind.thenJob tabId spec) ::
                Reaction.mk (w.nprom + 1) (w.nprom + 2) RKind.catchLog ::
                Reaction.mk (w.nprom + 2) (w.nprom + 2) (RKind.finallyClean tabId) :: w.reacts,
      tq := updQ w.tq tabId (some (w.nprom + 2)) } := by
  unfold enqueueTabJob
  rw [h]

theorem capchain_start_run {w : World} (w' : World)
    (hids : IdsOk w) (hown : Owners w)
    {l1 l2 : List Reaction} {src0 p10 tab0 spec0 : Nat}
    (hsplit : w.reacts = l1 ++ Reaction.mk src0 p10 (RKind.thenCapture tab0 spec0) :: l2)
    (hsrc : (w.st src0).isSome = true)
    (hre : w'.reacts = l1 ++ l2)
    (hcrun : w'.cruns = RunCapture.mk p10 tab0 spec0 :: w.cruns)
    (hst : w'.st = w.st)
    {p : Nat} {l : List Nat} (h : CapChain w p l) :
    CapChain w' p l := by
  have hrmem : Reaction.mk src0 p10 (RKind.thenCapture tab0 spec0) ∈ w.reacts :=
    mem_split hsplit
  induction h with
  | done p o hp => exact CapChain.done p o (by rw [hst]; exact hp)
  | flush p p1 o hp hc hlt h1 =>
    refine CapChain.flush p p1 o (by rw [hst]; exact hp) ?_ hlt (by rw [hst]; exact h1)
    rw [hre]
    exact mem_remove_of_ne (hsplit ▸ hc) (by simp)
  | react p p1 srcx tabx specx lx hp hc hlt h1 hj hlt2 hrec ih =>
    by_cases hpe : p1 = p10
    · subst hpe
      have heq : Reaction.mk srcx p1 (RKind.thenCapture tabx specx) =
          Reaction.mk src0 p1 (RKind.thenCapture tab0 spec0) :=
        owner_unique_react_react hids hown hj hrmem rfl rfl rfl
      have hsrceq : srcx = src0 := by injection heq
      have hkind : RKind.thenCapture tabx specx = RKind.thenCapture tab0 spec0 := by
        injection heq
      have htabeq : tabx = tab0 := by injection hkind
      have hspeceq : specx = spec0 := by injection hkind
      cases hrec with
      | done q o hq =>
        refine CapChain.run p p1 tab0 spec0 (by rw [hst]; exact hp) ?_ hlt
          (by rw [hst]; exact h1) ?_
        · rw [hre]
          exact mem_remove_of_ne (hsplit ▸ hc) (by simp)
        · rw [hcrun]
          exact List.mem_cons_self _ _
      | flush q q1 o hq hcq hltq h1q =>
        rw [hsrceq] at hq
        rw [hq] at hsrc
        simp at hsrc
      | react q q1 srcq tabq specq lq hq hcq hltq h1q hjq hlt2q hrecq =>
        rw [hsrceq] at hq
        rw [hq] at hsrc
        simp at hsrc
      | run q q1 tabq specq hq hcq hltq h1q hRq =>
        rw [hsrceq] at hq
        rw [hq] at hsrc
        simp at hsrc
    · refine CapChain.react p p1 srcx tabx specx lx (by rw [hst]; exact hp) ?_ hlt
        (by rw [hst]; exact h1) ?_ hlt2 ih
      · rw [hre]
        exact mem_remove_of_ne (hsplit ▸ hc) (by simp)
      · rw [hre]
        refine mem_remove_of_ne (hsplit ▸ hj) ?_
        intro he
        have : p1 = p10 := by injection he
        exact hpe this
  | run p p1 tabx specx hp hc hlt h1 hR =>
    refine CapChain.run p p1 tabx specx (by rw [hst]; exact hp) ?_ hlt
      (by rw [hst]; exact h1) ?_
    · rw [hre]
      exact mem_remove_of_ne (hsplit ▸ hc) (by simp)
    · rw [hcrun]
      exact List.mem_cons_of_mem _ hR

theorem capchain_kill_react {w : World} (w' : World)
    (hids : IdsOk w) (hown : Owners w)
    {l1 l2 : List Reaction} {src0 p10 tab0 spec0 : Nat}
    (hsplit : w.reacts = l1 ++ Reaction.mk src0 p10 (RKind.thenCapture tab0 spec0) :: l2)
    (hsrc : (w.st src0).isSome = true)
    {o0 : Outcome}
    (hre : w'.reacts = l1 ++ l2)
    (hcrun : w'.cruns = w.cruns)
    (hst : w'.st = upd w.st p10 (some o0))
    {p : Nat} {l : List Nat} (h : CapChain w p l) :
    ∃ lres, CapChain w' p lres ∧ ∀ q ∈ l, q ≠ p10 → q ∈ lres := by
  have hrmem : Reaction.mk src0 p10 (RKind.thenCapture tab0 spec0) ∈ w.reacts :=
    mem_split hsplit
  have hp10 : w.st p10 = none := st_none_of_react hids hown hrmem rfl
  induction h with
  | done p o hp =>
    have hne : p ≠ p10 := by
      intro he
      rw [he, hp10] at hp
      cases hp
    refine ⟨[], CapChain.done p o ?_, by simp⟩
    rw [hst, upd_ne _ _ _ _ hne]
    exact hp
  | flush p p1 o hp hc hlt h1 =>
    have hne : p ≠ p10 := by
      intro he
      have heq : Reaction.mk p1 p RKind.catchRethrow =
          Reaction.mk src0 p10 (RKind.thenCapture tab0 spec0) :=
        owner_unique_react_react hids hown hc hrmem rfl rfl he
      simp at heq
    have hne1 : p1 ≠ p10 := by
      intro he
      rw [he, hp10] at h1
      cases h1
    refine ⟨[], CapChain.flush p p1 o ?_ ?_ hlt ?_, by simp⟩
    · rw [hst, upd_ne _ _ _ _ hne]
      exact hp
    · rw [hre]
      exact mem_remove_of_ne (hsplit ▸ hc) (by simp)
    · rw [hst, upd_ne _ _ _ _ hne1]
      exact h1
  | react p p1 srcx tabx specx lx hp hc hlt h1 hj hlt2 hrec ih =>
    have hne : p ≠ p10 := by
      intro he
      have heq : Reaction.mk p1 p RKind.catchRethrow =
          Reaction.mk src0 p10 (RKind.thenCapture tab0 spec0) :=
        owner_unique_react_react hids hown hc hrmem rfl rfl he
      simp at heq
    by_cases hpe : p1 = p10
    · subst hpe
      have heq : Reaction.mk srcx p1 (RKind.thenCapture tabx specx) =
          Reaction.mk src0 p1 (RKind.thenCapture tab0 spec0) :=
        owner_unique_react_react hids hown hj hrmem rfl rfl rfl
      have hsrceq : srcx = src0 := by injection heq
      cases hrec with
      | done q o hq =>
        refine ⟨[], CapChain.flush p p1 o0 ?_ ?_ hlt ?_, ?_⟩
        · rw [hst, upd_ne _ _ _ _ hne]
          exact hp
        · rw [hre]
          exact mem_remove_of_ne (hsplit ▸ hc) (by simp)
        · rw [hst, upd_self]
        · intro q hq2 hq3
          simp at hq2
          exact absurd hq2 hq3
      | flush q q1 o hq hcq hltq h1q =>
        rw [hsrceq] at hq
        rw [hq] at hsrc
        simp at hsrc
      | react q q1 srcq tabq specq lq hq hcq hltq h1q hjq hlt2q hrecq =>
        rw [hsrceq] at hq
        rw [hq] at hsrc
        simp at hsrc
      | run q q1 tabq specq hq hcq hltq h1q hRq =>
        rw [hsrceq] at hq
        rw [hq] at hsrc
        simp at hsrc
    · obtain ⟨lres, hch, hsub⟩ := ih
      refine ⟨p1 :: lres, CapChain.react p p1 srcx tabx specx lres ?_ ?_ hlt ?_ ?_ hlt2 hch, ?_⟩
      · rw [hst, upd_ne _ _ _ _ hne]
        exact hp
      · rw [hre]
        exact mem_remove_of_ne (hsplit ▸ hc) (by simp)
      · rw [hst, upd_ne _ _ _ _ hpe]
        exact h1
      · rw [hre]
        refine mem_remove_of_ne (hsplit ▸ hj) ?_
        intro he
        have : p1 = p10 := by injection he
        exact hpe this
      · intro q hq2 hq3
        rcases List.mem_cons.mp hq2 with he | hin
        · exact he ▸ List.mem_cons_self _ _
        · exact List.mem_cons_of_mem _ (hsub q hin hq3)
  | run p p1 tabx specx hp hc hlt h1 hR =>
    have hne : p ≠ p10 := by
      intro he
      have heq : Reaction.mk p1 p RKind.catchRethrow =
          Reaction.mk src0 p10 (RKind.thenCapture tab0 spec0) :=
        owner_unique_react_react hids hown hc hrmem rfl rfl he
      simp at heq
    have hne1 : p1 ≠ p10 := by
      intro he
      exact owner_distinct_react_crun hids hown hrmem rfl hR he.symm
    refine ⟨[p1], CapChain.run p p1 tabx specx ?_ ?_ hlt ?_ ?_, ?_⟩
    · rw [hst, upd_ne _ _ _ _ hne]
      exact hp
    · rw [hre]
      exact mem_remove_of_ne (hsplit ▸ hc) (by simp)
    · rw [hst, upd_ne _ _ _ _ hne1]
      exact h1
    · rw [hcrun]
      exact hR
    · intro q hq2 hq3
      exact hq2

theorem capchain_kill_crun {w : World} (w' : World)
    (hids : IdsOk w) (hown : Owners w)
    {l1 l2 : List RunCapture} {p10 tab0 spec0 : Nat}
    (hsplit : w.cruns = l1 ++ RunCapture.mk p10 tab0 spec0 :: l2)
    {o0 : Outcome}
    (hre : w'.reacts = w.reacts)
    (hcrun : w'.cruns = l1 ++ l2)
    (hst : w'.st = upd w.st p10 (some o0))
    {p : Nat} {l : List Nat} (h : CapChain w p l) :
    ∃ lres, CapChain w' p lres ∧ ∀ q ∈ l, q ≠ p10 → q ∈ lres := by
  have hrmem : RunCapture.mk p10 tab0 spec0 ∈ w.cruns := mem_split hsplit
  have hp10 : w.st p10 = none := st_none_of_crun hids hown hrmem
  induction h with
  | done p o hp =>
    have hne : p ≠ p10 := by
      intro he
      rw [he, hp10] at hp
      cases hp
    refine ⟨[], CapChain.done p o ?_, by simp⟩
    rw [hst, upd_ne _ _ _ _ hne]
    exact hp
  | flush p p1 o hp hc hlt h1 =>
    have hne : p ≠ p10 := fun he =>
      owner_distinct_react_crun hids hown hc rfl hrmem (by rw [he])
    have hne1 : p1 ≠ p10 := by
      intro he
      rw [he, hp10] at h1
      cases h1
    refine ⟨[], CapChain.flush p p1 o ?_ ?_ hlt ?_, by simp⟩
    · rw [hst, upd_ne _ _ _ _ hne]
      exact hp
    · rw [hre]
      exact hc
    · rw [hst, upd_ne _ _ _ _ hne1]
      exact h1
  | react p p1 srcx tabx specx lx hp hc hlt h1 hj hlt2 hrec ih =>
    have hne : p ≠ p10 := fun he =>
      owner_distinct_react_crun hids hown hc rfl hrmem (by rw [he])
    have hne1 : p1 ≠ p10 := fun he =>
      owner_distinct_react_crun hids hown hj rfl hrmem (by rw [he])
    obtain ⟨lres, hch, hsub⟩ := ih
    refine ⟨p1 :: lres, CapChain.react p p1 srcx tabx specx lres ?_ ?_ hlt ?_ ?_ hlt2 hch, ?_⟩
    · rw [hst, upd_ne _ _ _ _ hne]
      exact hp
    · rw [hre]
      exact hc
    · rw [hst, upd_ne _ _ _ _ hne1]
      exact h1
    · rw [hre]
      exact hj
    · intro q hq2 hq3
      rcases List.mem_cons.mp hq2 with he | hin
      · exact he ▸ List.mem_cons_self _ _
      · exact List.mem_cons_of_mem _ (hsub q hin hq3)
  | run p p1 tabx specx hp hc hlt h1 hR =>
    have hne : p ≠ p10 := fun he =>
      owner_distinct_react_crun hids hown hc rfl hrmem (by rw [he])
    by_cases hpe : p1 = p10
    · subst hpe
      refine ⟨[], CapChain.flush p p1 o0 ?_ ?_ hlt ?_, ?_⟩
      · rw [hst, upd_ne _ _ _ _ hne]
        exact hp
      · rw [hre]
        exact hc
      · rw [hst, upd_self]
      · intro q hq2 hq3
        simp at hq2
        exact absurd hq2 hq3
    · have hRne : RunCapture.mk p1 tabx specx ≠ RunCapture.mk p10 tab0 spec0 := by
        intro he
        have : p1 = p10 := by injection he
        exact hpe this
      refine ⟨[p1], CapChain.run p p1 tabx specx ?_ ?_ hlt ?_ ?_, ?_⟩
      · rw [hst, upd_ne _ _ _ _ hne]
        exact hp
      · rw [hre]
        exact hc
      · rw [hst, upd_ne _ _ _ _ hpe]
        exact h1
      · rw [hcrun]
        exact mem_remove_of_ne (hsplit ▸ hR) hRne
      · intro q hq2 hq3
        exact hq2

theorem capchain_rethrowfire {w : World} (w' : World)
    (hids : IdsOk w) (hown : Owners w)
    {l1 l2 : List Reaction} {p1c pc : Nat}
    (hsplit : w.reacts = l1 ++ Reaction.mk p1c pc RKind.catchRethrow :: l2)
    (hsc : (w.st p1c).isSome = true)
    {o0 : Outcome}
    (hre : w'.reacts = l1 ++ l2)
    (hcrun : w'.cruns = w.cruns)
    (hst : w'.st = upd w.st pc (some o0))
    {p : Nat} {l : List Nat} (h : CapChain w p l) :
    CapChain w' p l := by
  have hrmem : Reaction.mk p1c pc RKind.catchRethrow ∈ w.reacts := mem_split hsplit
  have hpc : w.st pc = none := st_none_of_react hids hown hrmem rfl
  induction h with
  | done p o hp =>
    have hne : p ≠ pc := by
      intro he
      rw [he, hpc] at hp
      cases hp
    refine CapChain.done p o ?_
    rw [hst, upd_ne _ _ _ _ hne]
    exact hp
  | flush p p1 o hp hc hlt h1 =>
    by_cases hpe : p = pc
    · subst hpe
      exact CapChain.done p o0 (by rw [hst, upd_self])
    · have hne1 : p1 ≠ pc := by
        intro he
        rw [he, hpc] at h1
        cases h1
      refine CapChain.flush p p1 o ?_ ?_ hlt ?_
      · rw [hst, upd_ne _ _ _ _ hpe]
        exact hp
      · rw [hre]
        refine mem_remove_of_ne (hsplit ▸ hc) ?_
        intro he
        have : p = pc := by injection he
        exact hpe this
      · rw [hst, upd_ne _ _ _ _ hne1]
        exact h1
  | react p p1 srcx tabx specx lx hp hc hlt h1 hj hlt2 hrec ih =>
    have hpe : p ≠ pc := by
      intro he
      have heq : Reaction.mk p1 p RKind.catchRethrow = Reaction.mk p1c pc RKind.catchRethrow :=
        owner_unique_react_react hids hown hc hrmem rfl rfl he
      have hp1e : p1 = p1c := by injection heq
      rw [hp1e] at h1
      rw [h1] at hsc
      simp at hsc
    have hne1 : p1 ≠ pc := by
      intro he
      have heq : Reaction.mk srcx p1 (RKind.thenCapture tabx specx) =
          Reaction.mk p1c pc RKind.catchRethrow :=
        owner_unique_react_react hids hown hj hrmem rfl rfl he
      simp at heq
    refine CapChain.react p p1 srcx tabx specx lx ?_ ?_ hlt ?_ ?_ hlt2 ih
    · rw [hst, upd_ne _ _ _ _ hpe]
      exact hp
    · rw [hre]
      refine mem_remove_of_ne (hsplit ▸ hc) ?_
      intro he
      have : p = pc := by injection he
      exact hpe this
    · rw [hst, upd_ne _ _ _ _ hne1]
      exact h1
    · rw [hre]
      exact mem_remove_of_ne (hsplit ▸ hj) (by simp)
  | run p p1 tabx specx hp hc hlt h1 hR =>
    have hpe : p ≠ pc := by
      intro he
      have heq : Reaction.mk p1 p RKind.catchRethrow = Reaction.mk p1c pc RKind.catchRethrow :=
        owner_unique_react_react hids hown hc hrmem rfl rfl he
      have hp1e : p1 = p1c := by injection heq
      rw [hp1e] at h1
      rw [h1] at hsc
      simp at hsc
    have hne1 : p1 ≠ pc := fun he =>
      owner_distinct_react_crun hids hown hrmem rfl hR (by rw [he])
    refine CapChain.run p p1 tabx specx ?_ ?_ hlt ?_ ?_
    · rw [hst, upd_ne _ _ _ _ hpe]
      exact hp
    · rw [hre]
      refine mem_remove_of_ne (hsplit ▸ hc) ?_
      intro he
      have : p = pc := by injection he
      exact hpe this
    · rw [hst, upd_ne _ _ _ _ hne1]
      exact h1
    · rw [hcrun]
      exact hR

/-! ## Invariant preservation, step by step -/

theorem inv_enqueueTab {w : World} (hinv : Inv w) (tabId spec : Nat) :
    Inv (enqueueTabJob tabId spec w).1 := by
  obtain ⟨hids, hown, htab, hcap, htail⟩ := hinv
  have hre1 := hids.1
  have hru1 := hids.2.1
  have hcr1 := hids.2.2.1
  have htq1 := hids.2.2.2.1
  have hcq1 := hids.2.2.2.2.1
  have hst1 := hids.2.2.2.2.2
  cases htq : w.tq tabId with
  | some prev =>
    rw [enqueueTabJob_some tabId spec w htq]
    have hprev : prev < w.nprom := htq1 tabId prev htq
    have hb1 : ((w.nprom + 1 : Nat) == w.nprom) = false := by
      rw [beq_eq_false_iff_ne]
      omega
    refine ⟨⟨?_, ?_, ?_, ?_, ?_, ?_⟩, ?_, ?_, ?_, ?_⟩
    · intro r hr
      dsimp only at hr ⊢
      rcases List.mem_cons.mp hr with rfl | hr
      · exact ⟨show prev < w.nprom + 2 by omega, show w.nprom < w.nprom + 2 by omega⟩
      rcases List.mem_cons.mp hr with rfl | hr
      · exact ⟨show w.nprom < w.nprom + 2 by omega, show w.nprom + 1 < w.nprom + 2 by omega⟩
      rcases List.mem_cons.mp hr with rfl | hr
      · exact ⟨show w.nprom + 1 < w.nprom + 2 by omega,
          show w.nprom + 1 < w.nprom + 2 by omega⟩
      · have := hre1 r hr
        omega
    · intro R hR
      dsimp only at hR ⊢
      have := hru1 R hR
      omega
    · intro C hC
      dsimp only at hC ⊢
      have := hcr1 C hC
      omega
    · intro t p htp
      dsimp only at htp ⊢
      by_cases ht : t = tabId
      · subst ht
        rw [updQ_self] at htp
        have : p = w.nprom + 1 := by
          injection htp with h2
          exact h2.symm
        omega
      · rw [updQ_ne _ _ _ _ ht] at htp
        have := htq1 t p htp
        omega
    · dsimp only
      omega
    · intro p hp
      dsimp only at hp ⊢
      exact hst1 p (by omega)
    · intro p hp
      dsimp only at hp
      unfold ownerCount
      dsimp only
      rw [List.countP_cons, List.countP_cons, List.countP_cons]
      dsimp only
      by_cases hp0 : p = w.nprom
      · subst hp0
        rw [countP_reacts_high hids (le_refl _), countP_runs_high hids (le_refl _),
          countP_cruns_high hids (le_refl _), hst1 _ (le_refl _)]
        simp [settling, hb1]
      · by_cases hp1 : p = w.nprom + 1
        · subst hp1
          rw [countP_reacts_high hids (by omega), countP_runs_high hids (by omega),
            countP_cruns_high hids (by omega), hst1 _ (by omega)]
          have hc1 : ((w.nprom : Nat) == w.nprom + 1) = false := by
            rw [beq_eq_false_iff_ne]
            omega
          simp [settling, hc1]
        · have hplt : p < w.nprom := by omega
          have hcA : ((w.nprom : Nat) == p) = false := by
            rw [beq_eq_false_iff_ne]
            omega
          have hcB : ((w.nprom + 1 : Nat) == p) = false := by
            rw [beq_eq_false_iff_ne]
            omega
          have h0 := hown p hplt
          unfold ownerCount at h0
          simp [settling] at h0
          simp [settling, hcA, hcB]
          omega
    · intro t
      constructor
      · intro tail htqt
        dsimp only at htqt
        by_cases hte : t = tabId
        · subst hte
          rw [updQ_self] at htqt
          have htl : tail = w.nprom + 1 := by
            injection htqt with h2
            exact h2.symm
          subst htl
          obtain ⟨l, hch, hc1, hc2⟩ := (htab t).1 prev htq
          refine ⟨w.nprom :: l, ?_, ?_, ?_⟩
          · refine JobChain.react (w.nprom + 1) w.nprom prev spec l
              (show w.st (w.nprom + 1) = none from hst1 _ (by omega))
              (by dsimp only; exact List.mem_cons_of_mem _ (List.mem_cons_self _ _))
              (by omega)
              (show w.st w.nprom = none from hst1 _ (by omega))
              (by dsimp only; exact List.mem_cons_self _ _)
              hprev ?_
            refine jobChain_stable hch ?_ ?_ ?_ ?_ ?_ ?_
            · intro r hr _
              dsimp only
              exact List.mem_cons_of_mem _ (List.mem_cons_of_mem _ (List.mem_cons_of_mem _ hr))
            · intro R hR _
              exact hR
            · intro q p1 h _
              exact h
            · intro q src sp h _
              exact h
            · intro q sp h _
              exact h
            · intro q o h
              exact h
          · intro src p1 sp hmem
            dsimp only at hmem
            rcases List.mem_cons.mp hmem with he | hmem
            · have : p1 = w.nprom := by injection he
              rw [this]
              exact List.mem_cons_self _ _
            rcases List.mem_cons.mp hmem with he | hmem
            · simp at he
            rcases List.mem_cons.mp hmem with he | hmem
            · simp at he
            · exact List.mem_cons_of_mem _ (hc1 src p1 sp hmem)
          · intro R hR ht2
            exact List.mem_cons_of_mem _ (hc2 R hR ht2)
        · rw [updQ_ne _ _ _ _ hte] at htqt
          obtain ⟨l, hch, hc1, hc2⟩ := (htab t).1 tail htqt
          refine ⟨l, ?_, ?_, ?_⟩
          · refine jobChain_stable hch ?_ ?_ ?_ ?_ ?_ ?_
            · intro r hr _
              dsimp only
              exact List.mem_cons_of_mem _ (List.mem_cons_of_mem _ (List.mem_cons_of_mem _ hr))
            · intro R hR _
              exact hR
            · intro q p1 h _
              exact h
            · intro q src sp h _
              exact h
            · intro q sp h _
              exact h
            · intro q o h
              exact h
          · intro src p1 sp hmem
            dsimp only at hmem
            rcases List.mem_cons.mp hmem with he | hmem
            · exfalso
              have hk : RKind.thenJob t sp = RKind.thenJob tabId spec := by injection he
              have : t = tabId := by injection hk
              exact hte this
            rcases List.mem_cons.mp hmem with he | hmem
            · simp at he
            rcases List.mem_cons.mp hmem with he | hmem
            · simp at he
            · exact hc1 src p1 sp hmem
          · intro R hR ht2
            exact hc2 R hR ht2
      · intro htqt
        dsimp only at htqt
        by_cases hte : t = tabId
        · subst hte
          rw [updQ_self] at htqt
          cases htqt
        · rw [updQ_ne _ _ _ _ hte] at htqt
          have hold := (htab t).2 htqt
          constructor
          · intro src p1 sp hmem
            dsimp only at hmem
            rcases List.mem_cons.mp hmem with he | hmem
            · have hk : RKind.thenJob t sp = RKind.thenJob tabId spec := by injection he
              have : t = tabId := by injection hk
              exact hte this
            rcases List.mem_cons.mp hmem with he | hmem
            · simp at he
            rcases List.mem_cons.mp hmem with he | hmem
            · simp at he
            · exact hold.1 src p1 sp hmem
          · exact hold.2
    · obtain ⟨l, hch, hc1, hc2⟩ := hcap
      refine ⟨l, ?_, ?_, ?_⟩
      · refine capChain_stable hch ?_ ?_ ?_ ?_ ?_ ?_
        · intro r hr _
          dsimp only
          exact List.mem_cons_of_mem _ (List.mem_cons_of_mem _ (List.mem_cons_of_mem _ hr))
        · intro C hC
          exact hC
        · intro q p1 h _
          exact h
        · intro q src tb sp h _
          exact h
        · intro q tb sp h _
          exact h
        · intro q o h
          exact h
      · intro src p1 tb sp hmem
        dsimp only at hmem
        rcases List.mem_cons.mp hmem with he | hmem
        · simp at he
        rcases List.mem_cons.mp hmem with he | hmem
        · simp at he
        rcases List.mem_cons.mp hmem with he | hmem
        · simp at he
        · exact hc1 src p1 tb sp hmem
      · exact hc2
    · intro t p e htp
      dsimp only at htp ⊢
      by_cases ht : t = tabId
      · subst ht
        rw [updQ_self] at htp
        have : p = w.nprom + 1 := by
          injection htp with h2
          exact h2.symm
        rw [this, hst1 _ (by omega)]
        intro hcon
        cases hcon
      · rw [updQ_ne _ _ _ _ ht] at htp
        exact htail t p e htp
  | none =>
    rw [enqueueTabJob_none tabId spec w htq]
    have hstW : ∀ q, q ≠ w.nprom →
        upd w.st w.nprom (some (Outcome.ok JSVal.undef)) q = w.st q := by
      intro q hq
      rw [upd_ne _ _ _ _ hq]
    refine ⟨⟨?_, ?_, ?_, ?_, ?_, ?_⟩, ?_, ?_, ?_, ?_⟩
    · intro r hr
      dsimp only at hr ⊢
      rcases List.mem_cons.mp hr with rfl | hr
      · exact ⟨show w.nprom < w.nprom + 3 by omega, show w.nprom + 1 < w.nprom + 3 by omega⟩
      rcases List.mem_cons.mp hr with rfl | hr
      · exact ⟨show w.nprom + 1 < w.nprom + 3 by omega,
          show w.nprom + 2 < w.nprom + 3 by omega⟩
      rcases List.mem_cons.mp hr with rfl | hr
      · exact ⟨show w.nprom + 2 < w.nprom + 3 by omega,
          show w.nprom + 2 < w.nprom + 3 by omega⟩
      · have := hre1 r hr
        omega
    · intro R hR
      dsimp only at hR ⊢
      have := hru1 R hR
      omega
    · intro C hC
      dsimp only at hC ⊢
      have := hcr1 C hC
      omega
    · intro t p htp
      dsimp only at htp ⊢
      by_cases ht : t = tabId
      · subst ht
        rw [updQ_self] at htp
        have : p = w.nprom + 2 := by
          injection htp with h2
          exact h2.symm
        omega
      · rw [updQ_ne _ _ _ _ ht] at htp
        have := htq1 t p htp
        omega
    · dsimp only
      omega
    · intro p hp
      dsimp only at hp ⊢
      rw [upd_ne _ _ _ _ (by omega : p ≠ w.nprom)]
      exact hst1 p (by omega)
    · intro p hp
      dsimp only at hp
      unfold ownerCount
      dsimp only
      rw [List.countP_cons, List.countP_cons, List.countP_cons]
      dsimp only
      by_cases hp0 : p = w.nprom
      · subst hp0
        rw [countP_reacts_high hids (le_refl _), countP_runs_high hids (le_refl _),
          countP_cruns_high hids (le_refl _), upd_self]
        have hcA : ((w.nprom + 1 : Nat) == w.nprom) = false := by
          rw [beq_eq_false_iff_ne]
          omega
        have hcB : ((w.nprom + 2 : Nat) == w.nprom) = false := by
          rw [beq_eq_false_iff_ne]
          omega
        simp [settling, hcA, hcB]
      · by_cases hp1 : p = w.nprom + 1
        · subst hp1
          rw [countP_reacts_high hids (by omega), countP_runs_high hids (by omega),
            countP_cruns_high hids (by omega), upd_ne _ _ _ _ (by omega), hst1 _ (by omega)]
          have hcB : ((w.nprom + 2 : Nat) == w.nprom + 1) = false := by
            rw [beq_eq_false_iff_ne]
            omega
          simp [settling, hcB]
        · by_cases hp2 : p = w.nprom + 2
          · subst hp2
            rw [countP_reacts_high hids (by omega), countP_runs_high hids (by omega),
              countP_cruns_high hids (by omega), upd_ne _ _ _ _ (by omega), hst1 _ (by omega)]
            have hcA : ((w.nprom + 1 : Nat) == w.nprom + 2) = false := by
              rw [beq_eq_false_iff_ne]
              omega
            simp [settling, hcA]
          · have hplt : p < w.nprom := by omega
            have hcA : ((w.nprom + 1 : Nat) == p) = false := by
              rw [beq_eq_false_iff_ne]
              omega
            have hcB : ((w.nprom + 2 : Nat) == p) = false := by
              rw [beq_eq_false_iff_ne]
              omega
            have h0 := hown p hplt
            unfold ownerCount at h0
            simp [settling] at h0
            rw [upd_ne _ _ _ _ (by omega)]
            simp [settling, hcA, hcB]
            omega
    · intro t
      constructor
      · intro tail htqt
        dsimp only at htqt
        by_cases hte : t = tabId
        · subst hte
          rw [updQ_self] at htqt
          have htl : tail = w.nprom + 2 := by
            injection htqt with h2
            exact h2.symm
          subst htl
          have hold := (htab t).2 htq
          refine ⟨[w.nprom + 1], ?_, ?_, ?_⟩
          · refine JobChain.react (w.nprom + 2) (w.nprom + 1) w.nprom spec []
              (show upd w.st w.nprom (some (Outcome.ok JSVal.undef)) (w.nprom + 2) = none by
                rw [upd_ne _ _ _ _ (by omega)]
                exact hst1 _ (by omega))
              (by dsimp only; exact List.mem_cons_of_mem _ (List.mem_cons_self _ _))
              (by omega)
              (show upd w.st w.nprom (some (Outcome.ok JSVal.undef)) (w.nprom + 1) = none by
                rw [upd_ne _ _ _ _ (by omega)]
                exact hst1 _ (by omega))
              (by dsimp only; exact List.mem_cons_self _ _)
              (by omega) ?_
            exact JobChain.done w.nprom (Outcome.ok JSVal.undef)
              (show upd w.st w.nprom (some (Outcome.ok JSVal.undef)) w.nprom = _ from upd_self _ _ _)
          · intro src p1 sp hmem
            dsimp only at hmem
            rcases List.mem_cons.mp hmem with he | hmem
            · have : p1 = w.nprom + 1 := by injection he
              rw [this]
              exact List.mem_cons_self _ _
            rcases List.mem_cons.mp hmem with he | hmem
            · simp at he
            rcases List.mem_cons.mp hmem with he | hmem
            · simp at he
            · exact absurd hmem (hold.1 src p1 sp)
          · intro R hR ht2
            exact absurd ht2 (hold.2 R hR)
        · rw [updQ_ne _ _ _ _ hte] at htqt
          obtain ⟨l, hch, hc1, hc2⟩ := (htab t).1 tail htqt
          refine ⟨l, ?_, ?_, ?_⟩
          · refine jobChain_stable hch ?_ ?_ ?_ ?_ ?_ ?_
            · intro r hr _
              dsimp only
              exact List.mem_cons_of_mem _ (List.mem_cons_of_mem _ (List.mem_cons_of_mem _ hr))
            · intro R hR _
              exact hR
            · intro q p1 h hm
              have hq : q < w.nprom := (hre1 _ hm).2
              show upd w.st w.nprom (some (Outcome.ok JSVal.undef)) q = none
              rw [upd_ne _ _ _ _ (by omega)]
              exact h
            · intro q src sp h hm
              have hq : q < w.nprom := (hre1 _ hm).2
              show upd w.st w.nprom (some (Outcome.ok JSVal.undef)) q = none
              rw [upd_ne _ _ _ _ (by omega)]
              exact h
            · intro q sp h hm
              have hq : q < w.nprom := hru1 _ hm
              show upd w.st w.nprom (some (Outcome.ok JSVal.undef)) q = none
              rw [upd_ne _ _ _ _ (by omega)]
              exact h
            · intro q o h
              have hq : q ≠ w.nprom := by
                intro he
                rw [he, hst1 _ (le_refl _)] at h
                cases h
              show upd w.st w.nprom (some (Outcome.ok JSVal.undef)) q = some o
              rw [upd_ne _ _ _ _ hq]
              exact h
          · intro src p1 sp hmem
            dsimp only at hmem
            rcases List.mem_cons.mp hmem with he | hmem
            · exfalso
              have hk : RKind.thenJob t sp = RKind.thenJob tabId spec := by injection he
              have : t = tabId := by injection hk
              exact hte this
            rcases List.mem_cons.mp hmem with he | hmem
            · simp at he
            rcases List.mem_cons.mp hmem with he | hmem
            · simp at he
            · exact hc1 src p1 sp hmem
          · intro R hR ht2
            exact hc2 R hR ht2
      · intro htqt
        dsimp only at htqt
        by_cases hte : t = tabId
        · subst hte
          rw [updQ_self] at htqt
          cases htqt
        · rw [updQ_ne _ _ _ _ hte] at htqt
          have hold := (htab t).2 htqt
          constructor
          · intro src p1 sp hmem
            dsimp only at hmem
            rcases List.mem_cons.mp hmem with he | hmem
            · have hk : RKind.thenJob t sp = RKind.thenJob tabId spec := by injection he
              have : t = tabId := by injection hk
              exact hte this
            rcases List.mem_cons.mp hmem with he | hmem
            · simp at he
            rcases List.mem_cons.mp hmem with he | hmem
            · simp at he
            · exact hold.1 src p1 sp hmem
          · exact hold.2
    · obtain ⟨l, hch, hc1, hc2⟩ := hcap
      refine ⟨l, ?_, ?_, ?_⟩
      · refine capChain_stable hch ?_ ?_ ?_ ?_ ?_ ?_
        · intro r hr _
          dsimp only
          exact List.mem_cons_of_mem _ (List.mem_cons_of_mem _ (List.mem_cons_of_mem _ hr))
        · intro C hC
          exact hC
        · intro q p1 h hm
          have hq : q < w.nprom := (hre1 _ hm).2
          show upd w.st w.nprom (some (Outcome.ok JSVal.undef)) q = none
          rw [upd_ne _ _ _ _ (by omega)]
          exact h
        · intro q src tb sp h hm
          have hq : q < w.nprom := (hre1 _ hm).2
          show upd w.st w.nprom (some (Outcome.ok JSVal.undef)) q = none
          rw [upd_ne _ _ _ _ (by omega)]
          exact h
        · intro q tb sp h hm
          have hq : q < w.nprom := hcr1 _ hm
          show upd w.st w.nprom (some (Outcome.ok JSVal.undef)) q = none
          rw [upd_ne _ _ _ _ (by omega)]
          exact h
        · intro q o h
          have hq : q ≠ w.nprom := by
            intro he
            rw [he, hst1 _ (le_refl _)] at h
            cases h
          show upd w.st w.nprom (some (Outcome.ok JSVal.undef)) q = some o
          rw [upd_ne _ _ _ _ hq]
          exact h
      · intro src p1 tb sp hmem
        dsimp only at hmem
        rcases List.mem_cons.mp hmem with he | hmem
        · simp at he
        rcases List.mem_cons.mp hmem with he | hmem
        · simp at he
        rcases List.mem_cons.mp hmem with he | hmem
        · simp at he
        · exact hc1 src p1 tb sp hmem
      · exact hc2
    · intro t p e htp
      dsimp only at htp ⊢
      by_cases ht : t = tabId
      · subst ht
        rw [updQ_self] at htp
        have hpe : p = w.nprom + 2 := by
          injection htp with h2
          exact h2.symm
        rw [hpe, upd_ne _ _ _ _ (by omega), hst1 _ (by omega)]
        intro hcon
        cases hcon
      · rw [updQ_ne _ _ _ _ ht] at htp
        have hplt : p < w.nprom := htq1 t p htp
        rw [upd_ne _ _ _ _ (by omega)]
        exact htail t p e htp

theorem enqueueCaptureJob_eq (tabId spec : Nat) (w : World) :
    (enqueueCaptureJob tabId spec w).1 = { w with
      nprom := w.nprom + 2,
      reacts := Reaction.mk w.cq w.nprom (RKind.thenCapture tabId spec) ::
                Reaction.mk w.nprom (w.nprom + 1) RKind.catchRethrow :: w.reacts,
      cq := w.nprom + 1 } := rfl

theorem inv_enqueueCapture {w : World} (hinv : Inv w) (tabId spec : Nat) :
    Inv (enqueueCaptureJob tabId spec w).1 := by
  obtain ⟨hids, hown, htab, hcap, htail⟩ := hinv
  have hre1 := hids.1
  have hru1 := hids.2.1
  have hcr1 := hids.2.2.1
  have htq1 := hids.2.2.2.1
  have hcq1 := hids.2.2.2.2.1
  have hst1 := hids.2.2.2.2.2
  rw [enqueueCaptureJob_eq]
  refine ⟨⟨?_, ?_, ?_, ?_, ?_, ?_⟩, ?_, ?_, ?_, ?_⟩
  · intro r hr
    dsimp only at hr ⊢
    rcases List.mem_cons.mp hr with rfl | hr
    · exact ⟨show w.cq < w.nprom + 2 by omega, show w.nprom < w.nprom + 2 by omega⟩
    rcases List.mem_cons.mp hr with rfl | hr
    · exact ⟨show w.nprom < w.nprom + 2 by omega, show w.nprom + 1 < w.nprom + 2 by omega⟩
    · have := hre1 r hr
      omega
  · intro R hR
    dsimp only at hR ⊢
    have := hru1 R hR
    omega
  · intro C hC
    dsimp only at hC ⊢
    have := hcr1 C hC
    omega
  · intro t p htp
    dsimp only at htp ⊢
    have := htq1 t p htp
    omega
  · dsimp only
    omega
  · intro p hp
    dsimp only at hp ⊢
    exact hst1 p (by omega)
  · intro p hp
    dsimp only at hp
    unfold ownerCount
    dsimp only
    rw [List.countP_cons, List.countP_cons]
    by_cases hp0 : p = w.nprom
    · subst hp0
      rw [countP_reacts_high hids (le_refl _), countP_runs_high hids (le_refl _),
        countP_cruns_high hids (le_refl _), hst1 _ (le_refl _)]
      have hcE : ((w.nprom + 1 : Nat) == w.nprom) = false := by
        rw [beq_eq_false_iff_ne]
        omega
      simp [settling, hcE]
    · by_cases hp1 : p = w.nprom + 1
      · subst hp1
        rw [countP_reacts_high hids (by omega), countP_runs_high hids (by omega),
          countP_cruns_high hids (by omega), hst1 _ (by omega)]
        have hcD : ((w.nprom : Nat) == w.nprom + 1) = false := by
          rw [beq_eq_false_iff_ne]
          omega
        simp [settling, hcD]
      · have hplt : p < w.nprom := by omega
        have hcD : ((w.nprom : Nat) == p) = false := by
          rw [beq_eq_false_iff_ne]
          omega
        have hcE : ((w.nprom + 1 : Nat) == p) = false := by
          rw [beq_eq_false_iff_ne]
          omega
        have h0 := hown p hplt
        unfold ownerCount at h0
        simp [settling] at h0
        simp [settling, hcD, hcE]
        omega
  · intro t
    constructor
    · intro tail htqt
      dsimp only at htqt
      obtain ⟨l, hch, hc1, hc2⟩ := (htab t).1 tail htqt
      refine ⟨l, ?_, ?_, ?_⟩
      · refine jobChain_stable hch ?_ ?_ ?_ ?_ ?_ ?_
        · intro r hr _
          dsimp only
          exact List.mem_cons_of_mem _ (List.mem_cons_of_mem _ hr)
        · intro R hR _
          exact hR
        · intro q p1 h _
          exact h
        · intro q src sp h _
          exact h
        · intro q sp h _
          exact h
        · intro q o h
          exact h
      · intro src p1 sp hmem
        dsimp only at hmem
        rcases List.mem_cons.mp hmem with he | hmem
        · simp at he
        rcases List.mem_cons.mp hmem with he | hmem
        · simp at he
        · exact hc1 src p1 sp hmem
      · exact hc2
    · intro htqt
      dsimp only at htqt
      have hold := (htab t).2 htqt
      constructor
      · intro src p1 sp hmem
        dsimp only at hmem
        rcases List.mem_cons.mp hmem with he | hmem
        · simp at he
        rcases List.mem_cons.mp hmem with he | hmem
        · simp at he
        · exact hold.1 src p1 sp hmem
      · exact hold.2
  · obtain ⟨l, hch, hc1, hc2⟩ := hcap
    refine ⟨w.nprom :: l, ?_, ?_, ?_⟩
    · refine CapChain.react (w.nprom + 1) w.nprom w.cq tabId spec l
        (show w.st (w.nprom + 1) = none from hst1 _ (by omega))
        (by dsimp only; exact List.mem_cons_of_mem _ (List.mem_cons_self _ _))
        (by omega)
        (show w.st w.nprom = none from hst1 _ (by omega))
        (by dsimp only; exact List.mem_cons_self _ _)
        hcq1 ?_
      refine capChain_stable hch ?_ ?_ ?_ ?_ ?_ ?_
      · intro r hr _
        dsimp only
        exact List.mem_cons_of_mem _ (List.mem_cons_of_mem _ hr)
      · intro C hC
        exact hC
      · intro q p1 h _
        exact h
      · intro q src tb sp h _
        exact h
      · intro q tb sp h _
        exact h
      · intro q o h
        exact h
    · intro src p1 tb sp hmem
      dsimp only at hmem
      rcases List.mem_cons.mp hmem with he | hmem
      · have : p1 = w.nprom := by injection he
        rw [this]
        exact List.mem_cons_self _ _
      rcases List.mem_cons.mp hmem with he | hmem
      · simp at he
      · exact List.mem_cons_of_mem _ (hc1 src p1 tb sp hmem)
    · intro C hC
      exact List.mem_cons_of_mem _ (hc2 C hC)
  · intro t p e htp
    exact htail t p e htp

theorem inv_fire_thenJob_ok {w : World} (hinv : Inv w)
    {l1 l2 : List Reaction} {src0 p10 t0 spec0 : Nat} {v : JSVal}
    (hsplit : w.reacts = l1 ++ Reaction.mk src0 p10 (RKind.thenJob t0 spec0) :: l2)
    (hsrc : w.st src0 = some (Outcome.ok v)) :
    Inv (fireWorld w l1 l2 (Reaction.mk src0 p10 (RKind.thenJob t0 spec0)) (Outcome.ok v)) := by
  obtain ⟨hids, hown, htab, hcap, htail⟩ := hinv
  have hre1 := hids.1
  have hru1 := hids.2.1
  have hcr1 := hids.2.2.1
  have htq1 := hids.2.2.2.1
  have hcq1 := hids.2.2.2.2.1
  have hst1 := hids.2.2.2.2.2
  have hrm : Reaction.mk src0 p10 (RKind.thenJob t0 spec0) ∈ w.reacts := mem_split hsplit
  have hp10lt : p10 < w.nprom := (hre1 _ hrm).2
  have hsrcS : (w.st src0).isSome = true := by rw [hsrc]; rfl
  rw [fireWorld_thenJob_ok]
  refine ⟨⟨?_, ?_, ?_, ?_, ?_, ?_⟩, ?_, ?_, ?_, ?_⟩
  · intro r hr
    dsimp only at hr ⊢
    exact hre1 r (hsplit ▸ mem_insert_mid hr _)
  · intro R hR
    dsimp only at hR ⊢
    rcases List.mem_cons.mp hR with rfl | hR
    · exact hp10lt
    · exact hru1 R hR
  · intro C hC
    exact hcr1 C hC
  · intro t p htp
    exact htq1 t p htp
  · exact hcq1
  · intro p hp
    exact hst1 p hp
  · intro p hp
    dsimp only at hp
    have h0 := hown p hp
    unfold ownerCount at h0 ⊢
    dsimp only
    rw [hsplit, List.countP_append, List.countP_cons] at h0
    rw [List.countP_append, List.countP_cons]
    simp [settling] at h0 ⊢
    omega
  · intro t
    constructor
    · intro tail htqt
      dsimp only at htqt
      obtain ⟨l, hch, hc1, hc2⟩ := (htab t).1 tail htqt
      by_cases hte : t = t0
      · subst hte
        refine ⟨l, jobchain_start_run
          { w with reacts := l1 ++ l2, runs := RunJob.mk p10 t spec0 :: w.runs }
          hids hown hsplit hsrcS rfl rfl rfl hch, ?_, ?_⟩
        · intro src p1 sp hmem
          dsimp only at hmem
          exact hc1 src p1 sp (hsplit ▸ mem_insert_mid hmem _)
        · intro R hR ht2
          dsimp only at hR
          rcases List.mem_cons.mp hR with rfl | hR
          · exact hc1 src0 p10 spec0 hrm
          · exact hc2 R hR ht2
      · refine ⟨l, ?_, ?_, ?_⟩
        · refine jobChain_stable hch ?_ ?_ ?_ ?_ ?_ ?_
          · intro r hr hrel
            dsimp only
            refine mem_remove_of_ne (hsplit ▸ hr) ?_
            intro he
            rcases hrel with hk | ⟨sp, hk⟩
            · rw [he] at hk
              cases hk
            · rw [he] at hk
              have h12 : t0 = t := by injection hk
              exact hte h12.symm
          · intro R hR _
            dsimp only
            exact List.mem_cons_of_mem _ hR
          · intro q p1 h _
            exact h
          · intro q src sp h _
            exact h
          · intro q sp h _
            exact h
          · intro q o h
            exact h
        · intro src p1 sp hmem
          dsimp only at hmem
          exact hc1 src p1 sp (hsplit ▸ mem_insert_mid hmem _)
        · intro R hR ht2
          dsimp only at hR
          rcases List.mem_cons.mp hR with rfl | hR
          · exact absurd ht2 (by
              dsimp only
              intro hcon
              exact hte hcon.symm)
          · exact hc2 R hR ht2
    · intro htqt
      dsimp only at htqt
      have hold := (htab t).2 htqt
      by_cases hte : t = t0
      · subst hte
        exact absurd hrm (hold.1 src0 p10 spec0)
      · constructor
        · intro src p1 sp hmem
          dsimp only at hmem
          exact hold.1 src p1 sp (hsplit ▸ mem_insert_mid hmem _)
        · intro R hR
          dsimp only at hR
          rcases List.mem_cons.mp hR with rfl | hR
          · dsimp only
            intro hcon
            exact hte hcon.symm
          · exact hold.2 R hR
  · obtain ⟨l, hch, hc1, hc2⟩ := hcap
    refine ⟨l, ?_, ?_, ?_⟩
    · refine capChain_stable hch ?_ ?_ ?_ ?_ ?_ ?_
      · intro r hr hrel
        dsimp only
        refine mem_remove_of_ne (hsplit ▸ hr) ?_
        intro he
        rcases hrel with hk | ⟨tb, sp, hk⟩
        · rw [he] at hk
          cases hk
        · rw [he] at hk
          cases hk
      · intro C hC
        exact hC
      · intro q p1 h _
        exact h
      · intro q src tb sp h _
        exact h
      · intro q tb sp h _
        exact h
      · intro q o h
        exact h
    · intro src p1 tb sp hmem
      dsimp only at hmem
      exact hc1 src p1 tb sp (hsplit ▸ mem_insert_mid hmem _)
    · exact hc2
  · intro t p e htp
    exact htail t p e htp

theorem inv_fire_thenJob_err {w : World} (hinv : Inv w)
    {l1 l2 : List Reaction} {src0 p10 t0 spec0 : Nat} {e0 : JSVal}
    (hsplit : w.reacts = l1 ++ Reaction.mk src0 p10 (RKind.thenJob t0 spec0) :: l2)
    (hsrc : w.st src0 = some (Outcome.err e0)) :
    Inv (fireWorld w l1 l2 (Reaction.mk src0 p10 (RKind.thenJob t0 spec0)) (Outcome.err e0)) := by
  obtain ⟨hids, hown, htab, hcap, htail⟩ := hinv
  have hre1 := hids.1
  have hru1 := hids.2.1
  have hcr1 := hids.2.2.1
  have htq1 := hids.2.2.2.1
  have hcq1 := hids.2.2.2.2.1
  have hst1 := hids.2.2.2.2.2
  have hrm : Reaction.mk src0 p10 (RKind.thenJob t0 spec0) ∈ w.reacts := mem_split hsplit
  have hp10lt : p10 < w.nprom := (hre1 _ hrm).2
  have hp10none : w.st p10 = none := st_none_of_react hids hown hrm rfl
  have hsrcS : (w.st src0).isSome = true := by rw [hsrc]; rfl
  rw [fireWorld_thenJob_err]
  refine ⟨⟨?_, ?_, ?_, ?_, ?_, ?_⟩, ?_, ?_, ?_, ?_⟩
  · intro r hr
    dsimp only at hr ⊢
    exact hre1 r (hsplit ▸ mem_insert_mid hr _)
  · intro R hR
    exact hru1 R hR
  · intro C hC
    exact hcr1 C hC
  · intro t p htp
    exact htq1 t p htp
  · exact hcq1
  · intro p hp
    dsimp only at hp ⊢
    rw [upd_ne _ _ _ _ (by omega : p ≠ p10)]
    exact hst1 p hp
  · intro p hp
    dsimp only at hp
    have h0 := hown p hp
    unfold ownerCount at h0 ⊢
    dsimp only
    rw [List.countP_append]
    by_cases hpe : p = p10
    · rw [hpe] at h0 ⊢
      rw [hsplit, List.countP_append, List.countP_cons_of_pos _ _ (by simp [settling]),
        hp10none] at h0
      rw [upd_self]
      rw [show (if (none : Option Outcome).isSome = true then (0 : Nat) else 1) = 1
        from rfl] at h0
      rw [show (if (some (Outcome.err e0)).isSome = true then (0 : Nat) else 1) = 0 from rfl]
      omega
    · rw [upd_ne _ _ _ _ hpe]
      rw [hsplit, List.countP_append,
        List.countP_cons_of_neg _ _ (by simp [settling]; omega)] at h0
      omega
  · intro t
    constructor
    · intro tail htqt
      dsimp only at htqt
      obtain ⟨l, hch, hc1, hc2⟩ := (htab t).1 tail htqt
      by_cases hte : t = t0
      · subst hte
        obtain ⟨lres, hch2, hsub⟩ :=
          jobchain_kill_react
            { w with reacts := l1 ++ l2, st := upd w.st p10 (some (Outcome.err e0)) }
            hids hown hsplit hsrcS rfl rfl rfl hch
        refine ⟨lres, hch2, ?_, ?_⟩
        · intro src p1 sp hmem
          dsimp only at hmem
          have hmem2 := hsplit ▸ mem_insert_mid hmem (Reaction.mk src0 p10 (RKind.thenJob t spec0))
          have hne : p1 ≠ p10 := by
            intro he
            have heq := owner_unique_react_react hids hown hmem2 hrm rfl rfl he
            rw [heq] at hmem
            exact owner_once_react hids hown hsplit rfl hmem
          exact hsub p1 (hc1 src p1 sp hmem2) hne
        · intro R hR ht2
          dsimp only at hR
          have hne : R.tgt ≠ p10 :=
            fun he => owner_distinct_react_run hids hown hrm rfl hR he.symm
          exact hsub R.tgt (hc2 R hR ht2) hne
      · refine ⟨l, ?_, ?_, ?_⟩
        · refine jobChain_stable hch ?_ ?_ ?_ ?_ ?_ ?_
          · intro r hr hrel
            dsimp only
            refine mem_remove_of_ne (hsplit ▸ hr) ?_
            intro he
            rcases hrel with hk | ⟨sp, hk⟩
            · rw [he] at hk
              cases hk
            · rw [he] at hk
              have h12 : t0 = t := by injection hk
              exact hte h12.symm
          · intro R hR _
            exact hR
          · intro q p1 h hm
            have hne : q ≠ p10 := by
              intro he
              have heq := owner_unique_react_react hids hown hm hrm rfl rfl he
              cases heq
            show upd w.st p10 (some (Outcome.err e0)) q = none
            rw [upd_ne _ _ _ _ hne]
            exact h
          · intro q src sp h hm
            have hne : q ≠ p10 := by
              intro he
              have heq := owner_unique_react_react hids hown hm hrm rfl rfl he
              have hk : RKind.thenJob t sp = RKind.thenJob t0 spec0 := by injection heq
              have : t = t0 := by injection hk
              exact hte this
            show upd w.st p10 (some (Outcome.err e0)) q = none
            rw [upd_ne _ _ _ _ hne]
            exact h
          · intro q sp h hm
            have hne : q ≠ p10 :=
              fun he => owner_distinct_react_run hids hown hrm rfl hm (by rw [he])
            show upd w.st p10 (some (Outcome.err e0)) q = none
            rw [upd_ne _ _ _ _ hne]
            exact h
          · intro q o h
            have hne : q ≠ p10 := by
              intro he
              rw [he, hp10none] at h
              cases h
            show upd w.st p10 (some (Outcome.err e0)) q = some o
            rw [upd_ne _ _ _ _ hne]
            exact h
        · intro src p1 sp hmem
          dsimp only at hmem
          exact hc1 src p1 sp (hsplit ▸ mem_insert_mid hmem _)
        · intro R hR ht2
          exact hc2 R hR ht2
    · intro htqt
      dsimp only at htqt
      have hold := (htab t).2 htqt
      by_cases hte : t = t0
      · subst hte
        exact absurd hrm (hold.1 src0 p10 spec0)
      · constructor
        · intro src p1 sp hmem
          dsimp only at hmem
          exact hold.1 src p1 sp (hsplit ▸ mem_insert_mid hmem _)
        · exact hold.2
  · obtain ⟨l, hch, hc1, hc2⟩ := hcap
    refine ⟨l, ?_, ?_, ?_⟩
    · refine capChain_stable hch ?_ ?_ ?_ ?_ ?_ ?_
      · intro r hr hrel
        dsimp only
        refine mem_remove_of_ne (hsplit ▸ hr) ?_
        intro he
        rcases hrel with hk | ⟨tb, sp, hk⟩
        · rw [he] at hk
          cases hk
        · rw [he] at hk
          cases hk
      · intro C hC
        exact hC
      · intro q p1 h hm
        have hne : q ≠ p10 := by
          intro he
          have heq := owner_unique_react_react hids hown hm hrm rfl rfl he
          cases heq
        show upd w.st p10 (some (Outcome.err e0)) q = none
        rw [upd_ne _ _ _ _ hne]
        exact h
      · intro q src tb sp h hm
        have hne : q ≠ p10 := by
          intro he
          have heq := owner_unique_react_react hids hown hm hrm rfl rfl he
          cases heq
        show upd w.st p10 (some (Outcome.err e0)) q = none
        rw [upd_ne _ _ _ _ hne]
        exact h
      · intro q tb sp h hm
        have hne : q ≠ p10 :=
          fun he => owner_distinct_react_crun hids hown hrm rfl hm (by rw [he])
        show upd w.st p10 (some (Outcome.err e0)) q = none
        rw [upd_ne _ _ _ _ hne]
        exact h
      · intro q o h
        have hne : q ≠ p10 := by
          intro he
          rw [he, hp10none] at h
          cases h
        show upd w.st p10 (some (Outcome.err e0)) q = some o
        rw [upd_ne _ _ _ _ hne]
        exact h
    · intro src p1 tb sp hmem
      dsimp only at hmem
      exact hc1 src p1 tb sp (hsplit ▸ mem_insert_mid hmem _)
    · exact hc2
  · intro t p e htp
    dsimp only at htp ⊢
    have hne : p ≠ p10 := by
      rcases tail_owner htab htp with ⟨o, ho⟩ | ⟨p1, hcl⟩
      · intro he
        rw [he, hp10none] at ho
        cases ho
      · intro he
        have heq := owner_unique_react_react hids hown hcl hrm rfl rfl he
        cases heq
    rw [upd_ne _ _ _ _ hne]
    exact htail t p e htp

theorem inv_catchLog_aux {w : World} (hinv : Inv w)
    {l1 l2 : List Reaction} {p1c pc : Nat}
    (hsplit : w.reacts = l1 ++ Reaction.mk p1c pc RKind.catchLog :: l2)
    (hsc : (w.st p1c).isSome = true) (u : JSVal) :
    Inv { w with reacts := l1 ++ l2, st := upd w.st pc (some (Outcome.ok u)) } := by
  obtain ⟨hids, hown, htab, hcap, htail⟩ := hinv
  have hre1 := hids.1
  have hru1 := hids.2.1
  have hcr1 := hids.2.2.1
  have htq1 := hids.2.2.2.1
  have hcq1 := hids.2.2.2.2.1
  have hst1 := hids.2.2.2.2.2
  have hrm : Reaction.mk p1c pc RKind.catchLog ∈ w.reacts := mem_split hsplit
  have hpclt : pc < w.nprom := (hre1 _ hrm).2
  have hpcnone : w.st pc = none := st_none_of_react hids hown hrm rfl
  refine ⟨⟨?_, ?_, ?_, ?_, ?_, ?_⟩, ?_, ?_, ?_, ?_⟩
  · intro r hr
    dsimp only at hr ⊢
    exact hre1 r (hsplit ▸ mem_insert_mid hr _)
  · intro R hR
    exact hru1 R hR
  · intro C hC
    exact hcr1 C hC
  · intro t p htp
    exact htq1 t p htp
  · exact hcq1
  · intro p hp
    dsimp only at hp ⊢
    rw [upd_ne _ _ _ _ (by omega : p ≠ pc)]
    exact hst1 p hp
  · intro p hp
    dsimp only at hp
    have h0 := hown p hp
    unfold ownerCount at h0 ⊢
    dsimp only
    rw [List.countP_append]
    by_cases hpe : p = pc
    · rw [hpe] at h0 ⊢
      rw [hsplit, List.countP_append, List.countP_cons_of_pos _ _ (by simp [settling]),
        hpcnone] at h0
      rw [upd_self]
      rw [show (if (none : Option Outcome).isSome = true then (0 : Nat) else 1) = 1
        from rfl] at h0
      rw [show (if (some (Outcome.ok u)).isSome = true then (0 : Nat) else 1) = 0 from rfl]
      omega
    · rw [upd_ne _ _ _ _ hpe]
      rw [hsplit, List.countP_append,
        List.countP_cons_of_neg _ _ (by simp [settling]; omega)] at h0
      omega
  · intro t
    constructor
    · intro tail htqt
      dsimp only at htqt
      obtain ⟨l, hch, hc1, hc2⟩ := (htab t).1 tail htqt
      refine ⟨l, jobchain_catchfire
        { w with reacts := l1 ++ l2, st := upd w.st pc (some (Outcome.ok u)) }
        hids hown hsplit hsc rfl rfl rfl hch, ?_, ?_⟩
      · intro src p1 sp hmem
        dsimp only at hmem
        exact hc1 src p1 sp (hsplit ▸ mem_insert_mid hmem _)
      · intro R hR ht2
        exact hc2 R hR ht2
    · intro htqt
      dsimp only at htqt
      have hold := (htab t).2 htqt
      constructor
      · intro src p1 sp hmem
        dsimp only at hmem
        exact hold.1 src p1 sp (hsplit ▸ mem_insert_mid hmem _)
      · exact hold.2
  · obtain ⟨l, hch, hc1, hc2⟩ := hcap
    refine ⟨l, ?_, ?_, ?_⟩
    · refine capChain_stable hch ?_ ?_ ?_ ?_ ?_ ?_
      · intro r hr hrel
        dsimp only
        refine mem_remove_of_ne (hsplit ▸ hr) ?_
        intro he
        rcases hrel with hk | ⟨tb, sp, hk⟩
        · rw [he] at hk
          cases hk
        · rw [he] at hk
          cases hk
      · intro C hC
        exact hC
      · intro q p1 h hm
        have hne : q ≠ pc := by
          intro he
          have heq := owner_unique_react_react hids hown hm hrm rfl rfl he
          cases heq
        show upd w.st pc (some (Outcome.ok u)) q = none
        rw [upd_ne _ _ _ _ hne]
        exact h
      · intro q src tb sp h hm
        have hne : q ≠ pc := by
          intro he
          have heq := owner_unique_react_react hids hown hm hrm rfl rfl he
          cases heq
        show upd w.st pc (some (Outcome.ok u)) q = none
        rw [upd_ne _ _ _ _ hne]
        exact h
      · intro q tb sp h hm
        have hne : q ≠ pc :=
          fun he => owner_distinct_react_crun hids hown hrm rfl hm (by rw [he])
        show upd w.st pc (some (Outcome.ok u)) q = none
        rw [upd_ne _ _ _ _ hne]
        exact h
      · intro q o h
        have hne : q ≠ pc := by
          intro he
          rw [he, hpcnone] at h
          cases h
        show upd w.st pc (some (Outcome.ok u)) q = some o
        rw [upd_ne _ _ _ _ hne]
        exact h
    · intro src p1 tb sp hmem
      dsimp only at hmem
      exact hc1 src p1 tb sp (hsplit ▸ mem_insert_mid hmem _)
    · exact hc2
  · intro t p e htp
    dsimp only at htp ⊢
    by_cases hpe : p = pc
    · rw [hpe, upd_self]
      intro hcon
      cases hcon
    · rw [upd_ne _ _ _ _ hpe]
      exact htail t p e htp

theorem inv_fire_catchLog {w : World} (hinv : Inv w)
    {l1 l2 : List Reaction} {p1c pc : Nat} {o : Outcome}
    (hsplit : w.reacts = l1 ++ Reaction.mk p1c pc RKind.catchLog :: l2)
    (hsrc : w.st p1c = some o) :
    Inv (fireWorld w l1 l2 (Reaction.mk p1c pc RKind.catchLog) o) := by
  have hsc : (w.st p1c).isSome = true := by rw [hsrc]; rfl
  cases o with
  | ok v =>
    rw [fireWorld_catchLog_ok]
    exact inv_catchLog_aux hinv hsplit hsc v
  | err e =>
    rw [fireWorld_catchLog_err]
    exact inv_catchLog_aux hinv hsplit hsc JSVal.undef

theorem inv_fire_thenCapture_ok {w : World} (hinv : Inv w)
    {l1 l2 : List Reaction} {src0 p10 t0 spec0 : Nat} {v : JSVal}
    (hsplit : w.reacts = l1 ++ Reaction.mk src0 p10 (RKind.thenCapture t0 spec0) :: l2)
    (hsrc : w.st src0 = some (Outcome.ok v)) :
    Inv (fireWorld w l1 l2 (Reaction.mk src0 p10 (RKind.thenCapture t0 spec0))
      (Outcome.ok v)) := by
  obtain ⟨hids, hown, htab, hcap, htail⟩ := hinv
  have hre1 := hids.1
  have hru1 := hids.2.1
  have hcr1 := hids.2.2.1
  have htq1 := hids.2.2.2.1
  have hcq1 := hids.2.2.2.2.1
  have hst1 := hids.2.2.2.2.2
  have hrm : Reaction.mk src0 p10 (RKind.thenCapture t0 spec0) ∈ w.reacts := mem_split hsplit
  have hp10lt : p10 < w.nprom := (hre1 _ hrm).2
  have hsrcS : (w.st src0).isSome = true := by rw [hsrc]; rfl
  rw [fireWorld_thenCapture_ok]
  refine ⟨⟨?_, ?_, ?_, ?_, ?_, ?_⟩, ?_, ?_, ?_, ?_⟩
  · intro r hr
    dsimp only at hr ⊢
    exact hre1 r (hsplit ▸ mem_insert_mid hr _)
  · intro R hR
    exact hru1 R hR
  · intro C hC
    dsimp only at hC ⊢
    rcases List.mem_cons.mp hC with rfl | hC
    · exact hp10lt
    · exact hcr1 C hC
  · intro t p htp
    exact htq1 t p htp
  · exact hcq1
  · intro p hp
    exact hst1 p hp
  · intro p hp
    dsimp only at hp
    have h0 := hown p hp
    unfold ownerCount at h0 ⊢
    dsimp only
    rw [hsplit, List.countP_append, List.countP_cons] at h0
    rw [List.countP_append, List.countP_cons]
    simp [settling] at h0 ⊢
    omega
  · intro t
    constructor
    · intro tail htqt
      dsimp only at htqt
      obtain ⟨l, hch, hc1, hc2⟩ := (htab t).1 tail htqt
      refine ⟨l, ?_, ?_, ?_⟩
      · refine jobChain_stable hch ?_ ?_ ?_ ?_ ?_ ?_
        · intro r hr hrel
          dsimp only
          refine mem_remove_of_ne (hsplit ▸ hr) ?_
          intro he
          rcases hrel with hk | ⟨sp, hk⟩
          · rw [he] at hk
            cases hk
          · rw [he] at hk
            cases hk
        · intro R hR _
          exact hR
        · intro q p1 h _
          exact h
        · intro q src sp h _
          exact h
        · intro q sp h _
          exact h
        · intro q o h
          exact h
      · intro src p1 sp hmem
        dsimp only at hmem
        exact hc1 src p1 sp (hsplit ▸ mem_insert_mid hmem _)
      · intro R hR ht2
        exact hc2 R hR ht2
    · intro htqt
      dsimp only at htqt
      have hold := (htab t).2 htqt
      constructor
      · intro src p1 sp hmem
        dsimp only at hmem
        exact hold.1 src p1 sp (hsplit ▸ mem_insert_mid hmem _)
      · exact hold.2
  · obtain ⟨l, hch, hc1, hc2⟩ := hcap
    refine ⟨l, capchain_start_run
      { w with reacts := l1 ++ l2, cruns := RunCapture.mk p10 t0 spec0 :: w.cruns }
      hids hown hsplit hsrcS rfl rfl rfl hch, ?_, ?_⟩
    · intro src p1 tb sp hmem
      dsimp only at hmem
      exact hc1 src p1 tb sp (hsplit ▸ mem_insert_mid hmem _)
    · intro C hC
      dsimp only at hC
      rcases List.mem_cons.mp hC with rfl | hC
      · exact hc1 src0 p10 t0 spec0 hrm
      · exact hc2 C hC
  · intro t p e htp
    exact htail t p e htp

theorem inv_fire_thenCapture_err {w : World} (hinv : Inv w)
    {l1 l2 : List Reaction} {src0 p10 t0 spec0 : Nat} {e0 : JSVal}
    (hsplit : w.reacts = l1 ++ Reaction.mk src0 p10 (RKind.thenCapture t0 spec0) :: l2)
    (hsrc : w.st src0 = some (Outcome.err e0)) :
    Inv (fireWorld w l1 l2 (Reaction.mk src0 p10 (RKind.thenCapture t0 spec0))
      (Outcome.err e0)) := by
  obtain ⟨hids, hown, htab, hcap, htail⟩ := hinv
  have hre1 := hids.1
  have hru1 := hids.2.1
  have hcr1 := hids.2.2.1
  have htq1 := hids.2.2.2.1
  have hcq1 := hids.2.2.2.2.1
  have hst1 := hids.2.2.2.2.2
  have hrm : Reaction.mk src0 p10 (RKind.thenCapture t0 spec0) ∈ w.reacts := mem_split hsplit
  have hp10lt : p10 < w.nprom := (hre1 _ hrm).2
  have hp10none : w.st p10 = none := st_none_of_react hids hown hrm rfl
  have hsrcS : (w.st src0).isSome = true := by rw [hsrc]; rfl
  rw [fireWorld_thenCapture_err]
  refine ⟨⟨?_, ?_, ?_, ?_, ?_, ?_⟩, ?_, ?_, ?_, ?_⟩
  · intro r hr
    dsimp only at hr ⊢
    exact hre1 r (hsplit ▸ mem_insert_mid hr _)
  · intro R hR
    exact hru1 R hR
  · intro C hC
    exact hcr1 C hC
  · intro t p htp
    exact htq1 t p htp
  · exact hcq1
  · intro p hp
    dsimp only at hp ⊢
    rw [upd_ne _ _ _ _ (by omega : p ≠ p10)]
    exact hst1 p hp
  · intro p hp
    dsimp only at hp
    have h0 := hown p hp
    unfold ownerCount at h0 ⊢
    dsimp only
    rw [List.countP_append]
    by_cases hpe : p = p10
    · rw [hpe] at h0 ⊢
      rw [hsplit, List.countP_append, List.countP_cons_of_pos _ _ (by simp [settling]),
        hp10none] at h0
      rw [upd_self]
      rw [show (if (none : Option Outcome).isSome = true then (0 : Nat) else 1) = 1
        from rfl] at h0
      rw [show (if (some (Outcome.err e0)).isSome = true then (0 : Nat) else 1) = 0 from rfl]
      omega
    · rw [upd_ne _ _ _ _ hpe]
      rw [hsplit, List.countP_append,
        List.countP_cons_of_neg _ _ (by simp [settling]; omega)] at h0
      omega
  · intro t
    constructor
    · intro tail htqt
      dsimp only at htqt
      obtain ⟨l, hch, hc1, hc2⟩ := (htab t).1 tail htqt
      refine ⟨l, ?_, ?_, ?_⟩
      · refine jobChain_stable hch ?_ ?_ ?_ ?_ ?_ ?_
        · intro r hr hrel
          dsimp only
          refine mem_remove_of_ne (hsplit ▸ hr) ?_
          intro he
          rcases hrel with hk | ⟨sp, hk⟩
          · rw [he] at hk
            cases hk
          · rw [he] at hk
            cases hk
        · intro R hR _
          exact hR
        · intro q p1 h hm
          have hne : q ≠ p10 := by
            intro he
            have heq := owner_unique_react_react hids hown hm hrm rfl rfl he
            cases heq
          show upd w.st p10 (some (Outcome.err e0)) q = none
          rw [upd_ne _ _ _ _ hne]
          exact h
        · intro q src sp h hm
          have hne : q ≠ p10 := by
            intro he
            have heq := owner_unique_react_react hids hown hm hrm rfl rfl he
            cases heq
          show upd w.st p10 (some (Outcome.err e0)) q = none
          rw [upd_ne _ _ _ _ hne]
          exact h
        · intro q sp h hm
          have hne : q ≠ p10 :=
            fun he => owner_distinct_react_run hids hown hrm rfl hm (by rw [he])
          show upd w.st p10 (some (Outcome.err e0)) q = none
          rw [upd_ne _ _ _ _ hne]
          exact h
        · intro q o h
          have hne : q ≠ p10 := by
            intro he
            rw [he, hp10none] at h
            cases h
          show upd w.st p10 (some (Outcome.err e0)) q = some o
          rw [upd_ne _ _ _ _ hne]
          exact h
      · intro src p1 sp hmem
        dsimp only at hmem
        exact hc1 src p1 sp (hsplit ▸ mem_insert_mid hmem _)
      · intro R hR ht2
        exact hc2 R hR ht2
    · intro htqt
      dsimp only at htqt
      have hold := (htab t).2 htqt
      constructor
      · intro src p1 sp hmem
        dsimp only at hmem
        exact hold.1 src p1 sp (hsplit ▸ mem_insert_mid hmem _)
      · exact hold.2
  · obtain ⟨l, hch, hc1, hc2⟩ := hcap
    obtain ⟨lres, hch2, hsub⟩ := capchain_kill_react
      { w with reacts := l1 ++ l2, st := upd w.st p10 (some (Outcome.err e0)) }
      hids hown hsplit hsrcS rfl rfl rfl hch
    refine ⟨lres, hch2, ?_, ?_⟩
    · intro src p1 tb sp hmem
      dsimp only at hmem
      have hmem2 := hsplit ▸ mem_insert_mid hmem (Reaction.mk src0 p10 (RKind.thenCapture t0 spec0))
      have hne : p1 ≠ p10 := by
        intro he
        have heq := owner_unique_react_react hids hown hmem2 hrm rfl rfl he
        rw [heq] at hmem
        exact owner_once_react hids hown hsplit rfl hmem
      exact hsub p1 (hc1 src p1 tb sp hmem2) hne
    · intro C hC
      dsimp only at hC
      have hne : C.tgt ≠ p10 :=
        fun he => owner_distinct_react_crun hids hown hrm rfl hC he.symm
      exact hsub C.tgt (hc2 C hC) hne
  · intro t p e htp
    dsimp only at htp ⊢
    have hne : p ≠ p10 := by
      rcases tail_owner htab htp with ⟨o, ho⟩ | ⟨p1, hcl⟩
      · intro he
        rw [he, hp10none] at ho
        cases ho
      · intro he
        have heq := owner_unique_react_react hids hown hcl hrm rfl rfl he
        cases heq
    rw [upd_ne _ _ _ _ hne]
    exact htail t p e htp

theorem inv_fire_catchRethrow {w : World} (hinv : Inv w)
    {l1 l2 : List Reaction} {p1c pc : Nat} {o : Outcome}
    (hsplit : w.reacts = l1 ++ Reaction.mk p1c pc RKind.catchRethrow :: l2)
    (hsrc : w.st p1c = some o) :
    Inv (fireWorld w l1 l2 (Reaction.mk p1c pc RKind.catchRethrow) o) := by
  obtain ⟨hids, hown, htab, hcap, htail⟩ := hinv
  have hre1 := hids.1
  have hru1 := hids.2.1
  have hcr1 := hids.2.2.1
  have htq1 := hids.2.2.2.1
  have hcq1 := hids.2.2.2.2.1
  have hst1 := hids.2.2.2.2.2
  have hrm : Reaction.mk p1c pc RKind.catchRethrow ∈ w.reacts := mem_split hsplit
  have hpclt : pc < w.nprom := (hre1 _ hrm).2
  have hpcnone : w.st pc = none := st_none_of_react hids hown hrm rfl
  have hsc : (w.st p1c).isSome = true := by rw [hsrc]; rfl
  rw [fireWorld_catchRethrow]
  refine ⟨⟨?_, ?_, ?_, ?_, ?_, ?_⟩, ?_, ?_, ?_, ?_⟩
  · intro r hr
    dsimp only at hr ⊢
    exact hre1 r (hsplit ▸ mem_insert_mid hr _)
  · intro R hR
    exact hru1 R hR
  · intro C hC
    exact hcr1 C hC
  · intro t p htp
    exact htq1 t p htp
  · exact hcq1
  · intro p hp
    dsimp only at hp ⊢
    rw [upd_ne _ _ _ _ (by omega : p ≠ pc)]
    exact hst1 p hp
  · intro p hp
    dsimp only at hp
    have h0 := hown p hp
    unfold ownerCount at h0 ⊢
    dsimp only
    rw [List.countP_append]
    by_cases hpe : p = pc
    · rw [hpe] at h0 ⊢
      rw [hsplit, List.countP_append, List.countP_cons_of_pos _ _ (by simp [settling]),
        hpcnone] at h0
      rw [upd_self]
      rw [show (if (none : Option Outcome).isSome = true then (0 : Nat) else 1) = 1
        from rfl] at h0
      rw [show (if (some o).isSome = true then (0 : Nat) else 1) = 0 from rfl]
      omega
    · rw [upd_ne _ _ _ _ hpe]
      rw [hsplit, List.countP_append,
        List.countP_cons_of_neg _ _ (by simp [settling]; omega)] at h0
      omega
  · intro t
    constructor
    · intro tail htqt
      dsimp only at htqt
      obtain ⟨l, hch, hc1, hc2⟩ := (htab t).1 tail htqt
      refine ⟨l, ?_, ?_, ?_⟩
      · refine jobChain_stable hch ?_ ?_ ?_ ?_ ?_ ?_
        · intro r hr hrel
          dsimp only
          refine mem_remove_of_ne (hsplit ▸ hr) ?_
          intro he
          rcases hrel with hk | ⟨sp, hk⟩
          · rw [he] at hk
            cases hk
          · rw [he] at hk
            cases hk
        · intro R hR _
          exact hR
        · intro q p1 h hm
          have hne : q ≠ pc := by
            intro he
            have heq := owner_unique_react_react hids hown hm hrm rfl rfl he
            cases heq
          show upd w.st pc (some o) q = none
          rw [upd_ne _ _ _ _ hne]
          exact h
        · intro q src sp h hm
          have hne : q ≠ pc := by
            intro he
            have heq := owner_unique_react_react hids hown hm hrm rfl rfl he
            cases heq
          show upd w.st pc (some o) q = none
          rw [upd_ne _ _ _ _ hne]
          exact h
        · intro q sp h hm
          have hne : q ≠ pc :=
            fun he => owner_distinct_react_run hids hown hrm rfl hm (by rw [he])
          show upd w.st pc (some o) q = none
          rw [upd_ne _ _ _ _ hne]
          exact h
        · intro q o2 h
          have hne : q ≠ pc := by
            intro he
            rw [he, hpcnone] at h
            cases h
          show upd w.st pc (some o) q = some o2
          rw [upd_ne _ _ _ _ hne]
          exact h
      · intro src p1 sp hmem
        dsimp only at hmem
        exact hc1 src p1 sp (hsplit ▸ mem_insert_mid hmem _)
      · intro R hR ht2
        exact hc2 R hR ht2
    · intro htqt
      dsimp only at htqt
      have hold := (htab t).2 htqt
      constructor
      · intro src p1 sp hmem
        dsimp only at hmem
        exact hold.1 src p1 sp (hsplit ▸ mem_insert_mid hmem _)
      · exact hold.2
  · obtain ⟨l, hch, hc1, hc2⟩ := hcap
    refine ⟨l, capchain_rethrowfire
      { w with reacts := l1 ++ l2, st := upd w.st pc (some o) }
      hids hown hsplit hsc rfl rfl rfl hch, ?_, ?_⟩
    · intro src p1 tb sp hmem
      dsimp only at hmem
      exact hc1 src p1 tb sp (hsplit ▸ mem_insert_mid hmem _)
    · exact hc2
  · intro t p e htp
    dsimp only at htp ⊢
    have hne : p ≠ pc := by
      rcases tail_owner htab htp with ⟨o2, ho⟩ | ⟨p1, hcl⟩
      · intro he
        rw [he, hpcnone] at ho
        cases ho
      · intro he
        have heq := owner_unique_react_react hids hown hcl hrm rfl rfl he
        cases heq
    rw [upd_ne _ _ _ _ hne]
    exact htail t p e htp

theorem inv_fire_finallyClean {w : World} (hinv : Inv w)
    {l1 l2 : List Reaction} {src0 tgt0 t0 : Nat} {o : Outcome}
    (hsplit : w.reacts = l1 ++ Reaction.mk src0 tgt0 (RKind.finallyClean t0) :: l2)
    (hsrc : w.st src0 = some o) :
    Inv (fireWorld w l1 l2 (Reaction.mk src0 tgt0 (RKind.finallyClean t0)) o) := by
  obtain ⟨hids, hown, htab, hcap, htail⟩ := hinv
  have hre1 := hids.1
  have hru1 := hids.2.1
  have hcr1 := hids.2.2.1
  have htq1 := hids.2.2.2.1
  have hcq1 := hids.2.2.2.2.1
  have hst1 := hids.2.2.2.2.2
  rw [fireWorld_finallyClean]
  have hcount : ∀ p, (l1 ++ l2).countP (fun x => x.tgt == p && settling x.kind) =
      w.reacts.countP (fun x => x.tgt == p && settling x.kind) := by
    intro p
    rw [hsplit, List.countP_append, List.countP_append,
      List.countP_cons_of_neg _ _ (by simp [settling])]
  have hjstable : ∀ t (hq : Nat → Option Nat), ∀ {p l}, JobChain w t p l →
      JobChain { w with reacts := l1 ++ l2, tq := hq } t p l := by
    intro t hq p l hch
    refine jobChain_stable hch ?_ ?_ ?_ ?_ ?_ ?_
    · intro r hr hrel
      dsimp only
      refine mem_remove_of_ne (hsplit ▸ hr) ?_
      intro he
      rcases hrel with hk | ⟨sp, hk⟩
      · rw [he] at hk
        cases hk
      · rw [he] at hk
        cases hk
    · intro R hR _
      exact hR
    · intro q p1 h _
      exact h
    · intro q src sp h _
      exact h
    · intro q sp h _
      exact h
    · intro q o2 h
      exact h
  have hcstable : ∀ (hq : Nat → Option Nat), ∀ {p l}, CapChain w p l →
      CapChain { w with reacts := l1 ++ l2, tq := hq } p l := by
    intro hq p l hch
    refine capChain_stable hch ?_ ?_ ?_ ?_ ?_ ?_
    · intro r hr hrel
      dsimp only
      refine mem_remove_of_ne (hsplit ▸ hr) ?_
      intro he
      rcases hrel with hk | ⟨tb, sp, hk⟩
      · rw [he] at hk
        cases hk
      · rw [he] at hk
        cases hk
    · intro C hC
      exact hC
    · intro q p1 h _
      exact h
    · intro q src tb sp h _
      exact h
    · intro q tb sp h _
      exact h
    · intro q o2 h
      exact h
  by_cases hdel : w.tq t0 = some src0
  · rw [if_pos hdel]
    refine ⟨⟨?_, ?_, ?_, ?_, ?_, ?_⟩, ?_, ?_, ?_, ?_⟩
    · intro r hr
      dsimp only at hr ⊢
      exact hre1 r (hsplit ▸ mem_insert_mid hr _)
    · intro R hR
      exact hru1 R hR
    · intro C hC
      exact hcr1 C hC
    · intro t p htp
      dsimp only at htp ⊢
      by_cases ht : t = t0
      · subst ht
        rw [updQ_self] at htp
        cases htp
      · rw [updQ_ne _ _ _ _ ht] at htp
        exact htq1 t p htp
    · exact hcq1
    · intro p hp
      exact hst1 p hp
    · intro p hp
      dsimp only at hp
      have h0 := hown p hp
      unfold ownerCount at h0 ⊢
      dsimp only
      rw [hcount]
      exact h0
    · intro t
      have hempty : ∀ tail2, w.tq t0 = some tail2 → (w.st tail2).isSome = true →
          (∀ src p1 spec, Reaction.mk src p1 (RKind.thenJob t0 spec) ∉ w.reacts) ∧
          (∀ R ∈ w.runs, R.tab ≠ t0) := by
        intro tail2 htq2 hset2
        obtain ⟨l, hch, hc1, hc2⟩ := (htab t0).1 tail2 htq2
        cases hch with
        | done p o2 hp =>
          constructor
          · intro src p1 spec hmem
            have := hc1 src p1 spec hmem
            cases this
          · intro R hR hcon
            have := hc2 R hR hcon
            cases this
        | flush p p1 o2 hp hc hlt h1 =>
          rw [hp] at hset2
          cases hset2
        | react p p1 src spec l hp hc hlt h1 hj hlt2 hrec =>
          rw [hp] at hset2
          cases hset2
        | run p p1 spec hp hc hlt h1 hR =>
          rw [hp] at hset2
          cases hset2
      constructor
      · intro tail htqt
        dsimp only at htqt
        by_cases ht : t = t0
        · subst ht
          rw [updQ_self] at htqt
          cases htqt
        · rw [updQ_ne _ _ _ _ ht] at htqt
          obtain ⟨l, hch, hc1, hc2⟩ := (htab t).1 tail htqt
          refine ⟨l, hjstable t _ hch, ?_, ?_⟩
          · intro src p1 sp hmem
            dsimp only at hmem
            exact hc1 src p1 sp (hsplit ▸ mem_insert_mid hmem _)
          · intro R hR ht2
            exact hc2 R hR ht2
      · intro htqt
        dsimp only at htqt
        by_cases ht : t = t0
        · subst ht
          have he2 := hempty src0 hdel (by rw [hsrc]; rfl)
          constructor
          · intro src p1 sp hmem
            dsimp only at hmem
            exact he2.1 src p1 sp (hsplit ▸ mem_insert_mid hmem _)
          · exact he2.2
        · rw [updQ_ne _ _ _ _ ht] at htqt
          have hold := (htab t).2 htqt
          constructor
          · intro src p1 sp hmem
            dsimp only at hmem
            exact hold.1 src p1 sp (hsplit ▸ mem_insert_mid hmem _)
          · exact hold.2
    · obtain ⟨l, hch, hc1, hc2⟩ := hcap
      refine ⟨l, hcstable _ hch, ?_, ?_⟩
      · intro src p1 tb sp hmem
        dsimp only at hmem
        exact hc1 src p1 tb sp (hsplit ▸ mem_insert_mid hmem _)
      · exact hc2
    · intro t p e htp
      dsimp only at htp ⊢
      by_cases ht : t = t0
      · subst ht
        rw [updQ_self] at htp
        cases htp
      · rw [updQ_ne _ _ _ _ ht] at htp
        exact htail t p e htp
  · rw [if_neg hdel]
    refine ⟨⟨?_, ?_, ?_, ?_, ?_, ?_⟩, ?_, ?_, ?_, ?_⟩
    · intro r hr
      dsimp only at hr ⊢
      exact hre1 r (hsplit ▸ mem_insert_mid hr _)
    · intro R hR
      exact hru1 R hR
    · intro C hC
      exact hcr1 C hC
    · intro t p htp
      exact htq1 t p htp
    · exact hcq1
    · intro p hp
      exact hst1 p hp
    · intro p hp
      dsimp only at hp
      have h0 := hown p hp
      unfold ownerCount at h0 ⊢
      dsimp only
      rw [hcount]
      exact h0
    · intro t
      constructor
      · intro tail htqt
        dsimp only at htqt
        obtain ⟨l, hch, hc1, hc2⟩ := (htab t).1 tail htqt
        refine ⟨l, hjstable t _ hch, ?_, ?_⟩
        · intro src p1 sp hmem
          dsimp only at hmem
          exact hc1 src p1 sp (hsplit ▸ mem_insert_mid hmem _)
        · intro R hR ht2
          exact hc2 R hR ht2
      · intro htqt
        dsimp only at htqt
        have hold := (htab t).2 htqt
        constructor
        · intro src p1 sp hmem
          dsimp only at hmem
          exact hold.1 src p1 sp (hsplit ▸ mem_insert_mid hmem _)
        · exact hold.2
    · obtain ⟨l, hch, hc1, hc2⟩ := hcap
      refine ⟨l, hcstable _ hch, ?_, ?_⟩
      · intro src p1 tb sp hmem
        dsimp only at hmem
        exact hc1 src p1 tb sp (hsplit ▸ mem_insert_mid hmem _)
      · exact hc2
    · intro t p e htp
      exact htail t p e htp

theorem settleRunWorld_eq (w : World) (l1 l2 : List RunJob) (R : RunJob) (o : Outcome) :
    settleRunWorld w l1 l2 R o =
      { w with runs := l1 ++ l2, st := upd w.st R.tgt (some o) } := rfl

theorem settleCaptureWorld_eq (w : World) (l1 l2 : List RunCapture) (C : RunCapture)
    (o : Outcome) :
    settleCaptureWorld w l1 l2 C o =
      { w with cruns := l1 ++ l2, st := upd w.st C.tgt (some o) } := rfl

theorem inv_settleRun {w : World} (hinv : Inv w)
    {l1 l2 : List RunJob} {p10 t0 spec0 : Nat} {o : Outcome}
    (hsplit : w.runs = l1 ++ RunJob.mk p10 t0 spec0 :: l2) :
    Inv (settleRunWorld w l1 l2 (RunJob.mk p10 t0 spec0) o) := by
  obtain ⟨hids, hown, htab, hcap, htail⟩ := hinv
  have hre1 := hids.1
  have hru1 := hids.2.1
  have hcr1 := hids.2.2.1
  have htq1 := hids.2.2.2.1
  have hcq1 := hids.2.2.2.2.1
  have hst1 := hids.2.2.2.2.2
  have hrm : RunJob.mk p10 t0 spec0 ∈ w.runs := mem_split hsplit
  have hp10lt : p10 < w.nprom := hru1 _ hrm
  have hp10none : w.st p10 = none := st_none_of_run hids hown hrm
  rw [settleRunWorld_eq]
  refine ⟨⟨?_, ?_, ?_, ?_, ?_, ?_⟩, ?_, ?_, ?_, ?_⟩
  · intro r hr
    exact hre1 r hr
  · intro R hR
    dsimp only at hR ⊢
    exact hru1 R (hsplit ▸ mem_insert_mid hR _)
  · intro C hC
    exact hcr1 C hC
  · intro t p htp
    exact htq1 t p htp
  · exact hcq1
  · intro p hp
    dsimp only at hp ⊢
    rw [upd_ne _ _ _ _ (by omega : p ≠ p10)]
    exact hst1 p hp
  · intro p hp
    dsimp only at hp
    have h0 := hown p hp
    unfold ownerCount at h0 ⊢
    dsimp only
    by_cases hpe : p = p10
    · rw [hpe] at h0 ⊢
      rw [hsplit, List.countP_append, List.countP_cons_of_pos _ _ (by simp),
        hp10none] at h0
      rw [List.countP_append, upd_self]
      rw [show (if (none : Option Outcome).isSome = true then (0 : Nat) else 1) = 1
        from rfl] at h0
      rw [show (if (some o).isSome = true then (0 : Nat) else 1) = 0 from rfl]
      omega
    · rw [upd_ne _ _ _ _ hpe]
      rw [hsplit, List.countP_append,
        List.countP_cons_of_neg _ _ (by simp; omega)] at h0
      rw [List.countP_append]
      omega
  · intro t
    constructor
    · intro tail htqt
      dsimp only at htqt
      obtain ⟨l, hch, hc1, hc2⟩ := (htab t).1 tail htqt
      by_cases hte : t = t0
      · subst hte
        obtain ⟨lres, hch2, hsub⟩ := jobchain_kill_run
          { w with runs := l1 ++ l2, st := upd w.st p10 (some o) }
          hids hown hsplit rfl rfl rfl hch
        refine ⟨lres, hch2, ?_, ?_⟩
        · intro src p1 sp hmem
          dsimp only at hmem
          have hne : p1 ≠ p10 :=
            fun he => owner_distinct_react_run hids hown hmem rfl hrm (by rw [he])
          exact hsub p1 (hc1 src p1 sp hmem) hne
        · intro R hR ht2
          dsimp only at hR
          have hRm : R ∈ w.runs := hsplit ▸ mem_insert_mid hR _
          have hne : R.tgt ≠ p10 := by
            intro he
            have heq := owner_unique_run_run hids hown hRm hrm he
            rw [heq] at hR
            exact owner_once_run hids hown hsplit hR
          exact hsub R.tgt (hc2 R hRm ht2) hne
      · refine ⟨l, ?_, ?_, ?_⟩
        · refine jobChain_stable hch ?_ ?_ ?_ ?_ ?_ ?_
          · intro r hr _
            exact hr
          · intro R hR htR
            dsimp only
            refine mem_remove_of_ne (hsplit ▸ hR) ?_
            intro he
            rw [he] at htR
            exact hte htR.symm
          · intro q p1 h hm
            have hne : q ≠ p10 :=
              fun he => owner_distinct_react_run hids hown hm rfl hrm (by rw [he])
            show upd w.st p10 (some o) q = none
            rw [upd_ne _ _ _ _ hne]
            exact h
          · intro q src sp h hm
            have hne : q ≠ p10 :=
              fun he => owner_distinct_react_run hids hown hm rfl hrm (by rw [he])
            show upd w.st p10 (some o) q = none
            rw [upd_ne _ _ _ _ hne]
            exact h
          · intro q sp h hm
            have hne : q ≠ p10 := by
              intro he
              have heq := owner_unique_run_run hids hown hm hrm he
              have : t = t0 := by injection heq
              exact hte this
            show upd w.st p10 (some o) q = none
            rw [upd_ne _ _ _ _ hne]
            exact h
          · intro q o2 h
            have hne : q ≠ p10 := by
              intro he
              rw [he, hp10none] at h
              cases h
            show upd w.st p10 (some o) q = some o2
            rw [upd_ne _ _ _ _ hne]
            exact h
        · intro src p1 sp hmem
          exact hc1 src p1 sp hmem
        · intro R hR ht2
          dsimp only at hR
          exact hc2 R (hsplit ▸ mem_insert_mid hR _) ht2
    · intro htqt
      dsimp only at htqt
      have hold := (htab t).2 htqt
      by_cases hte : t = t0
      · subst hte
        exact absurd rfl (hold.2 _ hrm)
      · constructor
        · exact hold.1
        · intro R hR
          dsimp only at hR
          exact hold.2 R (hsplit ▸ mem_insert_mid hR _)
  · obtain ⟨l, hch, hc1, hc2⟩ := hcap
    refine ⟨l, ?_, ?_, ?_⟩
    · refine capChain_stable hch ?_ ?_ ?_ ?_ ?_ ?_
      · intro r hr _
        exact hr
      · intro C hC
        exact hC
      · intro q p1 h hm
        have hne : q ≠ p10 :=
          fun he => owner_distinct_react_run hids hown hm rfl hrm (by rw [he])
        show upd w.st p10 (some o) q = none
        rw [upd_ne _ _ _ _ hne]
        exact h
      · intro q src tb sp h hm
        have hne : q ≠ p10 :=
          fun he => owner_distinct_react_run hids hown hm rfl hrm (by rw [he])
        show upd w.st p10 (some o) q = none
        rw [upd_ne _ _ _ _ hne]
        exact h
      · intro q tb sp h hm
        have hne : q ≠ p10 :=
          fun he => owner_distinct_run_crun hids hown hrm hm (by rw [he])
        show upd w.st p10 (some o) q = none
        rw [upd_ne _ _ _ _ hne]
        exact h
      · intro q o2 h
        have hne : q ≠ p10 := by
          intro he
          rw [he, hp10none] at h
          cases h
        show upd w.st p10 (some o) q = some o2
        rw [upd_ne _ _ _ _ hne]
        exact h
    · exact hc1
    · exact hc2
  · intro t p e htp
    dsimp only at htp ⊢
    have hne : p ≠ p10 := by
      rcases tail_owner htab htp with ⟨o2, ho⟩ | ⟨p1, hcl⟩
      · intro he
        rw [he, hp10none] at ho
        cases ho
      · intro he
        exact owner_distinct_react_run hids hown hcl rfl hrm (by rw [he])
    rw [upd_ne _ _ _ _ hne]
    exact htail t p e htp

theorem inv_settleCapture {w : World} (hinv : Inv w)
    {l1 l2 : List RunCapture} {p10 t0 spec0 : Nat} {o : Outcome}
    (hsplit : w.cruns = l1 ++ RunCapture.mk p10 t0 spec0 :: l2) :
    Inv (settleCaptureWorld w l1 l2 (RunCapture.mk p10 t0 spec0) o) := by
  obtain ⟨hids, hown, htab, hcap, htail⟩ := hinv
  have hre1 := hids.1
  have hru1 := hids.2.1
  have hcr1 := hids.2.2.1
  have htq1 := hids.2.2.2.1
  have hcq1 := hids.2.2.2.2.1
  have hst1 := hids.2.2.2.2.2
  have hrm : RunCapture.mk p10 t0 spec0 ∈ w.cruns := mem_split hsplit
  have hp10lt : p10 < w.nprom := hcr1 _ hrm
  have hp10none : w.st p10 = none := st_none_of_crun hids hown hrm
  rw [settleCaptureWorld_eq]
  refine ⟨⟨?_, ?_, ?_, ?_, ?_, ?_⟩, ?_, ?_, ?_, ?_⟩
  · intro r hr
    exact hre1 r hr
  · intro R hR
    exact hru1 R hR
  · intro C hC
    dsimp only at hC ⊢
    exact hcr1 C (hsplit ▸ mem_insert_mid hC _)
  · intro t p htp
    exact htq1 t p htp
  · exact hcq1
  · intro p hp
    dsimp only at hp ⊢
    rw [upd_ne _ _ _ _ (by omega : p ≠ p10)]
    exact hst1 p hp
  · intro p hp
    dsimp only at hp
    have h0 := hown p hp
    unfold ownerCount at h0 ⊢
    dsimp only
    by_cases hpe : p = p10
    · rw [hpe] at h0 ⊢
      rw [hsplit, List.countP_append, List.countP_cons_of_pos _ _ (by simp),
        hp10none] at h0
      rw [List.countP_append, upd_self]
      rw [show (if (none : Option Outcome).isSome = true then (0 : Nat) else 1) = 1
        from rfl] at h0
      rw [show (if (some o).isSome = true then (0 : Nat) else 1) = 0 from rfl]
      omega
    · rw [upd_ne _ _ _ _ hpe]
      rw [hsplit, List.countP_append,
        List.countP_cons_of_neg _ _ (by simp; omega)] at h0
      rw [List.countP_append]
      omega
  · intro t
    constructor
    · intro tail htqt
      dsimp only at htqt
      obtain ⟨l, hch, hc1, hc2⟩ := (htab t).1 tail htqt
      refine ⟨l, ?_, ?_, ?_⟩
      · refine jobChain_stable hch ?_ ?_ ?_ ?_ ?_ ?_
        · intro r hr _
          exact hr
        · intro R hR _
          exact hR
        · intro q p1 h hm
          have hne : q ≠ p10 :=
            fun he => owner_distinct_react_crun hids hown hm rfl hrm (by rw [he])
          show upd w.st p10 (some o) q = none
          rw [upd_ne _ _ _ _ hne]
          exact h
        · intro q src sp h hm
          have hne : q ≠ p10 :=
            fun he => owner_distinct_react_crun hids hown hm rfl hrm (by rw [he])
          show upd w.st p10 (some o) q = none
          rw [upd_ne _ _ _ _ hne]
          exact h
        · intro q sp h hm
          have hne : q ≠ p10 :=
            fun he => owner_distinct_run_crun hids hown hm hrm (by rw [he])
          show upd w.st p10 (some o) q = none
          rw [upd_ne _ _ _ _ hne]
          exact h
        · intro q o2 h
          have hne : q ≠ p10 := by
            intro he
            rw [he, hp10none] at h
            cases h
          show upd w.st p10 (some o) q = some o2
          rw [upd_ne _ _ _ _ hne]
          exact h
      · exact hc1
      · exact hc2
    · intro htqt
      dsimp only at htqt
      exact (htab t).2 htqt
  · obtain ⟨l, hch, hc1, hc2⟩ := hcap
    obtain ⟨lres, hch2, hsub⟩ := capchain_kill_crun
      { w with cruns := l1 ++ l2, st := upd w.st p10 (some o) }
      hids hown hsplit rfl rfl rfl hch
    refine ⟨lres, hch2, ?_, ?_⟩
    · intro src p1 tb sp hmem
      have hne : p1 ≠ p10 :=
        fun he => owner_distinct_react_crun hids hown hmem rfl hrm (by rw [he])
      exact hsub p1 (hc1 src p1 tb sp hmem) hne
    · intro C hC
      dsimp only at hC
      have hCm : C ∈ w.cruns := hsplit ▸ mem_insert_mid hC _
      have hne : C.tgt ≠ p10 := by
        intro he
        have heq := owner_unique_crun_crun hids hown hCm hrm he
        rw [heq] at hC
        exact owner_once_crun hids hown hsplit hC
      exact hsub C.tgt (hc2 C hCm) hne
  · intro t p e htp
    dsimp only at htp ⊢
    have hne : p ≠ p10 := by
      rcases tail_owner htab htp with ⟨o2, ho⟩ | ⟨p1, hcl⟩
      · intro he
        rw [he, hp10none] at ho
        cases ho
      · intro he
        exact owner_distinct_react_crun hids hown hcl rfl hrm (by rw [he])
    rw [upd_ne _ _ _ _ hne]
    exact htail t p e htp

theorem inv_init : Inv initWorld := by
  unfold initWorld
  refine ⟨⟨?_, ?_, ?_, ?_, ?_, ?_⟩, ?_, ?_, ?_, ?_⟩
  · intro r hr
    cases hr
  · intro R hR
    cases hR
  · intro C hC
    cases hC
  · intro t p htp
    cases htp
  · show (0 : Nat) < 1
    omega
  · intro p hp
    dsimp only at hp ⊢
    rw [if_neg (by omega : ¬p = 0)]
  · intro p hp
    dsimp only at hp
    have hp0 : p = 0 := by omega
    subst hp0
    rfl
  · intro t
    constructor
    · intro tail htqt
      cases htqt
    · intro _
      exact ⟨fun src p1 spec hmem => absurd hmem (List.not_mem_nil _),
        fun R hR => absurd hR (List.not_mem_nil _)⟩
  · refine ⟨[], CapChain.done 0 (Outcome.ok JSVal.undef) rfl, ?_, ?_⟩
    · intro src p1 tb sp hmem
      exact absurd hmem (List.not_mem_nil _)
    · intro C hC
      exact absurd hC (List.not_mem_nil _)
  · intro t p e htp
    cases htp

theorem inv_handleAlarm {w : World} (hinv : Inv w) (name : String) (spec : Nat) :
    Inv (handleAlarm name spec w) := by
  unfold handleAlarm
  cases hid : alarmTabId name with
  | some t => exact inv_enqueueTab hinv t spec
  | none => exact hinv

theorem inv_step {w w' : World} (hinv : Inv w) (hstep : Step w w') : Inv w' := by
  cases hstep with
  | startMsg tabId spec w =>
    exact inv_enqueueTab hinv tabId spec
  | alarmFire name spec w =>
    exact inv_handleAlarm hinv name spec
  | captureReq tabId spec w =>
    exact inv_enqueueCapture hinv tabId spec
  | fire w l1 l2 r o hsplit hsrc =>
    obtain ⟨src, tgt, k⟩ := r
    cases k with
    | thenJob tab sp =>
      cases o with
      | ok v => exact inv_fire_thenJob_ok hinv hsplit hsrc
      | err e => exact inv_fire_thenJob_err hinv hsplit hsrc
    | catchLog => exact inv_fire_catchLog hinv hsplit hsrc
    | thenCapture tab sp =>
      cases o with
      | ok v => exact inv_fire_thenCapture_ok hinv hsplit hsrc
      | err e => exact inv_fire_thenCapture_err hinv hsplit hsrc
    | catchRethrow => exact inv_fire_catchRethrow hinv hsplit hsrc
    | finallyClean tab => exact inv_fire_finallyClean hinv hsplit hsrc
  | settleRun w l1 l2 R o hsplit =>
    obtain ⟨tgt, tab, sp⟩ := R
    exact inv_settleRun hinv hsplit
  | settleCapture w l1 l2 C o hsplit =>
    obtain ⟨tgt, tab, sp⟩ := C
    exact inv_settleCapture hinv hsplit

theorem reachable_inv {w : World} (h : Reachable w) : Inv w := by
  induction h with
  | refl => exact inv_init
  | tail hsteps hstep ih => exact inv_step ih hstep

theorem fireWorld_nprom (w : World) (l1 l2 : List Reaction) (r : Reaction) (o : Outcome) :
    (fireWorld w l1 l2 r o).nprom = w.nprom := by
  obtain ⟨src, tgt, k⟩ := r
  cases k with
  | thenJob tab sp => cases o <;> rfl
  | catchLog => cases o <;> rfl
  | thenCapture tab sp => cases o <;> rfl
  | catchRethrow => rfl
  | finallyClean tab =>
    show (if w.tq tab = some src then _ else _ : World).nprom = _
    split <;> rfl

theorem step_nprom_mono {w w' : World} (hstep : Step w w') : w.nprom ≤ w'.nprom := by
  cases hstep with
  | startMsg tabId spec w =>
    unfold handleStartAutoSend
    cases htq : w.tq tabId with
    | some prev =>
      rw [enqueueTabJob_some _ _ _ htq]
      dsimp only
      omega
    | none =>
      rw [enqueueTabJob_none _ _ _ htq]
      dsimp only
      omega
  | alarmFire name spec w =>
    unfold handleAlarm
    cases hid : alarmTabId name with
    | some t =>
      dsimp only
      cases htq : w.tq t with
      | some prev =>
        rw [enqueueTabJob_some _ _ _ htq]
        dsimp only
        omega
      | none =>
        rw [enqueueTabJob_none _ _ _ htq]
        dsimp only
        omega
    | none => exact le_refl _
  | captureReq tabId spec w =>
    rw [enqueueCaptureJob_eq]
    dsimp only
    omega
  | fire w l1 l2 r o hsplit hsrc =>
    rw [fireWorld_nprom]
  | settleRun w l1 l2 R o hsplit =>
    exact le_refl _
  | settleCapture w l1 l2 C o hsplit =>
    exact le_refl _

theorem step_settled_mono {w w' : World} (hinv : Inv w) (hstep : Step w w')
    {p : Nat} {o : Outcome} (h : w.st p = some o) : w'.st p = some o := by
  have hlt : p < w.nprom := by
    by_contra hcon
    rw [hinv.1.2.2.2.2.2 p (by omega)] at h
    cases h
  cases hstep with
  | startMsg tabId spec w =>
    unfold handleStartAutoSend
    cases htq : w.tq tabId with
    | some prev =>
      rw [enqueueTabJob_some _ _ _ htq]
      exact h
    | none =>
      rw [enqueueTabJob_none _ _ _ htq]
      dsimp only
      rw [upd_ne _ _ _ _ (by omega)]
      exact h
  | alarmFire name spec w =>
    unfold handleAlarm
    cases hid : alarmTabId name with
    | some t =>
      dsimp only
      cases htq : w.tq t with
      | some prev =>
        rw [enqueueTabJob_some _ _ _ htq]
        exact h
      | none =>
        rw [enqueueTabJob_none _ _ _ htq]
        dsimp only
        rw [upd_ne _ _ _ _ (by omega)]
        exact h
    | none => exact h
  | captureReq tabId spec w =>
    rw [enqueueCaptureJob_eq]
    exact h
  | fire w l1 l2 r o2 hsplit hsrc =>
    have hrm : r ∈ w.reacts := mem_split hsplit
    obtain ⟨src, tgt, k⟩ := r
    cases k with
    | thenJob tab sp =>
      have htgt : w.st tgt = none := st_none_of_react hinv.1 hinv.2.1 hrm rfl
      have hne : p ≠ tgt := by
        intro he
        rw [he, htgt] at h
        cases h
      cases o2 with
      | ok v =>
        rw [fireWorld_thenJob_ok]
        exact h
      | err e =>
        rw [fireWorld_thenJob_err]
        dsimp only
        rw [upd_ne _ _ _ _ hne]
        exact h
    | catchLog =>
      have htgt : w.st tgt = none := st_none_of_react hinv.1 hinv.2.1 hrm rfl
      have hne : p ≠ tgt := by
        intro he
        rw [he, htgt] at h
        cases h
      cases o2 with
      | ok v =>
        rw [fireWorld_catchLog_ok]
        dsimp only
        rw [upd_ne _ _ _ _ hne]
        exact h
      | err e =>
        rw [fireWorld_catchLog_err]
        dsimp only
        rw [upd_ne _ _ _ _ hne]
        exact h
    | thenCapture tab sp =>
      have htgt : w.st tgt = none := st_none_of_react hinv.1 hinv.2.1 hrm rfl
      have hne : p ≠ tgt := by
        intro he
        rw [he, htgt] at h
        cases h
      cases o2 with
      | ok v =>
        rw [fireWorld_thenCapture_ok]
        exact h
      | err e =>
        rw [fireWorld_thenCapture_err]
        dsimp only
        rw [upd_ne _ _ _ _ hne]
        exact h
    | catchRethrow =>
      have htgt : w.st tgt = none := st_none_of_react hinv.1 hinv.2.1 hrm rfl
      have hne : p ≠ tgt := by
        intro he
        rw [he, htgt] at h
        cases h
      rw [fireWorld_catchRethrow]
      dsimp only
      rw [upd_ne _ _ _ _ hne]
      exact h
    | finallyClean tab =>
      rw [fireWorld_finallyClean]
      split <;> exact h
  | settleRun w l1 l2 R o2 hsplit =>
    have htgt : w.st R.tgt = none := st_none_of_run hinv.1 hinv.2.1 (mem_split hsplit)
    have hne : p ≠ R.tgt := by
      intro he
      rw [he, htgt] at h
      cases h
    show upd w.st R.tgt (some o2) p = some o
    rw [upd_ne _ _ _ _ hne]
    exact h
  | settleCapture w l1 l2 C o2 hsplit =>
    have htgt : w.st C.tgt = none := st_none_of_crun hinv.1 hinv.2.1 (mem_split hsplit)
    have hne : p ≠ C.tgt := by
      intro he
      rw [he, htgt] at h
      cases h
    show upd w.st C.tgt (some o2) p = some o
    rw [upd_ne _ _ _ _ hne]
    exact h

/-! ## Serialization theorems -/

theorem jobchain_run_unique {w : World} {t p : Nat} {l : List Nat}
    (hch : JobChain w t p l) (hids : IdsOk w) (hown : Owners w)
    {R1 R2 : RunJob} (h1 : R1 ∈ w.runs) (h2 : R2 ∈ w.runs)
    (hm1 : R1.tgt ∈ l) (hm2 : R2.tgt ∈ l) : R1 = R2 := by
  induction hch with
  | done p o hp => cases hm1
  | flush p p1 o hp hc hlt hs1 => cases hm1
  | react p p1 src spec l hp hc hlt hs1 hj hlt2 hrec ih =>
    have hne1 : R1.tgt ≠ p1 :=
      fun he => owner_distinct_react_run hids hown hj rfl h1 (by rw [he])
    have hne2 : R2.tgt ≠ p1 :=
      fun he => owner_distinct_react_run hids hown hj rfl h2 (by rw [he])
    rcases List.mem_cons.mp hm1 with he | hm1b
    · exact absurd he hne1
    rcases List.mem_cons.mp hm2 with he | hm2b
    · exact absurd he hne2
    exact ih hm1b hm2b
  | run p p1 spec hp hc hlt hs1 hR =>
    have he1 : R1.tgt = p1 := by simpa using hm1
    have he2 : R2.tgt = p1 := by simpa using hm2
    exact owner_unique_run_run hids hown h1 h2 (he1.trans he2.symm)

theorem capchain_run_unique {w : World} {p : Nat} {l : List Nat}
    (hch : CapChain w p l) (hids : IdsOk w) (hown : Owners w)
    {K1 K2 : RunCapture} (h1 : K1 ∈ w.cruns) (h2 : K2 ∈ w.cruns)
    (hm1 : K1.tgt ∈ l) (hm2 : K2.tgt ∈ l) : K1 = K2 := by
  induction hch with
  | done p o hp => cases hm1
  | flush p p1 o hp hc hlt hs1 => cases hm1
  | react p p1 src tab spec l hp hc hlt hs1 hj hlt2 hrec ih =>
    have hne1 : K1.tgt ≠ p1 :=
      fun he => owner_distinct_react_crun hids hown hj rfl h1 (by rw [he])
    have hne2 : K2.tgt ≠ p1 :=
      fun he => owner_distinct_react_crun hids hown hj rfl h2 (by rw [he])
    rcases List.mem_cons.mp hm1 with he | hm1b
    · exact absurd he hne1
    rcases List.mem_cons.mp hm2 with he | hm2b
    · exact absurd he hne2
    exact ih hm1b hm2b
  | run p p1 tab spec hp hc hlt hs1 hR =>
    have he1 : K1.tgt = p1 := by simpa using hm1
    have he2 : K2.tgt = p1 := by simpa using hm2
    exact owner_unique_crun_crun hids hown h1 h2 (he1.trans he2.symm)

/-- C1: in every world reachable from service-worker start-up by any
interleaving of `startAutoSend` messages, alarm firings, capture submissions,
reaction firings and body settlements, at most one `runJobForTab` body is in
flight for any tab id: every trigger path passes through `enqueueTabJob`, whose
chaining makes a later-enqueued job's body wait for the earlier job of the same
tab to settle. -/
theorem c1_per_tab_serialization {w : World} (hreach : Reachable w) (t : Nat) :
    w.runs.countP (fun R => R.tab == t) ≤ 1 := by
  obtain ⟨hids, hown, htab, hcap, htail⟩ := reachable_inv hreach
  by_contra hcon
  push_neg at hcon
  have h2 : 2 ≤ w.runs.countP (fun R => R.tab == t) := by omega
  obtain ⟨la, a, lb, b, lc, heq, hpa, hpb⟩ := exists_two_of_countP h2
  have hta : a.tab = t := by simpa using hpa
  have htb : b.tab = t := by simpa using hpb
  have hma : a ∈ w.runs := by
    rw [heq]
    simp
  have hmb : b ∈ w.runs := by
    rw [heq]
    simp
  cases htq : w.tq t with
  | none =>
    exact absurd hta ((htab t).2 htq |>.2 a hma)
  | some tail =>
    obtain ⟨l, hch, hc1, hc2⟩ := (htab t).1 tail htq
    have hab : a = b := jobchain_run_unique hch hids hown hma hmb
      (hc2 a hma hta) (hc2 b hmb htb)
    subst hab
    have h2cnt : 2 ≤ w.runs.countP (fun x => x.tgt == a.tgt) := by
      rw [heq]
      exact countP_two_split _ _ _ _ _ _ (by simp) (by simp)
    have hle := ownerCount_le1 hown (hids.2.1 a hma)
    unfold ownerCount at hle
    omega

/-- Witness for C1 at a concrete reachable world: a `startAutoSend` message for
tab 5 arrives and the enqueued job body starts running. -/
theorem c1_per_tab_serialization_witness :
    Reachable exW2 ∧ exW2.runs.countP (fun R => R.tab == 5) ≤ 1 := by
  have s1 : Step initWorld exW1 := Step.startMsg 5 0 initWorld
  have s2 : Step exW1 exW2 :=
    Step.fire exW1 []
      [Reaction.mk 2 3 RKind.catchLog, Reaction.mk 3 3 (RKind.finallyClean 5)]
      (Reaction.mk 1 2 (RKind.thenJob 5 0)) (Outcome.ok JSVal.undef) rfl rfl
  have hreach : Reachable exW2 :=
    Relation.ReflTransGen.tail (Relation.ReflTransGen.single s1) s2
  exact ⟨hreach, c1_per_tab_serialization hreach 5⟩

/-- C5: in every reachable world at most one capture function submitted through
`enqueueCaptureJob` is in flight across the whole system, regardless of which
tabs submitted them, because every capture is chained onto the single global
`captureQueue` promise. -/
theorem c5_global_capture_serialization {w : World} (hreach : Reachable w) :
    w.cruns.length ≤ 1 := by
  obtain ⟨hids, hown, htab, hcap, htail⟩ := reachable_inv hreach
  obtain ⟨l, hch, hc1, hc2⟩ := hcap
  cases hcr : w.cruns with
  | nil => simp
  | cons a rest =>
    cases rest with
    | nil => simp
    | cons b rest2 =>
      exfalso
      have hma : a ∈ w.cruns := by
        rw [hcr]
        simp
      have hmb : b ∈ w.cruns := by
        rw [hcr]
        simp
      have hab : a = b := capchain_run_unique hch hids hown hma hmb
        (hc2 a hma) (hc2 b hmb)
      subst hab
      have h2 : 2 ≤ w.cruns.countP (fun x => x.tgt == a.tgt) := by
        rw [hcr, List.countP_cons_of_pos _ _ (by simp), List.countP_cons_of_pos _ _ (by simp)]
        omega
      have hle := ownerCount_le1 hown (hids.2.2.1 a hma)
      unfold ownerCount at hle
      omega

/-- Witness for C5 at a concrete reachable world: a capture for tab 7 is
submitted and starts running. -/
theorem c5_global_capture_serialization_witness :
    Reachable exC2 ∧ exC2.cruns.length ≤ 1 := by
  have s1 : Step initWorld exC1 := Step.captureReq 7 0 initWorld
  have s2 : Step exC1 exC2 :=
    Step.fire exC1 [] [Reaction.mk 1 2 RKind.catchRethrow]
      (Reaction.mk 0 1 (RKind.thenCapture 7 0)) (Outcome.ok JSVal.undef) rfl rfl
  have hreach : Reachable exC2 :=
    Relation.ReflTransGen.tail (Relation.ReflTransGen.single s1) s2
  exact ⟨hreach, c5_global_capture_serialization hreach⟩

/-! ## C2: outcome of the promise returned by enqueueTabJob -/

/-- C2 counterexample: the promise returned by `enqueueTabJob` does NOT reject
with the job's error.  `enqueueTabJob 9 0 initWorld` returns promise 3; the
enqueued job body rejects with error value 5 (the `Step exB2 exB3` transition),
yet in the reachable world `exB4` the returned promise 3 is FULFILLED with
`undefined`: the logging `.catch` that builds the returned promise swallows the
rejection instead of propagating it to the caller. -/
theorem c2_counterexample :
    (enqueueTabJob 9 0 initWorld).2 = 3 ∧
    exB3 = settleRunWorld exB2 [] [] (RunJob.mk 2 9 0) (Outcome.err (JSVal.num 5)) ∧
    Reachable exB4 ∧
    exB4.st 3 = some (Outcome.ok JSVal.undef) ∧
    exB4.st 3 ≠ some (Outcome.err (JSVal.num 5)) := by
  have s1 : Step initWorld exB1 := Step.startMsg 9 0 initWorld
  have s2 : Step exB1 exB2 :=
    Step.fire exB1 []
      [Reaction.mk 2 3 RKind.catchLog, Reaction.mk 3 3 (RKind.finallyClean 9)]
      (Reaction.mk 1 2 (RKind.thenJob 9 0)) (Outcome.ok JSVal.undef) rfl rfl
  have s3 : Step exB2 exB3 :=
    Step.settleRun exB2 [] [] (RunJob.mk 2 9 0) (Outcome.err (JSVal.num 5)) rfl
  have s4 : Step exB3 exB4 :=
    Step.fire exB3 [] [Reaction.mk 3 3 (RKind.finallyClean 9)]
      (Reaction.mk 2 3 RKind.catchLog) (Outcome.err (JSVal.num 5)) rfl rfl
  have hreach : Reachable exB4 :=
    Relation.ReflTransGen.tail
      (Relation.ReflTransGen.tail
        (Relation.ReflTransGen.tail (Relation.ReflTransGen.single s1) s2) s3) s4
  refine ⟨rfl, rfl, hreach, rfl, ?_⟩
  intro h
  rw [show exB4.st 3 = some (Outcome.ok JSVal.undef) from rfl] at h
  cases h

/-- C2 (amended): the promise returned by `enqueueTabJob(tabId, jobFn)` — the
target of the chain's final logging `.catch` — fulfills with the job's value
when the job promise fulfills, but when the job promise rejects the `.catch`
swallows the error and the returned promise fulfills with `undefined` instead
of rejecting with the job's error.  The job promise itself does settle with the
job body's own outcome, and the swallowing is what keeps the rejection out of
the per-tab chain: in every reachable world no stored tab tail is rejected, so
a failing job never blocks subsequently enqueued jobs of the same tab. -/
theorem c2_returned_promise_swallows_rejection :
    (∀ (w : World) (l1 l2 : List Reaction) (src tgt : Nat) (v : JSVal),
        (fireWorld w l1 l2 (Reaction.mk src tgt RKind.catchLog) (Outcome.ok v)).st tgt =
          some (Outcome.ok v)) ∧
    (∀ (w : World) (l1 l2 : List Reaction) (src tgt : Nat) (e : JSVal),
        (fireWorld w l1 l2 (Reaction.mk src tgt RKind.catchLog) (Outcome.err e)).st tgt =
          some (Outcome.ok JSVal.undef)) ∧
    (∀ (w : World) (l1 l2 : List RunJob) (R : RunJob) (o : Outcome),
        (settleRunWorld w l1 l2 R o).st R.tgt = some o) ∧
    (∀ w : World, Reachable w → TailOk w) := by
  refine ⟨?_, ?_, ?_, ?_⟩
  · intro w l1 l2 src tgt v
    rw [fireWorld_catchLog_ok]
    exact upd_self _ _ _
  · intro w l1 l2 src tgt e
    rw [fireWorld_catchLog_err]
    exact upd_self _ _ _
  · intro w l1 l2 R o
    rw [settleRunWorld_eq]
    exact upd_self _ _ _
  · intro w hreach
    exact (reachable_inv hreach).2.2.2.2

/-- Witness for the amended C2 at concrete inputs: firing the logging `.catch`
on a rejection fulfills its target with `undefined`, and the initial world's
tab queues hold no rejected tail. -/
theorem c2_returned_promise_swallows_rejection_witness :
    (fireWorld initWorld [] [] (Reaction.mk 0 1 RKind.catchLog)
        (Outcome.err (JSVal.num 5))).st 1 = some (Outcome.ok JSVal.undef) ∧
    TailOk initWorld :=
  ⟨c2_returned_promise_swallows_rejection.2.1 initWorld [] [] 0 1 (JSVal.num 5),
   c2_returned_promise_swallows_rejection.2.2.2 initWorld Relation.ReflTransGen.refl⟩

/-! ## C9: permanent poisoning of the global capture queue -/

theorem upd_st_settled {w : World} (hids : IdsOk w) (hown : Owners w) {r : Reaction}
    (hr : r ∈ w.reacts) (hs : settling r.kind = true) {q : Nat} {o0 : Outcome}
    (hq : w.st q = some o0) (v : Option Outcome) : upd w.st r.tgt v q = some o0 := by
  have hn := st_none_of_react hids hown hr hs
  have hne : q ≠ r.tgt := by
    intro h
    rw [h, hn] at hq
    cases hq
  rw [upd_ne _ _ _ _ hne]
  exact hq

theorem poison_pend_pres {w : World} (hids : IdsOk w) (hown : Owners w)
    {l1 l2 : List Reaction} {r Rc : Reaction}
    (hsplit : w.reacts = l1 ++ r :: l2)
    (hRc : Rc ∈ w.reacts) (hs2 : settling Rc.kind = true)
    (hner : Rc ≠ r) (hs1 : settling r.kind = true) (v : Option Outcome) :
    upd w.st r.tgt v Rc.tgt = w.st Rc.tgt ∧ Rc ∈ l1 ++ l2 := by
  have hr : r ∈ w.reacts := by
    rw [hsplit]
    exact List.mem_append.mpr (Or.inr (List.mem_cons_self _ _))
  have hne : r.tgt ≠ Rc.tgt :=
    fun h => hner (owner_unique_react_react hids hown hr hRc hs1 hs2 h).symm
  refine ⟨upd_ne _ _ _ _ (Ne.symm hne), ?_⟩
  have hRc2 : Rc ∈ l1 ++ r :: l2 := hsplit ▸ hRc
  exact mem_remove_of_ne hRc2 hner

theorem poison_mem_keep {l1 l2 : List Reaction} {r Rc : Reaction}
    {w : World} (hsplit : w.reacts = l1 ++ r :: l2)
    (hRc : Rc ∈ w.reacts) (hner : Rc ≠ r) : Rc ∈ l1 ++ l2 :=
  mem_remove_of_ne (hsplit ▸ hRc) hner

theorem poison_enqueueTab {cqold p1 ret : Nat} {e : JSVal} {w : World}
    (hp : Poison cqold p1 ret e w) (tabId spec : Nat) :
    Poison cqold p1 ret e (enqueueTabJob tabId spec w).1 := by
  obtain ⟨hcq, hp1, hret, hnoc, hlt1, hlt2, hlt3, hne1, hne2, hne3⟩ := hp
  cases htq : w.tq tabId with
  | some prev =>
    rw [enqueueTabJob_some tabId spec w htq]
    refine ⟨hcq, ?_, ?_, hnoc, by dsimp only; omega, by dsimp only; omega, by dsimp only; omega, hne1, hne2, hne3⟩
    · rcases hp1 with ⟨hpend, tab0, spec0, hmem⟩ | hsett
      · exact Or.inl ⟨hpend, tab0, spec0,
          List.mem_cons_of_mem _ (List.mem_cons_of_mem _ (List.mem_cons_of_mem _ hmem))⟩
      · exact Or.inr hsett
    · rcases hret with ⟨hpend, hmem⟩ | hsett
      · exact Or.inl ⟨hpend,
          List.mem_cons_of_mem _ (List.mem_cons_of_mem _ (List.mem_cons_of_mem _ hmem))⟩
      · exact Or.inr hsett
  | none =>
    rw [enqueueTabJob_none tabId spec w htq]
    refine ⟨?_, ?_, ?_, hnoc, by dsimp only; omega, by dsimp only; omega, by dsimp only; omega, hne1, hne2, hne3⟩
    · show upd w.st w.nprom (some (Outcome.ok JSVal.undef)) cqold = some (Outcome.err e)
      rw [upd_ne _ _ _ _ (by omega)]
      exact hcq
    · rcases hp1 with ⟨hpend, tab0, spec0, hmem⟩ | hsett
      · refine Or.inl ⟨?_, tab0, spec0,
          List.mem_cons_of_mem _ (List.mem_cons_of_mem _ (List.mem_cons_of_mem _ hmem))⟩
        show upd w.st w.nprom (some (Outcome.ok JSVal.undef)) p1 = none
        rw [upd_ne _ _ _ _ (by omega)]
        exact hpend
      · refine Or.inr ?_
        show upd w.st w.nprom (some (Outcome.ok JSVal.undef)) p1 = some (Outcome.err e)
        rw [upd_ne _ _ _ _ (by omega)]
        exact hsett
    · rcases hret with ⟨hpend, hmem⟩ | hsett
      · refine Or.inl ⟨?_,
          List.mem_cons_of_mem _ (List.mem_cons_of_mem _ (List.mem_cons_of_mem _ hmem))⟩
        show upd w.st w.nprom (some (Outcome.ok JSVal.undef)) ret = none
        rw [upd_ne _ _ _ _ (by omega)]
        exact hpend
      · refine Or.inr ?_
        show upd w.st w.nprom (some (Outcome.ok JSVal.undef)) ret = some (Outcome.err e)
        rw [upd_ne _ _ _ _ (by omega)]
        exact hsett

theorem poison_enqueueCapture {cqold p1 ret : Nat} {e : JSVal} {w : World}
    (hp : Poison cqold p1 ret e w) (tabId spec : Nat) :
    Poison cqold p1 ret e (enqueueCaptureJob tabId spec w).1 := by
  obtain ⟨hcq, hp1, hret, hnoc, hlt1, hlt2, hlt3, hne1, hne2, hne3⟩ := hp
  rw [enqueueCaptureJob_eq]
  refine ⟨hcq, ?_, ?_, hnoc, by dsimp only; omega, by dsimp only; omega, by dsimp only; omega, hne1, hne2, hne3⟩
  · rcases hp1 with ⟨hpend, tab0, spec0, hmem⟩ | hsett
    · exact Or.inl ⟨hpend, tab0, spec0,
        List.mem_cons_of_mem _ (List.mem_cons_of_mem _ hmem)⟩
    · exact Or.inr hsett
  · rcases hret with ⟨hpend, hmem⟩ | hsett
    · exact Or.inl ⟨hpend,
        List.mem_cons_of_mem _ (List.mem_cons_of_mem _ hmem)⟩
    · exact Or.inr hsett

theorem poison_write {cqold p1 ret : Nat} {e : JSVal} {w : World}
    {l1 l2 : List Reaction} {src tgt : Nat} {k : RKind} {o2 : Outcome}
    (hids : IdsOk w) (hown : Owners w)
    (hp : Poison cqold p1 ret e w)
    (hsplit : w.reacts = l1 ++ Reaction.mk src tgt k :: l2)
    (hs : settling k = true)
    (hko : ∀ tab0 spec0, k = RKind.thenCapture tab0 spec0 → src = cqold →
        o2 = Outcome.err e)
    (hkr : k = RKind.catchRethrow → src = p1 → o2 = Outcome.err e) :
    Poison cqold p1 ret e
      { w with reacts := l1 ++ l2, st := upd w.st tgt (some o2) } := by
  obtain ⟨hcq, hp1, hret, hnoc, hlt1, hlt2, hlt3, hne1, hne2, hne3⟩ := hp
  have hr : Reaction.mk src tgt k ∈ w.reacts := by
    rw [hsplit]
    exact List.mem_append.mpr (Or.inr (List.mem_cons_self _ _))
  refine ⟨?_, ?_, ?_, hnoc, by dsimp only; omega, by dsimp only; omega,
    by dsimp only; omega, hne1, hne2, hne3⟩
  · exact upd_st_settled hids hown hr hs hcq _
  · rcases hp1 with ⟨hpend, tab0, spec0, hmem⟩ | hsett
    · by_cases htp : tgt = p1
      · have heqr := owner_unique_react_react hids hown hr hmem hs rfl htp
        injection heqr with h1 h2 h3
        refine Or.inr ?_
        show upd w.st tgt (some o2) p1 = some (Outcome.err e)
        rw [← htp, upd_self, hko tab0 spec0 h3 h1]
      · refine Or.inl ⟨?_, tab0, spec0, ?_⟩
        · show upd w.st tgt (some o2) p1 = none
          rw [upd_ne _ _ _ _ (fun hh => htp hh.symm)]
          exact hpend
        · refine poison_mem_keep hsplit hmem ?_
          intro hh
          injection hh with a b c
          exact htp b.symm
    · exact Or.inr (upd_st_settled hids hown hr hs hsett _)
  · rcases hret with ⟨hpend, hmem⟩ | hsett
    · by_cases htr : tgt = ret
      · have heqr := owner_unique_react_react hids hown hr hmem hs rfl htr
        injection heqr with h1 h2 h3
        refine Or.inr ?_
        show upd w.st tgt (some o2) ret = some (Outcome.err e)
        rw [← htr, upd_self, hkr h3 h1]
      · refine Or.inl ⟨?_, ?_⟩
        · show upd w.st tgt (some o2) ret = none
          rw [upd_ne _ _ _ _ (fun hh => htr hh.symm)]
          exact hpend
        · refine poison_mem_keep hsplit hmem ?_
          intro hh
          injection hh with a b c
          exact htr b.symm
    · exact Or.inr (upd_st_settled hids hown hr hs hsett _)

theorem poison_fire {cqold p1 ret : Nat} {e : JSVal} {w : World}
    {l1 l2 : List Reaction} {src tgt : Nat} {k : RKind} {o : Outcome}
    (hids : IdsOk w) (hown : Owners w)
    (hp : Poison cqold p1 ret e w)
    (hsplit : w.reacts = l1 ++ Reaction.mk src tgt k :: l2)
    (hsrc : w.st src = some o) :
    Poison cqold p1 ret e (fireWorld w l1 l2 (Reaction.mk src tgt k) o) := by
  have hr : Reaction.mk src tgt k ∈ w.reacts := by
    rw [hsplit]
    exact List.mem_append.mpr (Or.inr (List.mem_cons_self _ _))
  cases k with
  | thenJob tab spec =>
    cases o with
    | ok v =>
      rw [fireWorld_thenJob_ok]
      obtain ⟨hcq, hp1, hret, hnoc, hlt1, hlt2, hlt3, hne1, hne2, hne3⟩ := hp
      refine ⟨hcq, ?_, ?_, hnoc, by dsimp only; omega, by dsimp only; omega,
        by dsimp only; omega, hne1, hne2, hne3⟩
      · rcases hp1 with ⟨hpend, tab0, spec0, hmem⟩ | hsett
        · refine Or.inl ⟨hpend, tab0, spec0, poison_mem_keep hsplit hmem ?_⟩
          intro hh
          injection hh with a b c
          cases c
        · exact Or.inr hsett
      · rcases hret with ⟨hpend, hmem⟩ | hsett
        · refine Or.inl ⟨hpend, poison_mem_keep hsplit hmem ?_⟩
          intro hh
          injection hh with a b c
          cases c
        · exact Or.inr hsett
    | err e0 =>
      rw [fireWorld_thenJob_err]
      refine poison_write hids hown hp hsplit rfl ?_ ?_
      · intro tab0 spec0 hk
        cases hk
      · intro hk
        cases hk
  | catchLog =>
    cases o with
    | ok v =>
      rw [fireWorld_catchLog_ok]
      refine poison_write hids hown hp hsplit rfl ?_ ?_
      · intro tab0 spec0 hk
        cases hk
      · intro hk
        cases hk
    | err e0 =>
      rw [fireWorld_catchLog_err]
      refine poison_write hids hown hp hsplit rfl ?_ ?_
      · intro tab0 spec0 hk
        cases hk
      · intro hk
        cases hk
  | thenCapture tab spec =>
    cases o with
    | ok v =>
      rw [fireWorld_thenCapture_ok]
      obtain ⟨hcq, hp1, hret, hnoc, hlt1, hlt2, hlt3, hne1, hne2, hne3⟩ := hp
      have hrc_ne : ∀ tab0 spec0,
          Reaction.mk cqold p1 (RKind.thenCapture tab0 spec0) ≠
            Reaction.mk src tgt (RKind.thenCapture tab spec) := by
        intro tab0 spec0 hh
        injection hh with a b c
        rw [← a, hcq] at hsrc
        cases hsrc
      have htgtp1 : tgt ≠ p1 := by
        intro hh
        rcases hp1 with ⟨hpend, tab0, spec0, hmem⟩ | hsett
        · exact hrc_ne tab0 spec0
            (owner_unique_react_react hids hown hmem hr rfl rfl hh.symm)
        · have hn := st_none_of_react hids hown hr rfl
          rw [hh, hsett] at hn
          cases hn
      refine ⟨hcq, ?_, ?_, ?_, by dsimp only; omega, by dsimp only; omega,
        by dsimp only; omega, hne1, hne2, hne3⟩
      · rcases hp1 with ⟨hpend, tab0, spec0, hmem⟩ | hsett
        · exact Or.inl ⟨hpend, tab0, spec0,
            poison_mem_keep hsplit hmem (hrc_ne tab0 spec0)⟩
        · exact Or.inr hsett
      · rcases hret with ⟨hpend, hmem⟩ | hsett
        · refine Or.inl ⟨hpend, poison_mem_keep hsplit hmem ?_⟩
          intro hh
          injection hh with a b c
          cases c
        · exact Or.inr hsett
      · intro C hC
        rcases List.mem_cons.mp hC with hC1 | hC2
        · rw [hC1]
          exact htgtp1
        · exact hnoc C hC2
    | err e0 =>
      rw [fireWorld_thenCapture_err]
      refine poison_write hids hown hp hsplit rfl ?_ ?_
      · intro tab0 spec0 hk hsq
        rw [hsq, hp.1] at hsrc
        injection hsrc with h1
        injection h1 with h2
        rw [h2]
      · intro hk
        cases hk
  | catchRethrow =>
    rw [fireWorld_catchRethrow]
    refine poison_write hids hown hp hsplit rfl ?_ ?_
    · intro tab0 spec0 hk
      cases hk
    · intro hk hsq
      rw [hsq] at hsrc
      rcases hp.2.1 with ⟨hpend, tab0, spec0, hmem⟩ | hsett
      · rw [hpend] at hsrc
        cases hsrc
      · rw [hsett] at hsrc
        injection hsrc with h1
        exact h1.symm
  | finallyClean tab =>
    rw [fireWorld_finallyClean]
    obtain ⟨hcq, hp1, hret, hnoc, hlt1, hlt2, hlt3, hne1, hne2, hne3⟩ := hp
    have hmemsC : ∀ tab0 spec0,
        Reaction.mk cqold p1 (RKind.thenCapture tab0 spec0) ∈ w.reacts →
          Reaction.mk cqold p1 (RKind.thenCapture tab0 spec0) ∈ l1 ++ l2 := by
      intro tab0 spec0 hmem
      refine poison_mem_keep hsplit hmem ?_
      intro hh
      injection hh with a b c
      cases c
    have hmemsR : Reaction.mk p1 ret RKind.catchRethrow ∈ w.reacts →
        Reaction.mk p1 ret RKind.catchRethrow ∈ l1 ++ l2 := by
      intro hmem
      refine poison_mem_keep hsplit hmem ?_
      intro hh
      injection hh with a b c
      cases c
    by_cases htq : w.tq tab = some src
    · rw [if_pos htq]
      refine ⟨hcq, ?_, ?_, hnoc, by dsimp only; omega, by dsimp only; omega,
        by dsimp only; omega, hne1, hne2, hne3⟩
      · rcases hp1 with ⟨hpend, tab0, spec0, hmem⟩ | hsett
        · exact Or.inl ⟨hpend, tab0, spec0, hmemsC tab0 spec0 hmem⟩
        · exact Or.inr hsett
      · rcases hret with ⟨hpend, hmem⟩ | hsett
        · exact Or.inl ⟨hpend, hmemsR hmem⟩
        · exact Or.inr hsett
    · rw [if_neg htq]
      refine ⟨hcq, ?_, ?_, hnoc, by dsimp only; omega, by dsimp only; omega,
        by dsimp only; omega, hne1, hne2, hne3⟩
      · rcases hp1 with ⟨hpend, tab0, spec0, hmem⟩ | hsett
        · exact Or.inl ⟨hpend, tab0, spec0, hmemsC tab0 spec0 hmem⟩
        · exact Or.inr hsett
      · rcases hret with ⟨hpend, hmem⟩ | hsett
        · exact Or.inl ⟨hpend, hmemsR hmem⟩
        · exact Or.inr hsett

theorem poison_settleRun {cqold p1 ret : Nat} {e : JSVal} {w : World}
    {l1 l2 : List RunJob} {R : RunJob} {o : Outcome}
    (hids : IdsOk w) (hown : Owners w)
    (hp : Poison cqold p1 ret e w)
    (hsplit : w.runs = l1 ++ R :: l2) :
    Poison cqold p1 ret e (settleRunWorld w l1 l2 R o) := by
  obtain ⟨hcq, hp1, hret, hnoc, hlt1, hlt2, hlt3, hne1, hne2, hne3⟩ := hp
  have hR : R ∈ w.runs := by
    rw [hsplit]
    exact List.mem_append.mpr (Or.inr (List.mem_cons_self _ _))
  have hpend0 : w.st R.tgt = none := st_none_of_run hids hown hR
  rw [settleRunWorld_eq]
  refine ⟨?_, ?_, ?_, hnoc, by dsimp only; omega, by dsimp only; omega,
    by dsimp only; omega, hne1, hne2, hne3⟩
  · show upd w.st R.tgt (some o) cqold = some (Outcome.err e)
    rw [upd_ne _ _ _ _ (by intro hh; rw [hh, hpend0] at hcq; cases hcq)]
    exact hcq
  · rcases hp1 with ⟨hpend, tab0, spec0, hmem⟩ | hsett
    · refine Or.inl ⟨?_, tab0, spec0, hmem⟩
      show upd w.st R.tgt (some o) p1 = none
      rw [upd_ne _ _ _ _ (owner_distinct_react_run hids hown hmem rfl hR)]
      exact hpend
    · refine Or.inr ?_
      show upd w.st R.tgt (some o) p1 = some (Outcome.err e)
      rw [upd_ne _ _ _ _ (by intro hh; rw [hh, hpend0] at hsett; cases hsett)]
      exact hsett
  · rcases hret with ⟨hpend, hmem⟩ | hsett
    · refine Or.inl ⟨?_, hmem⟩
      show upd w.st R.tgt (some o) ret = none
      rw [upd_ne _ _ _ _ (owner_distinct_react_run hids hown hmem rfl hR)]
      exact hpend
    · refine Or.inr ?_
      show upd w.st R.tgt (some o) ret = some (Outcome.err e)
      rw [upd_ne _ _ _ _ (by intro hh; rw [hh, hpend0] at hsett; cases hsett)]
      exact hsett

theorem poison_settleCapture {cqold p1 ret : Nat} {e : JSVal} {w : World}
    {l1 l2 : List RunCapture} {C : RunCapture} {o : Outcome}
    (hids : IdsOk w) (hown : Owners w)
    (hp : Poison cqold p1 ret e w)
    (hsplit : w.cruns = l1 ++ C :: l2) :
    Poison cqold p1 ret e (settleCaptureWorld w l1 l2 C o) := by
  obtain ⟨hcq, hp1, hret, hnoc, hlt1, hlt2, hlt3, hne1, hne2, hne3⟩ := hp
  have hC : C ∈ w.cruns := by
    rw [hsplit]
    exact List.mem_append.mpr (Or.inr (List.mem_cons_self _ _))
  have hpend0 : w.st C.tgt = none := st_none_of_crun hids hown hC
  rw [settleCaptureWorld_eq]
  refine ⟨?_, ?_, ?_, ?_, by dsimp only; omega, by dsimp only; omega,
    by dsimp only; omega, hne1, hne2, hne3⟩
  · show upd w.st C.tgt (some o) cqold = some (Outcome.err e)
    rw [upd_ne _ _ _ _ (by intro hh; rw [hh, hpend0] at hcq; cases hcq)]
    exact hcq
  · rcases hp1 with ⟨hpend, tab0, spec0, hmem⟩ | hsett
    · refine Or.inl ⟨?_, tab0, spec0, hmem⟩
      show upd w.st C.tgt (some o) p1 = none
      rw [upd_ne _ _ _ _ (Ne.symm (hnoc C hC))]
      exact hpend
    · refine Or.inr ?_
      show upd w.st C.tgt (some o) p1 = some (Outcome.err e)
      rw [upd_ne _ _ _ _ (by intro hh; rw [hh, hpend0] at hsett; cases hsett)]
      exact hsett
  · rcases hret with ⟨hpend, hmem⟩ | hsett
    · refine Or.inl ⟨?_, hmem⟩
      show upd w.st C.tgt (some o) ret = none
      rw [upd_ne _ _ _ _ (owner_distinct_react_crun hids hown hmem rfl hC)]
      exact hpend
    · refine Or.inr ?_
      show upd w.st C.tgt (some o) ret = some (Outcome.err e)
      rw [upd_ne _ _ _ _ (by intro hh; rw [hh, hpend0] at hsett; cases hsett)]
      exact hsett
  · intro C2 hC2
    have hC2m : C2 ∈ w.cruns := by
      rw [hsplit]
      exact mem_insert_mid hC2 C
    exact hnoc C2 hC2m

theorem poison_step {cqold p1 ret : Nat} {e : JSVal} {w w2 : World}
    (hinv : Inv w) (hp : Poison cqold p1 ret e w) (hs : Step w w2) :
    Poison cqold p1 ret e w2 := by
  obtain ⟨hids, hown, htab, hcap, htail⟩ := hinv
  cases hs with
  | startMsg tabId spec w =>
    exact poison_enqueueTab hp tabId spec
  | alarmFire name spec w =>
    unfold handleAlarm
    cases hid : alarmTabId name with
    | some t => exact poison_enqueueTab hp t spec
    | none => exact hp
  | captureReq tabId spec w =>
    exact poison_enqueueCapture hp tabId spec
  | fire w l1 l2 r o hsplit hsrc =>
    obtain ⟨src, tgt, k⟩ := r
    exact poison_fire hids hown hp hsplit hsrc
  | settleRun w l1 l2 R o hsplit =>
    exact poison_settleRun hids hown hp hsplit
  | settleCapture w l1 l2 C o hsplit =>
    exact poison_settleCapture hids hown hp hsplit

theorem poison_reach {cqold p1 ret : Nat} {e : JSVal} {w w2 : World}
    (hinv : Inv w) (hp : Poison cqold p1 ret e w)
    (hsteps : Relation.ReflTransGen Step w w2) : Poison cqold p1 ret e w2 := by
  have h2 : Inv w2 ∧ Poison cqold p1 ret e w2 := by
    induction hsteps with
    | refl => exact ⟨hinv, hp⟩
    | tail hs hstep ih => exact ⟨inv_step ih.1 hstep, poison_step ih.1 ih.2 hstep⟩
  exact h2.2

theorem poison_start {w : World} (hinv : Inv w) {e : JSVal}
    (hrej : w.st w.cq = some (Outcome.err e)) (tab spec : Nat) :
    Poison w.cq w.nprom (w.nprom + 1) e (enqueueCaptureJob tab spec w).1 := by
  obtain ⟨hids, hown, htab, hcap, htail⟩ := hinv
  have hcqlt : w.cq < w.nprom := hids.2.2.2.2.1
  rw [enqueueCaptureJob_eq]
  refine ⟨hrej, ?_, ?_, ?_, by dsimp only; omega, by dsimp only; omega,
    by dsimp only; omega, by omega, by omega, by omega⟩
  · exact Or.inl ⟨hids.2.2.2.2.2 w.nprom (le_refl _), tab, spec,
      List.mem_cons_self _ _⟩
  · exact Or.inl ⟨hids.2.2.2.2.2 (w.nprom + 1) (by omega),
      List.mem_cons_of_mem _ (List.mem_cons_self _ _)⟩
  · intro C hC
    have := hids.2.2.1 C hC
    omega

/-- C9: once a capture submitted through `enqueueCaptureJob` has rejected and
the stored global `captureQueue` tail is left rejected with error `e` (the
rethrowing `.catch` re-raises and nothing ever resets the queue), every
subsequently submitted capture for any tab is poisoned: along every possible
continuation of the system, the new submission's capture function is never
invoked (no running capture body ever targets its job promise `w.nprom`), and
the promise returned to the submitter can only ever settle with the same
earlier rejection `e`. -/
theorem c9_capture_queue_poisoned {w : World} (hreach : Reachable w) {e : JSVal}
    (hrej : w.st w.cq = some (Outcome.err e)) (tab spec : Nat) {w2 : World}
    (hsteps : Relation.ReflTransGen Step (enqueueCaptureJob tab spec w).1 w2) :
    (∀ C ∈ w2.cruns, C.tgt ≠ w.nprom) ∧
    (∀ o, w2.st (enqueueCaptureJob tab spec w).2 = some o → o = Outcome.err e) := by
  have hinv := reachable_inv hreach
  have hp0 := poison_start hinv hrej tab spec
  have hinv1 := inv_enqueueCapture hinv tab spec
  have hp2 := poison_reach hinv1 hp0 hsteps
  obtain ⟨hcq, hp1, hret, hnoc, _, _, _, _, _, _⟩ := hp2
  refine ⟨hnoc, ?_⟩
  intro o ho
  have hretid : (enqueueCaptureJob tab spec w).2 = w.nprom + 1 := rfl
  rw [hretid] at ho
  rcases hret with ⟨hpend, hmem⟩ | hsett
  · rw [hpend] at ho
    cases ho
  · rw [hsett] at ho
    injection ho with h1
    exact h1.symm

/-- Witness for C9: in the concrete reachable world `exP4` the capture of tab 4
has rejected with error value 3 and the stored `captureQueue` tail (promise 2)
is rejected; a fresh submission for tab 6 is then poisoned. -/
theorem c9_capture_queue_poisoned_witness :
    Reachable exP4 ∧ exP4.st exP4.cq = some (Outcome.err (JSVal.num 3)) ∧
    (∀ C ∈ (enqueueCaptureJob 6 1 exP4).1.cruns, C.tgt ≠ exP4.nprom) ∧
    (∀ o, (enqueueCaptureJob 6 1 exP4).1.st (enqueueCaptureJob 6 1 exP4).2 = some o →
        o = Outcome.err (JSVal.num 3)) := by
  have s1 : Step initWorld exP1 := Step.captureReq 4 0 initWorld
  have s2 : Step exP1 exP2 :=
    Step.fire exP1 [] [Reaction.mk 1 2 RKind.catchRethrow]
      (Reaction.mk 0 1 (RKind.thenCapture 4 0)) (Outcome.ok JSVal.undef) rfl rfl
  have s3 : Step exP2 exP3 :=
    Step.settleCapture exP2 [] [] (RunCapture.mk 1 4 0) (Outcome.err (JSVal.num 3)) rfl
  have s4 : Step exP3 exP4 :=
    Step.fire exP3 [] [] (Reaction.mk 1 2 RKind.catchRethrow) (Outcome.err (JSVal.num 3))
      rfl rfl
  have hreach : Reachable exP4 :=
    Relation.ReflTransGen.tail
      (Relation.ReflTransGen.tail
        (Relation.ReflTransGen.tail (Relation.ReflTransGen.single s1) s2) s3) s4
  have hrej : exP4.st exP4.cq = some (Outcome.err (JSVal.num 3)) := rfl
  have h := c9_capture_queue_poisoned hreach hrej 6 1 Relation.ReflTransGen.refl
  exact ⟨hreach, hrej, h.1, h.2⟩

/-! ## C3: settlement behaviour of the readiness waiter -/

theorem wCleanup_outcome (s : WaitSt) : (wCleanup s).outcome = s.outcome := by
  unfold wCleanup
  split <;> rfl

theorem wCleanup_sched (s : WaitSt) : (wCleanup s).schedResolves = s.schedResolves := by
  unfold wCleanup
  split <;> rfl

theorem wSettle_outcome_some {s : WaitSt} {r : WResult} (h : s.outcome = some r)
    (r2 : WResult) : (wSettle s r2).outcome = some r := by
  unfold wSettle
  rw [h]
  exact h

theorem wSettle_outcome_cases {s : WaitSt} {r2 r : WResult}
    (h : (wSettle s r2).outcome = some r) :
    s.outcome = some r ∨ (s.outcome = none ∧ r2 = r) := by
  unfold wSettle at h
  cases hs : s.outcome with
  | some o =>
    rw [hs] at h
    have h4 : s.outcome = some r := h
    exact Or.inl (hs.symm.trans h4)
  | none =>
    rw [hs] at h
    have h2 : some r2 = some r := h
    injection h2 with h3
    exact Or.inr ⟨rfl, h3⟩

theorem wStep_init_err (tabId timeout : Nat) (s : WaitSt) (em : String) :
    wStep tabId timeout s (WEvent.initReply (Except.error em)) =
      if s.initPending = true then
        wSettle (wCleanup { s with initPending := false })
          (WResult.rejected (notFoundMsg tabId em))
      else s := rfl

theorem wStep_init_ok (tabId timeout : Nat) (s : WaitSt) (stt : Option String) :
    wStep tabId timeout s (WEvent.initReply (Except.ok stt)) =
      if s.initPending = true then
        (if stt = some "complete" then
          { wCleanup { s with initPending := false } with
              schedResolves :=
                (wCleanup { s with initPending := false }).schedResolves ++ [600] }
        else { s with initPending := false })
      else s := rfl

theorem wStep_updated (tabId timeout : Nat) (s : WaitSt) (id : Nat)
    (status url : Option String) :
    wStep tabId timeout s (WEvent.updated id status url) =
      if (s.listenerOn && (id == tabId)) = true then
        (if status = some "complete" then
          { wCleanup s with schedResolves := (wCleanup s).schedResolves ++ [600] }
        else s)
      else s := rfl

theorem wStep_timer (tabId timeout : Nat) (s : WaitSt) :
    wStep tabId timeout s WEvent.timerFire =
      if s.timerOn = true then { wCleanup s with toutPending := true } else s := rfl

theorem wStep_tout_err (tabId timeout : Nat) (s : WaitSt) (em : String) :
    wStep tabId timeout s (WEvent.toutReply (Except.error em)) =
      if s.toutPending = true then
        wSettle { s with toutPending := false } (WResult.rejected (notFoundMsg tabId em))
      else s := rfl

theorem wStep_tout_ok (tabId timeout : Nat) (s : WaitSt) (stt : Option String) :
    wStep tabId timeout s (WEvent.toutReply (Except.ok stt)) =
      if s.toutPending = true then
        (if stt = some "complete" ∨ stt = some "loading" then
          { s with toutPending := false, schedResolves := s.schedResolves ++ [800] }
        else wSettle { s with toutPending := false }
          (WResult.rejected (timeoutMsg timeout stt)))
      else s := rfl

theorem wStep_sched (tabId timeout : Nat) (s : WaitSt) :
    wStep tabId timeout s WEvent.schedFire =
      match s.schedResolves with
      | [] => s
      | _ :: rest => wSettle { s with schedResolves := rest } WResult.resolved := rfl

theorem wStep_outcome_mono (tabId timeout : Nat) (s : WaitSt) (e : WEvent) {r : WResult}
    (h : s.outcome = some r) : (wStep tabId timeout s e).outcome = some r := by
  cases e with
  | initReply res =>
    cases res with
    | error em =>
      rw [wStep_init_err]
      by_cases hip : s.initPending = true
      · rw [if_pos hip]
        refine wSettle_outcome_some ?_ _
        rw [wCleanup_outcome]
        exact h
      · rw [if_neg hip]
        exact h
    | ok stt =>
      rw [wStep_init_ok]
      by_cases hip : s.initPending = true
      · rw [if_pos hip]
        by_cases hc : stt = some "complete"
        · rw [if_pos hc]
          show (wCleanup { s with initPending := false }).outcome = some r
          rw [wCleanup_outcome]
          exact h
        · rw [if_neg hc]
          exact h
      · rw [if_neg hip]
        exact h
  | updated id status url =>
    rw [wStep_updated]
    by_cases hl : (s.listenerOn && (id == tabId)) = true
    · rw [if_pos hl]
      by_cases hc : status = some "complete"
      · rw [if_pos hc]
        show (wCleanup s).outcome = some r
        rw [wCleanup_outcome]
        exact h
      · rw [if_neg hc]
        exact h
    · rw [if_neg hl]
      exact h
  | timerFire =>
    rw [wStep_timer]
    by_cases ht : s.timerOn = true
    · rw [if_pos ht]
      show (wCleanup s).outcome = some r
      rw [wCleanup_outcome]
      exact h
    · rw [if_neg ht]
      exact h
  | toutReply res =>
    cases res with
    | error em =>
      rw [wStep_tout_err]
      by_cases htp : s.toutPending = true
      · rw [if_pos htp]
        refine wSettle_outcome_some ?_ _
        exact h
      · rw [if_neg htp]
        exact h
    | ok stt =>
      rw [wStep_tout_ok]
      by_cases htp : s.toutPending = true
      · rw [if_pos htp]
        by_cases hlc : (stt = some "complete" ∨ stt = some "loading")
        · rw [if_pos hlc]
          exact h
        · rw [if_neg hlc]
          refine wSettle_outcome_some ?_ _
          exact h
      · rw [if_neg htp]
        exact h
  | schedFire =>
    rw [wStep_sched]
    cases hsr : s.schedResolves with
    | nil => exact h
    | cons a rest =>
      refine wSettle_outcome_some ?_ _
      exact h

theorem wStep_reject_cases (tabId timeout : Nat) (s : WaitSt) (e : WEvent) {m : String}
    (h : (wStep tabId timeout s e).outcome = some (WResult.rejected m)) :
    s.outcome = some (WResult.rejected m) ∨ rejEvidence tabId timeout e m := by
  cases e with
  | initReply res =>
    cases res with
    | error em =>
      rw [wStep_init_err] at h
      by_cases hip : s.initPending = true
      · rw [if_pos hip] at h
        rcases wSettle_outcome_cases h with h1 | ⟨h1, h2⟩
        · left
          rw [wCleanup_outcome] at h1
          exact h1
        · right
          refine Or.inl ⟨em, Or.inl rfl, ?_⟩
          injection h2 with h3
          exact h3.symm
      · rw [if_neg hip] at h
        exact Or.inl h
    | ok stt =>
      rw [wStep_init_ok] at h
      by_cases hip : s.initPending = true
      · rw [if_pos hip] at h
        by_cases hc : stt = some "complete"
        · rw [if_pos hc] at h
          left
          have h1 : (wCleanup { s with initPending := false }).outcome =
              some (WResult.rejected m) := h
          rw [wCleanup_outcome] at h1
          exact h1
        · rw [if_neg hc] at h
          exact Or.inl h
      · rw [if_neg hip] at h
        exact Or.inl h
  | updated id status url =>
    rw [wStep_updated] at h
    by_cases hl : (s.listenerOn && (id == tabId)) = true
    · rw [if_pos hl] at h
      by_cases hc : status = some "complete"
      · rw [if_pos hc] at h
        left
        have h1 : (wCleanup s).outcome = some (WResult.rejected m) := h
        rw [wCleanup_outcome] at h1
        exact h1
      · rw [if_neg hc] at h
        exact Or.inl h
    · rw [if_neg hl] at h
      exact Or.inl h
  | timerFire =>
    rw [wStep_timer] at h
    by_cases ht : s.timerOn = true
    · rw [if_pos ht] at h
      left
      have h1 : (wCleanup s).outcome = some (WResult.rejected m) := h
      rw [wCleanup_outcome] at h1
      exact h1
    · rw [if_neg ht] at h
      exact Or.inl h
  | toutReply res =>
    cases res with
    | error em =>
      rw [wStep_tout_err] at h
      by_cases htp : s.toutPending = true
      · rw [if_pos htp] at h
        rcases wSettle_outcome_cases h with h1 | ⟨h1, h2⟩
        · exact Or.inl h1
        · right
          refine Or.inl ⟨em, Or.inr rfl, ?_⟩
          injection h2 with h3
          exact h3.symm
      · rw [if_neg htp] at h
        exact Or.inl h
    | ok stt =>
      rw [wStep_tout_ok] at h
      by_cases htp : s.toutPending = true
      · rw [if_pos htp] at h
        by_cases hlc : (stt = some "complete" ∨ stt = some "loading")
        · rw [if_pos hlc] at h
          exact Or.inl h
        · rw [if_neg hlc] at h
          rcases wSettle_outcome_cases h with h1 | ⟨h1, h2⟩
          · exact Or.inl h1
          · right
            refine Or.inr ⟨stt, rfl, hlc, ?_⟩
            injection h2 with h3
            exact h3.symm
      · rw [if_neg htp] at h
        exact Or.inl h
  | schedFire =>
    rw [wStep_sched] at h
    cases hsr : s.schedResolves with
    | nil =>
      rw [hsr] at h
      exact Or.inl h
    | cons a rest =>
      rw [hsr] at h
      have h5 : (wSettle { s with schedResolves := rest } WResult.resolved).outcome =
          some (WResult.rejected m) := h
      rcases wSettle_outcome_cases h5 with h1 | ⟨h1, h2⟩
      · exact Or.inl h1
      · cases h2

theorem runWaiter_reject_evidence_go (tabId timeout : Nat) (evs : List WEvent) (s : WaitSt)
    {m : String}
    (h : (evs.foldl (wStep tabId timeout) s).outcome = some (WResult.rejected m)) :
    s.outcome = some (WResult.rejected m) ∨ ∃ e ∈ evs, rejEvidence tabId timeout e m := by
  induction evs generalizing s with
  | nil => exact Or.inl h
  | cons a rest ih =>
    rcases ih (wStep tabId timeout s a) h with h1 | ⟨e2, he2, hev⟩
    · rcases wStep_reject_cases tabId timeout s a h1 with h2 | h2
      · exact Or.inl h2
      · exact Or.inr ⟨a, List.mem_cons_self _ _, h2⟩
    · exact Or.inr ⟨e2, List.mem_cons_of_mem _ he2, hev⟩

/-- C3 counterexample: the waiter does NOT reject only at the moment the
timeout elapses.  When the immediate `chrome.tabs.get` issued at call time
reports `lastError`, the waiter rejects at once: the event sequence consists of
that single lookup reply, no timeout timer fires and no timeout-handler lookup
occurs, and the promise is already rejected. -/
theorem c3_counterexample :
    (runWaiter 7 8000 [WEvent.initReply (Except.error "No tab with id")]).outcome =
      some (WResult.rejected (notFoundMsg 7 "No tab with id")) ∧
    [WEvent.initReply (Except.error "No tab with id")].countP isTimerFire = 0 ∧
    [WEvent.initReply (Except.error "No tab with id")].countP isToutReply = 0 :=
  ⟨rfl, rfl, rfl⟩

/-- C3 (amended): a rejection of the readiness waiter arises only from a failed
tab lookup (either the immediate one at call time — so the waiter CAN reject
long before the timeout — or the one issued by the timeout handler) or from the
timeout handler finding the tab in neither a "loading" nor a "complete" state;
a tab still "loading" when the timeout fires does not reject but schedules the
800 ms grace resolve; a "complete" detection (immediate check or later update
notification) schedules the 600 ms settle resolve; and a settled waiter promise
never changes its settlement, so the two detection paths cannot double-settle. -/
theorem c3_waiter (tabId timeout : Nat) :
    (∀ (evs : List WEvent) (m : String),
        (runWaiter tabId timeout evs).outcome = some (WResult.rejected m) →
          ∃ e ∈ evs, rejEvidence tabId timeout e m) ∧
    (∀ s : WaitSt, s.toutPending = true →
        (wStep tabId timeout s (WEvent.toutReply (Except.ok (some "loading")))).outcome =
            s.outcome ∧
        (wStep tabId timeout s
            (WEvent.toutReply (Except.ok (some "loading")))).schedResolves =
            s.schedResolves ++ [800]) ∧
    (∀ s : WaitSt, s.initPending = true →
        (wStep tabId timeout s
            (WEvent.initReply (Except.ok (some "complete")))).schedResolves =
            s.schedResolves ++ [600]) ∧
    (∀ s : WaitSt, s.listenerOn = true →
        (wStep tabId timeout s
            (WEvent.updated tabId (some "complete") none)).schedResolves =
            s.schedResolves ++ [600]) ∧
    (∀ (s : WaitSt) (e : WEvent) (r : WResult), s.outcome = some r →
        (wStep tabId timeout s e).outcome = some r) := by
  refine ⟨?_, ?_, ?_, ?_, ?_⟩
  · intro evs m h
    rcases runWaiter_reject_evidence_go tabId timeout evs waitInit h with h1 | h2
    · have h3 : (none : Option WResult) = some (WResult.rejected m) := h1
      cases h3
    · exact h2
  · intro s hs
    rw [wStep_tout_ok]
    rw [if_pos hs,
      if_pos (show some "loading" = some "complete" ∨ some "loading" = some "loading"
        from Or.inr rfl)]
    exact ⟨rfl, rfl⟩
  · intro s hs
    rw [wStep_init_ok]
    rw [if_pos hs, if_pos rfl]
    show (wCleanup { s with initPending := false }).schedResolves ++ [600] =
      s.schedResolves ++ [600]
    rw [wCleanup_sched]
  · intro s hs
    rw [wStep_updated]
    rw [if_pos (show (s.listenerOn && (tabId == tabId)) = true by simp [hs]),
      if_pos rfl]
    show (wCleanup s).schedResolves ++ [600] = s.schedResolves ++ [600]
    rw [wCleanup_sched]
  · intro s e r h
    exact wStep_outcome_mono tabId timeout s e h

/-- Witness for the amended C3: the call-time lookup failure produces rejection
evidence, and the immediate "complete" detection schedules the 600 ms settle
resolve. -/
theorem c3_waiter_witness :
    (∃ e ∈ [WEvent.initReply (Except.error "gone")],
        rejEvidence 3 9000 e (notFoundMsg 3 "gone")) ∧
    (wStep 3 9000 waitInit (WEvent.initReply (Except.ok (some "complete")))).schedResolves =
      waitInit.schedResolves ++ [600] :=
  ⟨(c3_waiter 3 9000).1 [WEvent.initReply (Except.error "gone")] (notFoundMsg 3 "gone") rfl,
   (c3_waiter 3 9000).2.2.1 waitInit rfl⟩

/-! ## Trace lemmas for the retry loop -/

theorem countP_log_segReload (a : Nat) (env : AttemptEnv) :
    (segReload a env).countP isLogAttempt = 0 := by
  unfold segReload
  split <;> rfl

theorem countP_log_segWait (a : Nat) (env : AttemptEnv) :
    (segWait a env).countP isLogAttempt = 0 := by
  unfold segWait
  cases env.waitRes <;> rfl

theorem countP_log_segDates (tc : TabSettings) :
    (segDates tc).countP isLogAttempt = 0 := by
  unfold segDates
  split <;> rfl

theorem countP_log_segSheet (tc : TabSettings) (env : AttemptEnv) :
    (segSheet tc env).countP isLogAttempt = 0 := by
  unfold segSheet
  cases captionOf tc env with
  | none => rfl
  | some f => cases env.sheetRes <;> rfl

theorem countP_clear_segReload (a : Nat) (env : AttemptEnv) :
    (segReload a env).countP isBadgeClear = 0 := by
  unfold segReload
  split <;> rfl

theorem countP_clear_segWait (a : Nat) (env : AttemptEnv) :
    (segWait a env).countP isBadgeClear = 0 := by
  unfold segWait
  cases env.waitRes <;> rfl

theorem countP_clear_segDates (tc : TabSettings) :
    (segDates tc).countP isBadgeClear = 0 := by
  unfold segDates
  split <;> rfl

theorem countP_clear_segSheet (tc : TabSettings) (env : AttemptEnv) :
    (segSheet tc env).countP isBadgeClear = 0 := by
  unfold segSheet
  cases captionOf tc env with
  | none => rfl
  | some f => cases env.sheetRes <;> rfl

theorem waits_segReload (a : Nat) (env : AttemptEnv) : waitsOf (segReload a env) = [] := by
  unfold waitsOf segReload
  split <;> rfl

theorem waits_segWait (a : Nat) (env : AttemptEnv) :
    waitsOf (segWait a env) = [6000 + a * 3000] := by
  unfold waitsOf segWait
  cases env.waitRes <;> rfl

theorem waits_segDates (tc : TabSettings) : waitsOf (segDates tc) = [] := by
  unfold waitsOf segDates
  split <;> rfl

theorem waits_segSheet (tc : TabSettings) (env : AttemptEnv) :
    waitsOf (segSheet tc env) = [] := by
  unfold waitsOf segSheet
  cases captionOf tc env with
  | none => rfl
  | some f => cases env.sheetRes <;> rfl

theorem waitsOf_append (l1 l2 : List Eff) :
    waitsOf (l1 ++ l2) = waitsOf l1 ++ waitsOf l2 := by
  unfold waitsOf
  exact List.filterMap_append _ _ _

theorem waitsOf_nil : waitsOf [] = [] := rfl

theorem waitsOf_cons_log (a : Nat) (l : List Eff) :
    waitsOf (Eff.logAttempt a :: l) = waitsOf l := rfl

theorem waitsOf_cons_ping (l : List Eff) : waitsOf (Eff.ping :: l) = waitsOf l := rfl

theorem waitsOf_cons_capture (l : List Eff) : waitsOf (Eff.captureE :: l) = waitsOf l := rfl

theorem waitsOf_cons_send (c : Option String) (l : List Eff) :
    waitsOf (Eff.sendE c :: l) = waitsOf l := rfl

theorem waitsOf_cons_badge (s : String) (l : List Eff) :
    waitsOf (Eff.badge s :: l) = waitsOf l := rfl

theorem waitsOf_cons_badgeColor (s : String) (l : List Eff) :
    waitsOf (Eff.badgeColor s :: l) = waitsOf l := rfl

theorem waitsOf_cons_clear (ms : Nat) (l : List Eff) :
    waitsOf (Eff.badgeClearAfter ms :: l) = waitsOf l := rfl

theorem waitsOf_cons_sleep (ms : Nat) (l : List Eff) :
    waitsOf (Eff.sleepE ms :: l) = waitsOf l := rfl

theorem waitsOf_cons_restore (i : Nat) (l : List Eff) :
    waitsOf (Eff.restoreTab i :: l) = waitsOf l := rfl

theorem attemptBody_log (a : Nat) (tc : TabSettings) (env : AttemptEnv) :
    (attemptBody a tc env).1.countP isLogAttempt = 1 := by
  unfold attemptBody
  by_cases hr : reloadThrew a env = true
  · rw [if_pos hr]
    show (Eff.logAttempt a :: segReload a env).countP isLogAttempt = 1
    simp [List.countP_cons, countP_log_segReload, isLogAttempt]
  · rw [if_neg hr]
    cases hc : env.captureRes with
    | error e =>
      simp [List.countP_append, List.countP_cons, countP_log_segReload,
        countP_log_segWait, countP_log_segDates, countP_log_segSheet, isLogAttempt]
    | ok v =>
      cases hs : env.sendRes with
      | error e2 =>
        simp [List.countP_append, List.countP_cons, countP_log_segReload,
          countP_log_segWait, countP_log_segDates, countP_log_segSheet, isLogAttempt]
      | ok u =>
        simp [List.countP_append, List.countP_cons, countP_log_segReload,
          countP_log_segWait, countP_log_segDates, countP_log_segSheet, isLogAttempt]

theorem attemptBody_waits (a : Nat) (tc : TabSettings) (env : AttemptEnv)
    (hw : reloadThrew a env = false) :
    waitsOf (attemptBody a tc env).1 = [6000 + a * 3000] := by
  unfold attemptBody
  rw [if_neg (by simp [hw])]
  cases hc : env.captureRes with
  | error e =>
    simp [waitsOf_append, waits_segReload, waits_segWait, waits_segDates,
      waits_segSheet, waitsOf_cons_log, waitsOf_cons_ping, waitsOf_cons_capture,
      waitsOf_cons_send, waitsOf_cons_badge, waitsOf_cons_badgeColor,
      waitsOf_cons_clear, waitsOf_nil]
  | ok v =>
    cases hs : env.sendRes with
    | error e2 =>
      simp [waitsOf_append, waits_segReload, waits_segWait, waits_segDates,
        waits_segSheet, waitsOf_cons_log, waitsOf_cons_ping, waitsOf_cons_capture,
        waitsOf_cons_send, waitsOf_cons_badge, waitsOf_cons_badgeColor,
        waitsOf_cons_clear, waitsOf_nil]
    | ok u =>
      simp [waitsOf_append, waits_segReload, waits_segWait, waits_segDates,
        waits_segSheet, waitsOf_cons_log, waitsOf_cons_ping, waitsOf_cons_capture,
        waitsOf_cons_send, waitsOf_cons_badge, waitsOf_cons_badgeColor,
        waitsOf_cons_clear, waitsOf_nil]

theorem attemptBody_fail_noclear (a : Nat) (tc : TabSettings) (env : AttemptEnv)
    (hf : ((attemptBody a tc env).2).isSome = true) :
    (attemptBody a tc env).1.countP isBadgeClear = 0 := by
  unfold attemptBody at hf ⊢
  by_cases hr : reloadThrew a env = true
  · rw [if_pos hr]
    show (Eff.logAttempt a :: segReload a env).countP isBadgeClear = 0
    simp [List.countP_cons, countP_clear_segReload, isBadgeClear]
  · rw [if_neg (by simp [hr])] at hf ⊢
    cases hc : env.captureRes with
    | error e =>
      simp [List.countP_append, List.countP_cons, countP_clear_segReload,
        countP_clear_segWait, countP_clear_segDates, countP_clear_segSheet, isBadgeClear]
    | ok v =>
      rw [hc] at hf
      cases hs : env.sendRes with
      | error e2 =>
        simp [List.countP_append, List.countP_cons, countP_clear_segReload,
          countP_clear_segWait, countP_clear_segDates, countP_clear_segSheet, isBadgeClear]
      | ok u =>
        rw [hs] at hf
        simp at hf

theorem attemptBody_success_mem (a : Nat) (tc : TabSettings) (env : AttemptEnv)
    (h : (attemptBody a tc env).2 = none) :
    Eff.badge "✓" ∈ (attemptBody a tc env).1 ∧
    Eff.badgeClearAfter 3000 ∈ (attemptBody a tc env).1 := by
  unfold attemptBody at h ⊢
  by_cases hr : reloadThrew a env = true
  · rw [if_pos hr] at h
    exfalso
    unfold reloadThrew at hr
    cases hrel : env.reloadRes with
    | ok u =>
      rw [hrel] at hr
      simp at hr
    | error e =>
      rw [hrel] at h
      simp at h
  · rw [if_neg (by simp [hr])] at h ⊢
    cases hc : env.captureRes with
    | error e =>
      rw [hc] at h
      simp at h
    | ok v =>
      rw [hc] at h
      cases hs : env.sendRes with
      | error e2 =>
        rw [hs] at h
        simp at h
      | ok u =>
        constructor <;> simp

theorem countP_log_rest (originalTab : Option Nat) (tabId : Nat) :
    (restOf originalTab tabId).countP isLogAttempt = 0 := by
  unfold restOf
  cases originalTab with
  | none => rfl
  | some o =>
    dsimp only
    split <;> rfl

theorem countP_clear_rest (originalTab : Option Nat) (tabId : Nat) :
    (restOf originalTab tabId).countP isBadgeClear = 0 := by
  unfold restOf
  cases originalTab with
  | none => rfl
  | some o =>
    dsimp only
    split <;> rfl

theorem waits_rest (originalTab : Option Nat) (tabId : Nat) :
    waitsOf (restOf originalTab tabId) = [] := by
  unfold restOf
  cases originalTab with
  | none => rfl
  | some o =>
    dsimp only
    split <;> rfl

theorem envAllFail_reload (a : Nat) : reloadThrew a (envAllFail a) = false := by
  unfold reloadThrew envAllFail
  simp

theorem envAllFail_fails (a : Nat) (tc : TabSettings) :
    (attemptBody a tc (envAllFail a)).2 = some "capture failed" := by
  unfold attemptBody
  rw [if_neg (by simp [envAllFail_reload])]
  rfl

theorem runJobGo_succ (tc : TabSettings) (ot : Option Nat) (ti : Nat)
    (envs : Nat → AttemptEnv) (fuel attempt : Nat) :
    runJobGo tc ot ti envs (fuel + 1) attempt =
      match (attemptBody attempt tc (envs attempt)).2 with
      | none => ((attemptBody attempt tc (envs attempt)).1, true)
      | some _ =>
        if attempt == DEFAULT_RETRY then
          ((attemptBody attempt tc (envs attempt)).1 ++
            [Eff.badge "✗", Eff.badgeColor "#F44336"] ++
            restOf ot ti, false)
        else
          ((attemptBody attempt tc (envs attempt)).1 ++
            [Eff.badge "✗", Eff.badgeColor "#F44336"] ++
            [Eff.sleepE (800 + attempt * 400)] ++
            (runJobGo tc ot ti envs fuel (attempt + 1)).1,
           (runJobGo tc ot ti envs fuel (attempt + 1)).2) := rfl

/-- C4: when the stored credentials are present and every attempt of the job
fails (here with the reload itself surviving, so the waiter is reached), the
retry loop of `runJobForTab` performs exactly `DEFAULT_RETRY + 1 = 3` attempts
and then reports failure, and the readiness timeouts passed to the waiter are
`6000 + attempt * 3000`, i.e. the strictly increasing sequence
6 s, 9 s, 12 s. -/
theorem c4_retry_bound (tabId : Nat) (global : GlobalSettings) (tabConf : TabSettings)
    (originalTab : Option Nat) (envs : Nat → AttemptEnv)
    (htok : truthy global.botToken = true) (hchat : truthy tabConf.chatId = true)
    (hfail : ∀ a, ((attemptBody a tabConf (envs a)).2).isSome = true)
    (hw : ∀ a, reloadThrew a (envs a) = false) :
    (runJobForTab tabId global tabConf originalTab envs).1.countP isLogAttempt = 3 ∧
    (runJobForTab tabId global tabConf originalTab envs).2 = false ∧
    waitsOf (runJobForTab tabId global tabConf originalTab envs).1 =
      [6000, 9000, 12000] ∧
    List.Chain' (fun x y => x < y)
      (waitsOf (runJobForTab tabId global tabConf originalTab envs).1) := by
  obtain ⟨m0, hm0⟩ := Option.isSome_iff_exists.mp (hfail 0)
  obtain ⟨m1, hm1⟩ := Option.isSome_iff_exists.mp (hfail 1)
  obtain ⟨m2, hm2⟩ := Option.isSome_iff_exists.mp (hfail 2)
  have hrun : runJobForTab tabId global tabConf originalTab envs =
      runJobGo tabConf originalTab tabId envs 3 0 := by
    unfold runJobForTab
    rw [if_pos (by rw [htok, hchat]; rfl)]
    rfl
  have h2 : runJobGo tabConf originalTab tabId envs 1 2 =
      ((attemptBody 2 tabConf (envs 2)).1 ++
        [Eff.badge "✗", Eff.badgeColor "#F44336"] ++
        restOf originalTab tabId, false) := by
    rw [runJobGo_succ tabConf originalTab tabId envs 0 2, hm2]
    dsimp only
    rw [if_pos (show ((2 == DEFAULT_RETRY) = true) by decide)]
  have h1 : runJobGo tabConf originalTab tabId envs 2 1 =
      ((attemptBody 1 tabConf (envs 1)).1 ++
        [Eff.badge "✗", Eff.badgeColor "#F44336"] ++
        [Eff.sleepE (800 + 1 * 400)] ++
        (runJobGo tabConf originalTab tabId envs 1 2).1,
       (runJobGo tabConf originalTab tabId envs 1 2).2) := by
    rw [runJobGo_succ tabConf originalTab tabId envs 1 1, hm1]
    dsimp only
    rw [if_neg (show ¬((1 == DEFAULT_RETRY) = true) by decide)]
  have h0 : runJobGo tabConf originalTab tabId envs 3 0 =
      ((attemptBody 0 tabConf (envs 0)).1 ++
        [Eff.badge "✗", Eff.badgeColor "#F44336"] ++
        [Eff.sleepE (800 + 0 * 400)] ++
        (runJobGo tabConf originalTab tabId envs 2 1).1,
       (runJobGo tabConf originalTab tabId envs 2 1).2) := by
    rw [runJobGo_succ tabConf originalTab tabId envs 2 0, hm0]
    dsimp only
    rw [if_neg (show ¬((0 == DEFAULT_RETRY) = true) by decide)]
  have htr : runJobForTab tabId global tabConf originalTab envs =
      ((attemptBody 0 tabConf (envs 0)).1 ++
        [Eff.badge "✗", Eff.badgeColor "#F44336"] ++
        [Eff.sleepE (800 + 0 * 400)] ++
        ((attemptBody 1 tabConf (envs 1)).1 ++
          [Eff.badge "✗", Eff.badgeColor "#F44336"] ++
          [Eff.sleepE (800 + 1 * 400)] ++
          ((attemptBody 2 tabConf (envs 2)).1 ++
            [Eff.badge "✗", Eff.badgeColor "#F44336"] ++
            restOf originalTab tabId)), false) := by
    rw [hrun, h0, h1, h2]
  have hcount : (runJobForTab tabId global tabConf originalTab envs).1.countP
      isLogAttempt = 3 := by
    rw [htr]
    simp [List.countP_append, List.countP_cons, attemptBody_log, countP_log_rest,
      isLogAttempt]
  have hsnd : (runJobForTab tabId global tabConf originalTab envs).2 = false := by
    rw [htr]
  have hwaits : waitsOf (runJobForTab tabId global tabConf originalTab envs).1 =
      [6000, 9000, 12000] := by
    rw [htr]
    simp [waitsOf_append, attemptBody_waits 0 tabConf (envs 0) (hw 0),
      attemptBody_waits 1 tabConf (envs 1) (hw 1),
      attemptBody_waits 2 tabConf (envs 2) (hw 2), waits_rest,
      waitsOf_cons_badge, waitsOf_cons_badgeColor, waitsOf_cons_sleep, waitsOf_nil]
  refine ⟨hcount, hsnd, hwaits, ?_⟩
  rw [hwaits]
  norm_num [List.chain'_cons]

/-- Witness for C4: with valid credentials and an environment whose capture
fails on every attempt, the job logs three attempts, fails, and requests the
waiter timeouts 6 s, 9 s, 12 s in strictly increasing order. -/
theorem c4_retry_bound_witness :
    (runJobForTab 1 gsBasic tcBasic (some 2) envAllFail).1.countP isLogAttempt = 3 ∧
    (runJobForTab 1 gsBasic tcBasic (some 2) envAllFail).2 = false ∧
    waitsOf (runJobForTab 1 gsBasic tcBasic (some 2) envAllFail).1 =
      [6000, 9000, 12000] ∧
    List.Chain' (fun x y => x < y)
      (waitsOf (runJobForTab 1 gsBasic tcBasic (some 2) envAllFail).1) :=
  c4_retry_bound 1 gsBasic tcBasic (some 2) envAllFail rfl rfl
    (fun a => by rw [envAllFail_fails a tcBasic]; rfl)
    (fun a => envAllFail_reload a)

/-! ## C7: indicators and focus restoration at the end of a job -/

/-- C7 counterexample: the failure badge does NOT auto-clear.  In the concrete
all-attempts-fail run the trace sets the "✗" badge but contains no scheduled
badge clear at all — only the success path schedules the 3000 ms clear. -/
theorem c7_counterexample :
    Eff.badge "✗" ∈ (runJobForTab 1 gsBasic tcBasic (some 2) envAllFail).1 ∧
    (runJobForTab 1 gsBasic tcBasic (some 2) envAllFail).1.countP isBadgeClear = 0 := by
  constructor
  · decide
  · decide

/-- C7 (amended): at total failure the "✗" badge is set and the
previously-focused tab is restored when it is known and distinct from the job's
tab, but the failure badge never auto-clears: the fixed 3000 ms clear is
scheduled only on the success path together with the "✓" badge. -/
theorem c7_badges (tabId o : Nat) (global : GlobalSettings) (tabConf : TabSettings)
    (envs : Nat → AttemptEnv)
    (htok : truthy global.botToken = true) (hchat : truthy tabConf.chatId = true) :
    ((∀ a, ((attemptBody a tabConf (envs a)).2).isSome = true) → o ≠ tabId →
      Eff.restoreTab o ∈ (runJobForTab tabId global tabConf (some o) envs).1 ∧
      Eff.badge "✗" ∈ (runJobForTab tabId global tabConf (some o) envs).1 ∧
      (runJobForTab tabId global tabConf (some o) envs).1.countP isBadgeClear = 0) ∧
    ((attemptBody 0 tabConf (envs 0)).2 = none →
      Eff.badge "✓" ∈ (runJobForTab tabId global tabConf (some o) envs).1 ∧
      Eff.badgeClearAfter 3000 ∈ (runJobForTab tabId global tabConf (some o) envs).1) := by
  have hrun : runJobForTab tabId global tabConf (some o) envs =
      runJobGo tabConf (some o) tabId envs 3 0 := by
    unfold runJobForTab
    rw [if_pos (by rw [htok, hchat]; rfl)]
    rfl
  constructor
  · intro hfail ho
    obtain ⟨m0, hm0⟩ := Option.isSome_iff_exists.mp (hfail 0)
    obtain ⟨m1, hm1⟩ := Option.isSome_iff_exists.mp (hfail 1)
    obtain ⟨m2, hm2⟩ := Option.isSome_iff_exists.mp (hfail 2)
    have h2 : runJobGo tabConf (some o) tabId envs 1 2 =
        ((attemptBody 2 tabConf (envs 2)).1 ++
          [Eff.badge "✗", Eff.badgeColor "#F44336"] ++ [Eff.restoreTab o], false) := by
      rw [runJobGo_succ tabConf (some o) tabId envs 0 2, hm2]
      dsimp only
      rw [if_pos (show ((2 == DEFAULT_RETRY) = true) by decide)]
      dsimp only [restOf]
      rw [if_pos ho]
    have h1 : runJobGo tabConf (some o) tabId envs 2 1 =
        ((attemptBody 1 tabConf (envs 1)).1 ++
          [Eff.badge "✗", Eff.badgeColor "#F44336"] ++
          [Eff.sleepE (800 + 1 * 400)] ++
          (runJobGo tabConf (some o) tabId envs 1 2).1,
         (runJobGo tabConf (some o) tabId envs 1 2).2) := by
      rw [runJobGo_succ tabConf (some o) tabId envs 1 1, hm1]
      dsimp only
      rw [if_neg (show ¬((1 == DEFAULT_RETRY) = true) by decide)]
    have h0 : runJobGo tabConf (some o) tabId envs 3 0 =
        ((attemptBody 0 tabConf (envs 0)).1 ++
          [Eff.badge "✗", Eff.badgeColor "#F44336"] ++
          [Eff.sleepE (800 + 0 * 400)] ++
          (runJobGo tabConf (some o) tabId envs 2 1).1,
         (runJobGo tabConf (some o) tabId envs 2 1).2) := by
      rw [runJobGo_succ tabConf (some o) tabId envs 2 0, hm0]
      dsimp only
      rw [if_neg (show ¬((0 == DEFAULT_RETRY) = true) by decide)]
    have htr : runJobForTab tabId global tabConf (some o) envs =
        ((attemptBody 0 tabConf (envs 0)).1 ++
          [Eff.badge "✗", Eff.badgeColor "#F44336"] ++
          [Eff.sleepE (800 + 0 * 400)] ++
          ((attemptBody 1 tabConf (envs 1)).1 ++
            [Eff.badge "✗", Eff.badgeColor "#F44336"] ++
            [Eff.sleepE (800 + 1 * 400)] ++
            ((attemptBody 2 tabConf (envs 2)).1 ++
              [Eff.badge "✗", Eff.badgeColor "#F44336"] ++ [Eff.restoreTab o])), false) := by
      rw [hrun, h0, h1, h2]
    refine ⟨?_, ?_, ?_⟩
    · rw [htr]
      simp
    · rw [htr]
      simp
    · rw [htr]
      simp [List.countP_append, List.countP_cons, isBadgeClear,
        attemptBody_fail_noclear 0 tabConf (envs 0) (by rw [hm0]; rfl),
        attemptBody_fail_noclear 1 tabConf (envs 1) (by rw [hm1]; rfl),
        attemptBody_fail_noclear 2 tabConf (envs 2) (by rw [hm2]; rfl)]
  · intro hsucc
    have h0 : runJobGo tabConf (some o) tabId envs 3 0 =
        ((attemptBody 0 tabConf (envs 0)).1, true) := by
      rw [runJobGo_succ tabConf (some o) tabId envs 2 0, hsucc]
    rw [hrun, h0]
    exact attemptBody_success_mem 0 tabConf (envs 0) hsucc

/-- Witness for the amended C7 at concrete runs: the all-fail run restores tab
2, shows "✗" and schedules no clear; the all-success run shows "✓" and
schedules the 3000 ms clear. -/
theorem c7_badges_witness :
    (Eff.restoreTab 2 ∈ (runJobForTab 1 gsBasic tcBasic (some 2) envAllFail).1 ∧
     Eff.badge "✗" ∈ (runJobForTab 1 gsBasic tcBasic (some 2) envAllFail).1 ∧
     (runJobForTab 1 gsBasic tcBasic (some 2) envAllFail).1.countP isBadgeClear = 0) ∧
    (Eff.badge "✓" ∈ (runJobForTab 1 gsBasic tcBasic (some 2) envAllOk).1 ∧
     Eff.badgeClearAfter 3000 ∈ (runJobForTab 1 gsBasic tcBasic (some 2) envAllOk).1) :=
  ⟨(c7_badges 1 2 gsBasic tcBasic envAllFail rfl rfl).1
      (fun a => by rw [envAllFail_fails a tcBasic]; rfl) (by decide),
   (c7_badges 1 2 gsBasic tcBasic envAllOk rfl rfl).2 rfl⟩

/-! ## C6: the delivery retry loop -/

theorem sendGo_succ (post : Nat → Except String Unit) (retries fuel attempt : Nat) :
    sendGo post retries (fuel + 1) attempt =
      match post attempt with
      | Except.ok _ => ([SEff.postPhoto attempt], Except.ok ())
      | Except.error e =>
        if attempt = retries then
          ([SEff.postPhoto attempt], Except.error (telegramFailMsg retries e))
        else
          (SEff.postPhoto attempt :: SEff.sleepMs (2000 * attempt) ::
            (sendGo post retries fuel (attempt + 1)).1,
           (sendGo post retries fuel (attempt + 1)).2) := rfl

/-- C6: `sendToTelegram` returns normally as soon as one of its (at most 3)
posting attempts succeeds, sleeps `2000 * attempt` ms between failed attempts
(multiplicative backoff 2 s, 4 s), and throws only after all 3 attempts failed,
with the thrown message embedding the last attempt's error. -/
theorem c6_delivery_retry (post : Nat → Except String Unit) :
    (post 1 = Except.ok () → sendToTelegram post = ([SEff.postPhoto 1], Except.ok ())) ∧
    (∀ e1, post 1 = Except.error e1 → post 2 = Except.ok () →
        sendToTelegram post =
          ([SEff.postPhoto 1, SEff.sleepMs 2000, SEff.postPhoto 2], Except.ok ())) ∧
    (∀ e1 e2, post 1 = Except.error e1 → post 2 = Except.error e2 →
        post 3 = Except.ok () →
        sendToTelegram post =
          ([SEff.postPhoto 1, SEff.sleepMs 2000, SEff.postPhoto 2, SEff.sleepMs 4000,
            SEff.postPhoto 3], Except.ok ())) ∧
    (∀ e1 e2 e3, post 1 = Except.error e1 → post 2 = Except.error e2 →
        post 3 = Except.error e3 →
        sendToTelegram post =
          ([SEff.postPhoto 1, SEff.sleepMs 2000, SEff.postPhoto 2, SEff.sleepMs 4000,
            SEff.postPhoto 3], Except.error (telegramFailMsg 3 e3))) ∧
    (∀ n lastErr, ∃ pre, telegramFailMsg n lastErr = pre ++ lastErr) := by
  refine ⟨?_, ?_, ?_, ?_, ?_⟩
  · intro h1
    show sendGo post 3 3 1 = _
    rw [sendGo_succ post 3 2 1, h1]
  · intro e1 h1 h2
    show sendGo post 3 3 1 = _
    rw [sendGo_succ post 3 2 1, h1]
    dsimp only
    rw [if_neg (show ¬(1 = 3) by decide)]
    rw [sendGo_succ post 3 1 2, h2]
  · intro e1 e2 h1 h2 h3
    show sendGo post 3 3 1 = _
    rw [sendGo_succ post 3 2 1, h1]
    dsimp only
    rw [if_neg (show ¬(1 = 3) by decide)]
    rw [sendGo_succ post 3 1 2, h2]
    dsimp only
    rw [if_neg (show ¬(2 = 3) by decide)]
    rw [sendGo_succ post 3 0 3, h3]
  · intro e1 e2 e3 h1 h2 h3
    show sendGo post 3 3 1 = _
    rw [sendGo_succ post 3 2 1, h1]
    dsimp only
    rw [if_neg (show ¬(1 = 3) by decide)]
    rw [sendGo_succ post 3 1 2, h2]
    dsimp only
    rw [if_neg (show ¬(2 = 3) by decide)]
    rw [sendGo_succ post 3 0 3, h3]
    dsimp only
    rw [if_pos rfl]
  · intro n lastErr
    exact ⟨"Gửi Telegram thất bại sau " ++ toString n ++ " lần thử: ", rfl⟩

/-- Witness for C6: a post that always fails with "net down" makes the delivery
sleep 2 s then 4 s and throw the message embedding the last error. -/
theorem c6_delivery_retry_witness :
    sendToTelegram (fun _ => Except.error "net down") =
      ([SEff.postPhoto 1, SEff.sleepMs 2000, SEff.postPhoto 2, SEff.sleepMs 4000,
        SEff.postPhoto 3], Except.error (telegramFailMsg 3 "net down")) :=
  (c6_delivery_retry (fun _ => Except.error "net down")).2.2.2.1
    "net down" "net down" "net down" rfl rfl rfl

/-! ## C8: region crop correctness -/

/-- C8: when a capture region with positive width and height is registered for
the tab (memory cache first, then storage) with stored device pixel ratio
`dpr0` (defaulted to 1 when falsy), the cropped output has dimensions
`width·d × height·d` and its pixel at `(i, j)` is the source pixel at
`(x·d + i, y·d + j)` where `d = dpr0 || 1`; when no region is registered, or
the registered region has non-positive width or height, the raw image is
returned unchanged. -/
theorem c8_region_crop (mem storage : Nat → Option (CaptureRegion × ℚ)) (tabId : Nat)
    (raw : JSImage) :
    (∀ region dpr0, lookupRegion mem storage tabId = some (region, dpr0) →
        0 < region.width → 0 < region.height →
        (captureTabPost mem storage tabId raw).width = region.width * jsOr1 dpr0 ∧
        (captureTabPost mem storage tabId raw).height = region.height * jsOr1 dpr0 ∧
        (∀ i j, (captureTabPost mem storage tabId raw).pix i j =
            raw.pix (region.x * jsOr1 dpr0 + i) (region.y * jsOr1 dpr0 + j))) ∧
    (∀ region dpr0, lookupRegion mem storage tabId = some (region, dpr0) →
        region.width ≤ 0 ∨ region.height ≤ 0 →
        captureTabPost mem storage tabId raw = raw) ∧
    (lookupRegion mem storage tabId = none →
        captureTabPost mem storage tabId raw = raw) := by
  refine ⟨?_, ?_, ?_⟩
  · intro region dpr0 hl hwpos hhpos
    unfold captureTabPost captureProcess
    rw [hl]
    dsimp only
    rw [if_pos ⟨hwpos, hhpos⟩]
    exact ⟨rfl, rfl, fun i j => rfl⟩
  · intro region dpr0 hl hle
    unfold captureTabPost captureProcess
    rw [hl]
    dsimp only
    rw [if_neg ?_]
    intro hcon
    rcases hle with h | h
    · exact absurd hcon.1 (not_lt.mpr h)
    · exact absurd hcon.2 (not_lt.mpr h)
  · intro hl
    unfold captureTabPost captureProcess
    rw [hl]

/-- Witness for C8: tab 5's cached region (dpr 2) crops `rawImg` as specified,
and tab 7 with no registered region gets the raw image back. -/
theorem c8_region_crop_witness :
    (captureTabPost memA stoA 5 rawImg).width = regA.width * jsOr1 2 ∧
    (captureTabPost memA stoA 5 rawImg).height = regA.height * jsOr1 2 ∧
    (captureTabPost memA stoA 5 rawImg).pix 3 4 =
      rawImg.pix (regA.x * jsOr1 2 + 3) (regA.y * jsOr1 2 + 4) ∧
    captureTabPost memA stoA 7 rawImg = rawImg := by
  have h := (c8_region_crop memA stoA 5 rawImg).1 regA 2 rfl
    (by norm_num [regA]) (by norm_num [regA])
  exact ⟨h.1, h.2.1, h.2.2 3 4, (c8_region_crop memA stoA 7 rawImg).2.2 rfl⟩

/-! ## C10: the credential gate of runJobForTab -/

/-- C10: when the stored configuration lacks a truthy bot token or a truthy
chat id, `runJobForTab` returns immediately before the retry loop: the effect
trace is empty (no reload, wait, capture, delivery, retry or badge) and the job
reports normal completion, so the returned promise fulfills. -/
theorem c10_missing_credentials (tabId : Nat) (global : GlobalSettings)
    (tabConf : TabSettings) (originalTab : Option Nat) (envs : Nat → AttemptEnv)
    (h : (truthy global.botToken && truthy tabConf.chatId) = false) :
    runJobForTab tabId global tabConf originalTab envs = ([], true) := by
  unfold runJobForTab
  rw [if_neg (by simp [h])]

/-- Witness for C10: with no bot token configured the job is silently
skipped. -/
theorem c10_missing_credentials_witness :
    runJobForTab 1 { botToken := none } tcBasic none envAllOk = ([], true) :=
  c10_missing_credentials 1 { botToken := none } tcBasic none envAllOk rfl

end Camp
